import Mathlib

/-!
# NNCP: the tossing engine and its collaborators

A shallow embedding of `cypherpunks.ru/nncp` (`toss.go`, `cmd/nncp-reass/main.go`):
the per-job dispatch of `Ctx.Toss` as a function on an explicit world state
(file system, calls to the transmit functions, commands run, log), with the
operating system's answers supplied by an environment of oracles.
-/

namespace Nncp

/-! ## Strings and paths -/

/-- Go strings and byte slices: a sequence of bytes, one `Char` standing for one byte. -/
abbrev Str := List Char

/-- The decimal numeral of a non-negative `int`, as `strconv.Itoa` prints it. -/
def itoa (n : Nat) : Str := Nat.toDigits 10 n

/-- Unix `filepath.IsAbs`: the path starts with a slash. -/
def isAbs : Str → Bool
  | c :: _ => c == '/'
  | [] => false

/-- The element-wise work of `path.Clean`: empty and `.` elements are dropped, a `..`
element removes the preceding non-`..` element, is dropped at the root of a rooted
path and is kept at the start of a relative one. `acc` is the output so far, reversed. -/
def cleanSegs (rooted : Bool) : List Str → List Str → List Str
  | acc, [] => acc.reverse
  | acc, s :: rest =>
    if s = [] ∨ s = ['.'] then cleanSegs rooted acc rest
    else if s = ['.', '.'] then
      match acc with
      | top :: acc' =>
        if top = ['.', '.'] then cleanSegs rooted (s :: acc) rest
        else cleanSegs rooted acc' rest
      | [] => if rooted then cleanSegs rooted [] rest else cleanSegs rooted [s] rest
    else cleanSegs rooted (s :: acc) rest

/-- Go `path.Clean` (and Unix `filepath.Clean`): the shortest path name equivalent to
`p` by purely lexical processing. -/
def clean (p : Str) : Str :=
  if p = [] then ['.']
  else
    let body := List.intercalate ['/'] (cleanSegs (isAbs p) [] (p.splitOn '/'))
    if isAbs p then '/' :: body
    else if body = [] then ['.'] else body

/-- Unix `filepath.Join` of two elements: leading empty elements are skipped, the rest
is joined with slashes and cleaned; all elements empty gives the empty string. -/
def join (a b : Str) : Str :=
  if a ≠ [] then clean (a ++ '/' :: b)
  else if b ≠ [] then clean b
  else []

/-- Go `path.Dir`: everything up to and including the last slash, cleaned. -/
def dir (p : Str) : Str :=
  clean (p.reverse.dropWhile (fun c => c != '/')).reverse

/-- The paths `os.MkdirAll(p)` makes sure are directories: `p` and each of its
parents (the non-empty prefixes of `p` that end right before a slash). -/
def mkdirAllPaths (p : Str) : List Str :=
  (p.inits.filter (fun q => q ≠ [] ∧ q ≠ p ∧ (p.drop q.length).head? = some '/')) ++ [p]

/-! ## Data model -/

/-- A node identifier: a 32-byte BLAKE2b-256 digest. -/
abbrev NodeId := Str

/-- Inner packet type tag (`PktType`). -/
inductive PktType
  | file
  | freq
  | exec
  | trns
  | other (tag : Nat)
  deriving DecidableEq, Repr

/-- The inner packet header `Pkt` as `Toss` uses it; `path` is `pkt.Path[:pkt.PathLen]`. -/
structure Pkt where
  type : PktType
  nice : Nat
  path : Str
  deriving DecidableEq, Repr

/-- The per-node configuration `Node`, restricted to the fields `Toss` reads. -/
structure Node where
  name : Str
  id : NodeId
  exec : List (Str × List Str)
  incoming : Option Str
  freq : Option Str
  freqChunked : Int
  freqMinSize : Int
  deriving DecidableEq, Repr

/-- Notification addresses (`FromToYAML`). -/
structure FromTo where
  mailFrom : Str
  mailTo : Str
  deriving DecidableEq, Repr

/-- A call of one of the transmit functions of the context, `TxFile`, `TxFileChunked`
or `TxTrns`, with its arguments; `body` is what the reader handed to `TxTrns` yields. -/
inductive TxCall
  | file (node : Node) (nice : Nat) (src dst : Str) (minSize : Int)
  | fileChunked (node : Node) (nice : Nat) (src dst : Str) (minSize chunkSize : Int)
  | trns (node : Node) (nice : Nat) (size : Int) (body : Str)
  deriving DecidableEq, Repr

/-- The part of `Ctx` that `Toss` reads. `pktEncOverhead` and `pktOverhead` are the
package constants `PktEncOverhead` and `PktOverhead`, small positive sizes; the size
of a job is the size of a file, so the `int64` subtraction `job.Size - PktEncOverhead -
PktOverhead` does not wrap and is the subtraction of integers. -/
structure Ctx where
  self : NodeId
  selfId : NodeId
  neigh : List (NodeId × Node)
  notifyFile : Option FromTo
  notifyFreq : Option FromTo
  pktEncOverhead : Int
  pktOverhead : Int

/-- One rx job as `ctx.Jobs` yields it, together with what the decrypting goroutine
of `Toss` sends down the pipe for it: `decErr` tells whether `PktEncRead` returned an
error, `pkt` is the result of `xdr.Unmarshal(pipeR, &pkt)` (`none` when it returns an
error, as it does when the pipe is closed before a whole header was written), and
`body` is what can be read from the pipe after the header until it is closed. -/
structure Job where
  name : Str
  sender : NodeId
  nice : Nat
  size : Int
  decErr : Bool
  pkt : Option Pkt
  body : Str
  deriving DecidableEq, Repr

/-- The arguments of `Toss` other than the node. -/
structure Flags where
  nice : Nat
  dryRun : Bool
  doSeen : Bool
  noFile : Bool
  noFreq : Bool
  noExec : Bool
  noTrns : Bool
  deriving DecidableEq, Repr

/-! ## World state -/


/-- What a started command reads on its standard input. -/
inductive Stdin
  | zlibOf (body : Str)
  | notifyFile (ft : FromTo) (senderName dst : Str) (size : Int)
  | notifyFreq (ft : FromTo) (senderName src : Str)
  deriving DecidableEq, Repr

/-- A command started through `exec.Command(...).Run()`; `nncpEnv` holds the values
of `NNCP_SELF`, `NNCP_SENDER` and `NNCP_NICE` when they are set. -/
structure CmdRun where
  argv : List Str
  nncpEnv : Option (NodeId × NodeId × Nat)
  stdin : Stdin
  deriving DecidableEq, Repr

/-- Log levels of `ctx.LogD`, `ctx.LogI`, `ctx.LogE`. -/
inductive Level
  | debug
  | info
  | error
  deriving DecidableEq, Repr

/-- A call of `os.Create` or of `os.Remove` that `Toss` makes at the end of a job, with
the path and whether the call returned an error. -/
inductive FsCall
  | create (p : Str) (failed : Bool)
  | remove (p : Str) (failed : Bool)
  deriving DecidableEq, Repr

/-- Everything `Toss` can change: regular files with their content, directories,
the calls made to `TxFile`, `TxFileChunked` and `TxTrns`, the commands started, the
records logged by the loop of `Toss` (level and message), and the calls of `os.Create`
and `os.Remove` that `Toss` has made, in their order. -/
structure World where
  files : List (Str × Str)
  dirs : List Str
  txCalls : List TxCall
  cmds : List CmdRun
  log : List (Level × String)
  fsCalls : List FsCall := []
  deriving DecidableEq, Repr

/-- The answers of the operating system and of the functions of the package that are
called by `Toss` but defined elsewhere. Each field tells whether the call returns an
error. `tempFile w d` is the name `ioutil.TempFile(d, "nncp-file")` creates (`none`: it
fails); `stored t p` is what has reached the file `t` when writing `p` to it fails. -/
structure Env where
  zlibErr : Str → Bool
  cmdErr : CmdRun → Bool
  mkdirAllErr : Str → Bool
  tempFile : World → Str → Option Str
  copyErr : Str → Str → Bool
  flushErr : Str → Str → Bool
  stored : Str → Str → Str
  statErr : Str → Bool
  renameErr : Str → Str → Bool
  createErr : Str → Bool
  removeErr : Str → Bool
  txFileErr : TxCall → Bool
  txTrnsErr : TxCall → Bool

namespace World

/-- Some file or directory has the name `p`. -/
def pathExists (w : World) (p : Str) : Bool :=
  w.files.any (fun e => e.1 == p) || w.dirs.contains p

/-- The content of the regular file `p`, if there is one. -/
def readFile (w : World) (p : Str) : Option Str :=
  (w.files.find? (fun e => e.1 == p)).map (fun e => e.2)

/-- The regular file `p` gets the content `c`. -/
def writeFile (w : World) (p c : Str) : World :=
  { w with files := (p, c) :: w.files.filter (fun e => e.1 != p) }

/-- The regular file `p` is unlinked. -/
def unlink (w : World) (p : Str) : World :=
  { w with files := w.files.filter (fun e => e.1 != p) }

/-- The directories `ds` exist afterwards. -/
def addDirs (w : World) (ds : List Str) : World :=
  { w with dirs := w.dirs ++ ds.filter (fun d => !w.dirs.contains d) }

/-- A record is appended to the log. -/
def logMsg (w : World) (l : Level) (msg : String) : World :=
  { w with log := w.log ++ [(l, msg)] }

/-- A call of `os.Create` or `os.Remove` is recorded. -/
def called (w : World) (c : FsCall) : World :=
  { w with fsCalls := w.fsCalls ++ [c] }

end World

namespace World

/-- Whether `p` names a regular file. -/
def isFile (w : World) (p : Str) : Bool :=
  w.files.any (fun e => e.1 == p)

/-- The file `a` gets the name `b` (`os.Rename` succeeding). -/
def rename (w : World) (a b : Str) : World :=
  match w.readFile a with
  | some c => (w.unlink a).writeFile b c
  | none => w

/-- A call of a transmit function is recorded. -/
def tx (w : World) (t : TxCall) : World :=
  { w with txCalls := w.txCalls ++ [t] }

/-- A started command is recorded. -/
def run (w : World) (r : CmdRun) : World :=
  { w with cmds := w.cmds ++ [r] }

end World

/-! ## Tossing -/

/-- The constant `SeenSuffix`. -/
def SeenSuffix : Str := ".seen".toList

/-- How the work on a job ends: the loop goes on (`ok`), `log.Fatalln` ends the
process (`fatal`), a nil pointer is dereferenced (`panic`), or a loop of the model
has used up its fuel (`diverge`). -/
inductive Ctl
  | ok
  | fatal
  | panic
  | diverge
  deriving DecidableEq, Repr

/-- The outcome of the work on one job (`bad`: the job sets `isBad`), and of a whole
run of `Toss` (`bad`: the value returned when `ctl` is `ok`). -/
structure Step where
  ctl : Ctl
  bad : Bool
  world : World
  deriving DecidableEq, Repr

/-- The three answers of `os.Stat` that the callers tell apart. -/
inductive StatRes
  | found
  | notExist
  | failed
  deriving DecidableEq, Repr

/-- The call `os.Stat(p)`. -/
def stat (e : Env) (w : World) (p : Str) : StatRes :=
  if e.statErr p then .failed
  else if w.pathExists p then .found
  else .notExist

/-- The result of the search for a free destination name. -/
inductive DstSearch
  | chosen (p : Str)
  | statFailed
  | outOfFuel
  deriving DecidableEq, Repr

/-- The loop of `Toss` (toss.go, lines 195 to 206) that looks for a destination name
that does not exist: `dstPath` is tried, then `dstPathOrig` followed by the decimal
counter `dstPathCtr`, which goes up by one each round. A failure of `os.Stat` other
than not-exist ends the search. -/
def tossDstLoop (e : Env) (w : World) (dstPathOrig : Str) : Nat → Str → Nat → DstSearch
  | 0, _, _ => .outOfFuel
  | fuel + 1, dstPath, dstPathCtr =>
    match stat e w dstPath with
    | .notExist => .chosen dstPath
    | .failed => .statFailed
    | .found => tossDstLoop e w dstPathOrig fuel (dstPathOrig ++ itoa dstPathCtr) (dstPathCtr + 1)

/-- The destination search of `Toss` from its initial state `dstPath = dstPathOrig`,
`dstPathCtr = 0`, with one round more than there are files and directories. -/
def tossDstPath (e : Env) (w : World) (dstPathOrig : Str) : DstSearch :=
  tossDstLoop e w dstPathOrig (w.files.length + w.dirs.length + 1) dstPathOrig 0

/-- The end of every completed dispatch when `dryRun` is off (toss.go, lines 141 to
149, 215 to 223, 292 to 300, 339 to 347): with `doSeen` the empty
marker file `name ++ SeenSuffix` is created (a failure is ignored), then the spool file
is removed; a failure of the removal is logged and sets `isBad`. The calls of
`os.Create` and `os.Remove` are recorded in their order. -/
def retire (e : Env) (fl : Flags) (j : Job) (w : World) : Bool × World :=
  let w1 :=
    if fl.doSeen then
      if e.createErr (j.name ++ SeenSuffix) then w.called (.create (j.name ++ SeenSuffix) true)
      else (w.writeFile (j.name ++ SeenSuffix) []).called (.create (j.name ++ SeenSuffix) false)
    else w
  if e.removeErr j.name || !w1.isFile j.name then
    (true, (w1.called (.remove j.name true)).logMsg .error "remove")
  else (false, (w1.unlink j.name).called (.remove j.name false))

/-- The notification by mail after a delivery (toss.go, lines 224 to 237 and 301 to
313): the `sendmail` command line of the
own node, if it is configured, not empty and a notification address is set, is run
with the address appended; its result is ignored. `none`: the own node is not in
the neighbour table and a nil pointer is dereferenced. -/
def notify (c : Ctx) (ft : Option FromTo) (input : FromTo → Stdin) (w : World) : Option World :=
  match c.neigh.lookup c.selfId with
  | none => none
  | some selfNode =>
    match selfNode.exec.lookup "sendmail".toList, ft with
    | some sendmail, some a =>
      if sendmail ≠ [] then some (w.run ⟨sendmail ++ [a.mailTo], none, input a⟩)
      else some w
    | _, _ => some w

/-- The `PktTypeExec` case of the switch of `Toss` (toss.go, lines 96 to 150). -/
def tossExec (c : Ctx) (e : Env) (fl : Flags) (j : Job) (pkt : Pkt) (w : World) : Step :=
  if fl.noExec then ⟨.ok, false, w⟩
  else
    let path := pkt.path.splitOn (Char.ofNat 0)
    let handle := path.headD []
    let args := path.tail
    if e.zlibErr j.body then ⟨.fatal, false, w⟩
    else
      match c.neigh.lookup j.sender with
      | none => ⟨.panic, false, w⟩
      | some sender =>
        match sender.exec.lookup handle with
        | none => ⟨.ok, true, w.logMsg .error ""⟩
        | some cmdline =>
          if cmdline = [] then ⟨.ok, true, w.logMsg .error ""⟩
          else if fl.dryRun then ⟨.ok, false, w.logMsg .info ""⟩
          else
            let cmd : CmdRun :=
              ⟨cmdline ++ args, some (c.self, sender.id, pkt.nice), .zlibOf j.body⟩
            let w1 := w.run cmd
            if e.cmdErr cmd then ⟨.ok, true, w1.logMsg .error "handle"⟩
            else
              let r := retire e fl j (w1.logMsg .info "")
              ⟨.ok, r.1, r.2⟩

/-- The `PktTypeFile` case of the switch of `Toss` (toss.go, lines 151 to 238). A
failed rename sets `isBad` and the dispatch goes on to the end. -/
def tossFile (c : Ctx) (e : Env) (fl : Flags) (j : Job) (pkt : Pkt) (pktSize : Int)
    (w : World) : Step :=
  if fl.noFile then ⟨.ok, false, w⟩
  else
    let dst := pkt.path
    if isAbs dst then ⟨.ok, true, w.logMsg .error "non-relative destination path"⟩
    else
      match c.neigh.lookup j.sender with
      | none => ⟨.panic, false, w⟩
      | some sender =>
        match sender.incoming with
        | none => ⟨.ok, true, w.logMsg .error "incoming is not allowed"⟩
        | some incoming =>
          let d := join incoming (dir dst)
          if e.mkdirAllErr d || (mkdirAllPaths d).any w.isFile then
            ⟨.ok, true, w.logMsg .error "mkdir"⟩
          else
            let w1 := w.addDirs (mkdirAllPaths d)
            if fl.dryRun then ⟨.ok, false, w1.logMsg .info ""⟩
            else
              match e.tempFile w1 d with
              | none => ⟨.panic, false, w1⟩
              | some tmp =>
                let w2 := (w1.writeFile tmp []).logMsg .debug "created"
                if e.copyErr tmp j.body then
                  ⟨.ok, true, (w2.writeFile tmp (e.stored tmp j.body)).logMsg .error "copy"⟩
                else
                  let w3 := w2.writeFile tmp
                    (if e.flushErr tmp j.body then e.stored tmp j.body else j.body)
                  let dstPathOrig := join incoming dst
                  match tossDstPath e w3 dstPathOrig with
                  | .outOfFuel => ⟨.diverge, false, w3⟩
                  | .statFailed => ⟨.ok, true, w3.logMsg .error "stat"⟩
                  | .chosen dstPath =>
                    let renamed : Bool × World :=
                      if e.renameErr tmp dstPath then (true, w3.logMsg .error "rename")
                      else (false, w3.rename tmp dstPath)
                    let r := retire e fl j (renamed.2.logMsg .info "")
                    match notify c c.notifyFile
                        (fun a => .notifyFile a sender.name dst pktSize) r.2 with
                    | none => ⟨.panic, renamed.1 || r.1, r.2⟩
                    | some w4 => ⟨.ok, renamed.1 || r.1, w4⟩

/-- The `PktTypeFreq` case of the switch of `Toss` (toss.go, lines 239 to 314). The
body read by `ioutil.ReadAll` is the whole rest of the pipe; the pipe is always closed
without an error, so that call does not fail. -/
def tossFreq (c : Ctx) (e : Env) (fl : Flags) (j : Job) (pkt : Pkt) (w : World) : Step :=
  if fl.noFreq then ⟨.ok, false, w⟩
  else
    let src := pkt.path
    if isAbs src then ⟨.ok, true, w.logMsg .error "non-relative source path"⟩
    else
      let dst := j.body
      match c.neigh.lookup j.sender with
      | none => ⟨.panic, false, w⟩
      | some sender =>
        match sender.freq with
        | none => ⟨.ok, true, w.logMsg .error "freqing is not allowed"⟩
        | some freq =>
          if fl.dryRun then ⟨.ok, false, w.logMsg .info ""⟩
          else
            let call : TxCall :=
              if sender.freqChunked = 0 then
                .file sender pkt.nice (join freq src) dst sender.freqMinSize
              else
                .fileChunked sender pkt.nice (join freq src) dst sender.freqMinSize
                  sender.freqChunked
            let w1 := w.tx call
            if e.txFileErr call then ⟨.ok, true, w1.logMsg .error "tx file"⟩
            else
              let r := retire e fl j (w1.logMsg .info "")
              match notify c c.notifyFreq (fun a => .notifyFreq a sender.name src) r.2 with
              | none => ⟨.panic, r.1, r.2⟩
              | some w2 => ⟨.ok, r.1, w2⟩

/-- The node identifier a transit packet names: `copy(dst[:], pkt.Path[:pkt.PathLen])`
into a zeroed array of 32 bytes. -/
def trnsNodeId (path : Str) : NodeId :=
  path.take 32 ++ List.replicate (32 - path.length) (Char.ofNat 0)

/-- The `PktTypeTrns` case of the switch of `Toss` (toss.go, lines 315 to 348). -/
def tossTrns (c : Ctx) (e : Env) (fl : Flags) (j : Job) (pkt : Pkt) (pktSize : Int)
    (w : World) : Step :=
  if fl.noTrns then ⟨.ok, false, w⟩
  else
    match c.neigh.lookup (trnsNodeId pkt.path) with
    | none => ⟨.ok, true, w.logMsg .error "unknown node"⟩
    | some node =>
      let w1 := w.logMsg .debug "taken"
      if fl.dryRun then ⟨.ok, false, w1.logMsg .info ""⟩
      else
        let call : TxCall := .trns node j.nice pktSize j.body
        let w2 := w1.tx call
        if e.txTrnsErr call then ⟨.ok, true, w2.logMsg .error "tx trns"⟩
        else
          let r := retire e fl j (w2.logMsg .info "")
          ⟨.ok, r.1, r.2⟩

/-- The body of the loop of `Toss` for one job (toss.go, lines 58 to 354). The record
that the decrypting goroutine logs on its own when `PktEncRead` fails is not part of
the log kept here. -/
def tossJob (c : Ctx) (e : Env) (fl : Flags) (j : Job) (w : World) : Step :=
  if j.nice > fl.nice then ⟨.ok, false, w.logMsg .debug "too nice"⟩
  else
    match j.pkt with
    | none => ⟨.ok, true, w.logMsg .error "unmarshal"⟩
    | some pkt =>
      let pktSize := j.size - c.pktEncOverhead - c.pktOverhead
      let w1 := w.logMsg .debug "taken"
      match pkt.type with
      | .exec => tossExec c e fl j pkt w1
      | .file => tossFile c e fl j pkt pktSize w1
      | .freq => tossFreq c e fl j pkt w1
      | .trns => tossTrns c e fl j pkt pktSize w1
      | .other _ => ⟨.ok, true, w1.logMsg .error "unknown type"⟩

/-- The loop of `Toss` over the jobs that `ctx.Jobs(nodeId, TRx)` yields, started with
the flag `isBad`; it ends early only when the process does. -/
def tossLoop (c : Ctx) (e : Env) (fl : Flags) : List Job → Bool → World → Step
  | [], isBad, w => ⟨.ok, isBad, w⟩
  | j :: js, isBad, w =>
    let s := tossJob c e fl j w
    match s.ctl with
    | .ok => tossLoop c e fl js (isBad || s.bad) s.world
    | stop => ⟨stop, isBad || s.bad, s.world⟩

/-- The method `Ctx.Toss`: `isBad` starts as `false`. -/
def Toss (c : Ctx) (e : Env) (fl : Flags) (jobs : List Job) (w : World) : Step :=
  tossLoop c e fl jobs false w

/-! ## Reassembly: the destination name -/

/-- The result of the search for a free destination name in `process` of `nncp-reass`. -/
inductive ReassSearch
  | chosen (p : Str)
  | fatal
  | outOfFuel
  deriving DecidableEq, Repr

/-- The loop of `process` (cmd/nncp-reass/main.go, lines 226 to 235) that looks for a
destination name that does not exist; a failure of `os.Stat` other than not-exist
ends the process through `log.Fatalln`. -/
def reassDstLoop (e : Env) (w : World) (dstPathOrig : Str) : Nat → Str → Nat → ReassSearch
  | 0, _, _ => .outOfFuel
  | fuel + 1, dstPath, dstPathCtr =>
    match stat e w dstPath with
    | .notExist => .chosen dstPath
    | .failed => .fatal
    | .found =>
      reassDstLoop e w dstPathOrig fuel (dstPathOrig ++ itoa dstPathCtr) (dstPathCtr + 1)

/-- The destination search of `process` from its initial state `dstPath = dstPathOrig`,
`dstPathCtr = 0`, with one round more than there are files and directories. -/
def reassDstPath (e : Env) (w : World) (dstPathOrig : Str) : ReassSearch :=
  reassDstLoop e w dstPathOrig (w.files.length + w.dirs.length + 1) dstPathOrig 0

/-! ## Auxiliary definitions for the proofs -/

/-- The value of a string of decimal digits. -/
def digitsVal (l : Str) : Nat := l.foldl (fun a c => a * 10 + (c.toNat - 48)) 0

/-- All names in use: the regular files and the directories. -/
def World.names (w : World) : List Str := w.files.map Prod.fst ++ w.dirs

/-- The names the search tries in `fuel` rounds from the state `(dstPath, dstPathCtr)`. -/
def tried (orig : Str) : Nat → Str → Nat → List Str
  | 0, _, _ => []
  | fuel + 1, dstPath, ctr => dstPath :: tried orig fuel (orig ++ itoa ctr) (ctr + 1)

/-- The outcome of the search of `process` that corresponds to an outcome of the
search of `Toss`: a failure of `os.Stat` is fatal there. -/
def DstSearch.toReass : DstSearch → ReassSearch
  | .chosen p => .chosen p
  | .statFailed => .fatal
  | .outOfFuel => .outOfFuel

/-! ## A sample configuration -/

/-- The identifier of the sample sender. -/
def idA : NodeId := List.replicate 32 'A'

/-- The identifier of the sample node without any permission. -/
def idN : NodeId := List.replicate 32 'N'

/-- The identifier of the own node of the sample. -/
def idS : NodeId := List.replicate 32 'S'

/-- A sender that may deliver files into `/in`, request files under `/pub` and run
the handle `sh`; its handle `void` has an empty command line. -/
def nodeA : Node :=
  { name := "alice".toList, id := idA,
    exec := [("sh".toList, ["/bin/sh".toList]), ("void".toList, [])],
    incoming := some "/in".toList, freq := some "/pub".toList,
    freqChunked := 0, freqMinSize := 0 }

/-- A sender with no incoming directory, no freq directory and no handle. -/
def nodeN : Node :=
  { name := "nobody".toList, id := idN, exec := [], incoming := none, freq := none,
    freqChunked := 0, freqMinSize := 0 }

/-- The own node of the sample; no `sendmail` command is configured. -/
def nodeS : Node :=
  { name := "self".toList, id := idS, exec := [], incoming := none, freq := none,
    freqChunked := 0, freqMinSize := 0 }

/-- The sample context. -/
def ctx0 : Ctx :=
  { self := idS, selfId := idS, neigh := [(idS, nodeS), (idA, nodeA), (idN, nodeN)],
    notifyFile := none, notifyFreq := none, pktEncOverhead := 100, pktOverhead := 20 }

/-- An environment in which no call fails; temporary files are named `nncp-file1`. -/
def env0 : Env :=
  { zlibErr := fun _ => false, cmdErr := fun _ => false, mkdirAllErr := fun _ => false,
    tempFile := fun _ d => some (join d "nncp-file1".toList),
    copyErr := fun _ _ => false, flushErr := fun _ _ => false, stored := fun _ _ => [],
    statErr := fun _ => false, renameErr := fun _ _ => false, createErr := fun _ => false,
    removeErr := fun _ => false, txFileErr := fun _ => false, txTrnsErr := fun _ => false }

/-- The environment `env0` with every started command failing. -/
def envCmdFails : Env := { env0 with cmdErr := fun _ => true }

/-- No packet type is switched off, every niceness is let through, nothing is dry. -/
def fl0 : Flags :=
  { nice := 255, dryRun := false, doSeen := false, noFile := false, noFreq := false,
    noExec := false, noTrns := false }

/-- The name of the spool file of the sample job. -/
def spool0 : Str := "/spool/A/rx/pkt1".toList

/-- A world with the spool file of the sample job and nothing else. -/
def w0 : World :=
  { files := [(spool0, "ciphertext".toList)], dirs := [], txCalls := [], cmds := [], log := [] }

/-- A sample job of the sender `sender`: its packet has the type `t` and the path
`path`, and `hello` follows the header in the pipe. -/
def job0 (sender : NodeId) (t : PktType) (path : String) : Job :=
  { name := spool0, sender := sender, nice := 100, size := 500, decErr := false,
    pkt := some { type := t, nice := 100, path := path.toList }, body := "hello".toList }

/-- A world in which `/in/a` and `/in/a0` are taken. -/
def wTaken : World :=
  { files := [("/in/a".toList, "old".toList), ("/in/a0".toList, "older".toList),
      ("/in/nncp-file1".toList, "hello".toList)],
    dirs := ["/in".toList], txCalls := [], cmds := [], log := [] }

/-- Whether the path `p` is the directory `d` or lies below it. -/
def inside (d p : Str) : Bool :=
  p == d || (if d = ['/'] then d else d ++ ['/']).isPrefixOf p

/-- The environment `env0` with `zlib.NewReader` failing on every body. -/
def envZlibFails : Env := { env0 with zlibErr := fun _ => true }

/-- The flags `fl0` with File packets switched off. -/
def flNoFile : Flags := { fl0 with noFile := true }

/-- The flags `fl0` with Exec packets switched off. -/
def flNoExec : Flags := { fl0 with noExec := true }

/-- The flags `fl0` with Trns packets switched off. -/
def flNoTrns : Flags := { fl0 with noTrns := true }

/-- The flags `fl0` with the niceness limit 50, below the niceness 100 of the sample jobs. -/
def flNice50 : Flags := { fl0 with nice := 50 }

/-- A File job whose header and body came through the pipe although `PktEncRead`
ended with an error (as when the authentication tag after the body is wrong). -/
def jobLate : Job := { job0 idA .file "reports/out.txt" with decErr := true }

/-- The path field of a transit packet that names the node `idA`. -/
def idAText : String := "AAAAAAAAAAAAAAAAAAAAAAAAAAAAAAAA"

/-- The path field of a transit packet that names no configured node. -/
def idXText : String := "XXXXXXXXXXXXXXXXXXXXXXXXXXXXXXXX"

/-- The command the sample Exec job with the handle `sh` runs. -/
def cmdSh : CmdRun :=
  { argv := ["/bin/sh".toList], nncpEnv := some (idS, idA, 100), stdin := .zlibOf "hello".toList }

/-- The flags `fl0` with the niceness limit 100, the niceness of the sample jobs. -/
def flNice100 : Flags := { fl0 with nice := 100 }

/-- The flags `fl0` with `dryRun` on. -/
def flDry : Flags := { fl0 with dryRun := true }

/-- The two ways the work on the job `j` started in the world `w` can have ended in the
step `s`: without the final steps, the spool file, the content at the name of the
seen marker and the recorded calls of `os.Create` and `os.Remove` being what they were;
or, `dryRun` being off, with the final steps `retire` run in a world `w1` that still
held the spool file and had the recorded calls of `w`, `pre` telling whether a rename
had failed before. -/
def JobEnd (e : Env) (fl : Flags) (j : Job) (w : World) (s : Step) : Prop :=
  (s.world.isFile j.name = true ∧
    s.world.readFile (j.name ++ SeenSuffix) = w.readFile (j.name ++ SeenSuffix) ∧
    s.world.fsCalls = w.fsCalls) ∨
  (fl.dryRun = false ∧ ∃ w1 pre, w1.isFile j.name = true ∧ w1.fsCalls = w.fsCalls ∧
    s.world.files = (retire e fl j w1).2.files ∧
    s.world.fsCalls = (retire e fl j w1).2.fsCalls ∧
    s.bad = (pre || (retire e fl j w1).1) ∧
    (pre = true → ∃ a b, e.renameErr a b = true))

/-- The environment `env0` with every `os.Rename` failing. -/
def envRenameFails : Env := { env0 with renameErr := fun _ _ => true }

/-- The environment `env0` with every `os.Remove` failing. -/
def envRemoveFails : Env := { env0 with removeErr := fun _ => true }

/-- The environment `env0` with every `os.Create` failing. -/
def envCreateFails : Env := { env0 with createErr := fun _ => true }

/-- The environment `env0` with `ioutil.TempFile` failing. -/
def envTempFails : Env := { env0 with tempFile := fun _ _ => none }

/-- The flags `fl0` with `doSeen` on. -/
def flSeen : Flags := { fl0 with doSeen := true }

/-- The first of the two final steps of a dispatch (toss.go, lines 141 to 145): with
`doSeen`, `os.Create` makes the empty marker file `name ++ SeenSuffix`; a failure of
that call is ignored. The call is recorded. -/
def markSeen (e : Env) (fl : Flags) (j : Job) (w : World) : World :=
  if fl.doSeen then
    if e.createErr (j.name ++ SeenSuffix) then w.called (.create (j.name ++ SeenSuffix) true)
    else (w.writeFile (j.name ++ SeenSuffix) []).called (.create (j.name ++ SeenSuffix) false)
  else w

/-- The name of the seen marker of the sample job. -/
def seen0 : Str := "/spool/A/rx/pkt1.seen".toList

/-- A sender like `nodeA` whose requests are answered in chunks of 4096 bytes. -/
def nodeC : Node := { nodeA with freqChunked := 4096, freqMinSize := 1024 }

/-- The sample context with the chunked sender in place of `nodeA`. -/
def ctxC : Ctx := { ctx0 with neigh := [(idS, nodeS), (idA, nodeC), (idN, nodeN)] }

/-- The environment `env0` with `TxFile` and `TxFileChunked` failing. -/
def envTxFails : Env := { env0 with txFileErr := fun _ => true }

/-- The flags `fl0` with Freq packets switched off. -/
def flNoFreq : Flags := { fl0 with noFreq := true }

/-- The environment `env0` with the temporary file always named `/in/nncp-file1`. -/
def envTmp : Env := { env0 with tempFile := fun _ _ => some "/in/nncp-file1".toList }

/-- The environment `envTmp` with every started command failing. -/
def envTmpCmdFails : Env := { envTmp with cmdErr := fun _ => true }

/-! ## Reassembly of chunked files -/

/-- Unix `filepath.Base`: the last element of the path, trailing slashes removed; `.`
for the empty path and `/` for a path of slashes only. -/
def base (p : Str) : Str :=
  if p = [] then ['.']
  else
    let q := (p.reverse.dropWhile (fun c => c == '/')).reverse
    let r := (q.reverse.takeWhile (fun c => c != '/')).reverse
    if r = [] then ['/'] else r

/-- The descriptor `ChunkedMeta` of a chunked file, as `xdr.Unmarshal` yields it;
`fileSize` and `chunkSize` are `uint64` values. -/
structure ChunkedMeta where
  magic : Str
  fileSize : Nat
  chunkSize : Nat
  checksums : List Str
  deriving DecidableEq, Repr

/-- What `process` of nncp-reass takes from outside, beside the answers of the
operating system in `Env`: the package constants `MagicNNCPMv1`, `ChunkedSuffixMeta` and
`ChunkedSuffixPart`, the decoding of a meta file by `xdr.Unmarshal` (`none`: it returns an
error), the hash function BLAKE2b-256, whether `os.Open` or the reading of a file
fails, the size `os.Stat` reports for a directory, the name
`ioutil.TempFile(mainDir, "nncp-reass")` creates (`none`: it fails), and whether writing
to the standard output fails. -/
structure ReassEnv extends Env where
  magicNNCPMv1 : Str
  suffixMeta : Str
  suffixPart : Str
  decodeMeta : Str → Option ChunkedMeta
  blake2b256 : Str → Str
  openErr : Str → Bool
  readErr : Str → Bool
  dirSize : Str → Nat
  reassTemp : World → Str → Option Str
  outErr : Str → Bool

/-- The outcome of `process`: how it ends, the value it returns when `ctl` is `ok`, the
world it leaves and the bytes it has written to the standard output. -/
structure ProcStep where
  ctl : Ctl
  ret : Bool
  world : World
  out : Str
  deriving DecidableEq, Repr

/-- The size `os.Stat` reports for an existing path. -/
def statSize (re : ReassEnv) (w : World) (p : Str) : Nat :=
  match w.readFile p with
  | some c => c.length
  | none => re.dirSize p

/-- The size test of `process` (main.go, lines 120 to 125) for the chunk number
`chunkNum` of `n` chunks whose file has the size `size`; `ChunkSize` is not zero here. -/
def badSize (m : ChunkedMeta) (n chunkNum size : Nat) : Bool :=
  if chunkNum + 1 = n then size != m.fileSize % m.chunkSize
  else size != m.chunkSize

/-- The first loop of `process` (main.go, lines 109 to 133) over the numbered chunk
paths, with the flag `allChunksExist`: a missing chunk and a chunk of a bad size clear
the flag. The loop panics when `os.Stat` fails otherwise (`fi` is nil) and when the
remainder by a zero `ChunkSize` is taken. -/
def checkSizes (re : ReassEnv) (m : ChunkedMeta) (n : Nat) :
    List (Nat × Str) → World → Bool → Ctl × Bool × World
  | [], w, allChunksExist => (.ok, allChunksExist, w)
  | (chunkNum, chunkPath) :: rest, w, allChunksExist =>
    match stat re.toEnv w chunkPath with
    | .notExist => checkSizes re m n rest (w.logMsg .info "missing") false
    | .failed => (.panic, allChunksExist, w)
    | .found =>
      if chunkNum + 1 = n ∧ m.chunkSize = 0 then (.panic, allChunksExist, w)
      else if badSize m n chunkNum (statSize re w chunkPath) then
        checkSizes re m n rest (w.logMsg .error "invalid size") false
      else checkSizes re m n rest w allChunksExist

/-- The second loop of `process` (main.go, lines 140 to 160) with the flag
`allChecksumsGood`: every chunk is opened and hashed, a digest other than the recorded
checksum clears the flag. A chunk that cannot be opened or read ends the process. -/
def checkSums (re : ReassEnv) (m : ChunkedMeta) :
    List (Nat × Str) → World → Bool → Ctl × Bool × World
  | [], w, allChecksumsGood => (.ok, allChecksumsGood, w)
  | (chunkNum, chunkPath) :: rest, w, allChecksumsGood =>
    match w.readFile chunkPath with
    | none => (.fatal, allChecksumsGood, w)
    | some content =>
      if re.openErr chunkPath || re.readErr chunkPath then (.fatal, allChecksumsGood, w)
      else if re.blake2b256 content != m.checksums.getD chunkNum [] then
        checkSums re m rest (w.logMsg .error "checksum is bad") false
      else checkSums re m rest w allChecksumsGood

/-- The third loop of `process` (main.go, lines 187 to 205): every chunk is copied to
the destination, which is the temporary file `tmp` or, for `none`, the standard
output, and removed unless `keep` is set; `acc` is what has been copied so far. A
chunk that cannot be opened, read or copied ends the process; a failed removal sets
`hasErrors`. -/
def copyChunks (re : ReassEnv) (keep : Bool) (tmp : Option Str) :
    List (Nat × Str) → World → Str → Bool → Ctl × Bool × World × Str
  | [], w, acc, hasErrors => (.ok, hasErrors, w, acc)
  | (_, chunkPath) :: rest, w, acc, hasErrors =>
    match w.readFile chunkPath with
    | none => (.fatal, hasErrors, w, acc)
    | some content =>
      if re.openErr chunkPath || re.readErr chunkPath then (.fatal, hasErrors, w, acc)
      else
        match tmp with
        | some t =>
          if re.copyErr t content then
            (.fatal, hasErrors, w.writeFile t (acc ++ re.stored t content), acc)
          else
            let w1 := w.writeFile t (acc ++ content)
            if keep then copyChunks re keep tmp rest w1 (acc ++ content) hasErrors
            else if re.removeErr chunkPath || !w1.isFile chunkPath then
              copyChunks re keep tmp rest (w1.logMsg .error "") (acc ++ content) true
            else copyChunks re keep tmp rest (w1.unlink chunkPath) (acc ++ content) hasErrors
        | none =>
          if re.outErr content then (.fatal, hasErrors, w, acc)
          else if keep then copyChunks re keep tmp rest w (acc ++ content) hasErrors
          else if re.removeErr chunkPath || !w.isFile chunkPath then
            copyChunks re keep tmp rest (w.logMsg .error "") (acc ++ content) true
          else copyChunks re keep tmp rest (w.unlink chunkPath) (acc ++ content) hasErrors

/-- The numbered chunk paths of `process` (main.go, lines 101 to 107). -/
def chunksPaths (re : ReassEnv) (mainDir mainName : Str) (n : Nat) : List (Nat × Str) :=
  (List.range n).map (fun i => (i, join mainDir (mainName ++ re.suffixPart ++ itoa i)))

/-- The end of `process` after the checks (main.go, lines 169 to 240). A failure of
the final `Flush` is not looked at by the source; what has reached the temporary file
then is `stored`. -/
def assemble (re : ReassEnv) (path mainDir mainName : Str) (keep out : Bool)
    (chunks : List (Nat × Str)) (w : World) : ProcStep :=
  let tmpName : Option (Option Str) :=
    if out then some none
    else (re.reassTemp w mainDir).map some
  match tmpName with
  | none => ⟨.fatal, false, w, []⟩
  | some tmp =>
    let w1 := match tmp with
      | some t => (w.writeFile t []).logMsg .debug "created"
      | none => w
    match copyChunks re keep tmp chunks w1 [] false with
    | (.ok, hasErrors, w2, acc) =>
      let flushed : World := match tmp with
        | some t => if re.flushErr t acc then w2.writeFile t (re.stored t acc) else w2
        | none => w2
      let w3 := flushed.logMsg .debug "written"
      let removed : Bool × World :=
        if keep then (hasErrors, w3)
        else if re.removeErr path || !w3.isFile path then (true, w3.logMsg .error "")
        else (hasErrors, w3.unlink path)
      match tmp with
      | none => ⟨.ok, !removed.1, removed.2.logMsg .info "done", acc⟩
      | some t =>
        match reassDstPath re.toEnv removed.2 (join mainDir mainName) with
        | .outOfFuel => ⟨.diverge, false, removed.2, []⟩
        | .fatal => ⟨.fatal, false, removed.2, []⟩
        | .chosen dstPath =>
          if re.renameErr t dstPath then ⟨.fatal, false, removed.2, []⟩
          else ⟨.ok, !removed.1, (removed.2.rename t dstPath).logMsg .info "done", []⟩
    | (stop, _, w2, acc) => ⟨stop, false, w2, if out then acc else []⟩

/-- The function `process` of nncp-reass (main.go, lines 54 to 241) for the meta file
`path`. The text printed for `dumpMeta` is left out. -/
def process (re : ReassEnv) (path : Str) (keep dryRun out dumpMeta : Bool) (w : World) :
    ProcStep :=
  if !w.pathExists path || re.openErr path then ⟨.fatal, false, w, []⟩
  else
    match (w.readFile path).bind (fun c => if re.readErr path then none else re.decodeMeta c) with
    | none => ⟨.ok, false, w.logMsg .error "bad meta file", []⟩
    | some metaPkt =>
      if metaPkt.magic ≠ re.magicNNCPMv1 then ⟨.ok, false, w.logMsg .error "", []⟩
      else
        let metaName := base path
        if !re.suffixMeta.isSuffixOf metaName then ⟨.ok, false, w.logMsg .error "", []⟩
        else
          let mainName := metaName.take (metaName.length - re.suffixMeta.length)
          if dumpMeta then ⟨.ok, true, w, []⟩
          else
            let mainDir := dir path
            let chunks := chunksPaths re mainDir mainName metaPkt.checksums.length
            match checkSizes re metaPkt metaPkt.checksums.length chunks w true with
            | (.ok, allChunksExist, w1) =>
              if !allChunksExist then ⟨.ok, false, w1, []⟩
              else
                match checkSums re metaPkt chunks w1 true with
                | (.ok, allChecksumsGood, w2) =>
                  if !allChecksumsGood then ⟨.ok, false, w2, []⟩
                  else if dryRun then ⟨.ok, true, w2.logMsg .info "ready", []⟩
                  else assemble re path mainDir mainName keep out chunks w2
                | (stop, _, w2) => ⟨stop, false, w2, []⟩
            | (stop, _, w1) => ⟨stop, false, w1, []⟩

/-- A stand-in for the hash function in the samples. -/
def hash0 (c : Str) : Str := 'h' :: c

/-- The meta of a file of 8 bytes in chunks of 4 bytes. -/
def meta84 : ChunkedMeta :=
  { magic := "NNCPM1".toList, fileSize := 8, chunkSize := 4,
    checksums := [hash0 "abcd".toList, hash0 "efgh".toList] }

/-- The meta of a file of 6 bytes in chunks of 4 bytes. -/
def meta64 : ChunkedMeta :=
  { magic := "NNCPM1".toList, fileSize := 6, chunkSize := 4,
    checksums := [hash0 "abcd".toList, hash0 "ef".toList] }

/-- A sample environment of `process`: no call fails, the meta files with the content
`meta84` and `meta64` decode to the metas of these names. -/
def reEnv0 : ReassEnv :=
  { toEnv := env0, magicNNCPMv1 := "NNCPM1".toList, suffixMeta := ".nncp.meta".toList,
    suffixPart := ".nncp.chunk".toList,
    decodeMeta := fun c =>
      if c = "meta84".toList then some meta84
      else if c = "meta64".toList then some meta64 else none,
    blake2b256 := hash0, openErr := fun _ => false, readErr := fun _ => false,
    dirSize := fun _ => 4096,
    reassTemp := fun _ d => some (join d "nncp-reass1".toList), outErr := fun _ => false }

/-- The directory `/in` with the meta file of `f` (8 bytes in chunks of 4) and the two
chunks `abcd` and `efgh`, each of the full chunk size. -/
def wChunks84 : World :=
  { files := [("/in/f.nncp.meta".toList, "meta84".toList),
      ("/in/f.nncp.chunk0".toList, "abcd".toList), ("/in/f.nncp.chunk1".toList, "efgh".toList)],
    dirs := ["/in".toList], txCalls := [], cmds := [], log := [] }

/-- The directory `/in` with the meta file of `f` (6 bytes in chunks of 4) and the
chunk number 0 only. -/
def wChunks64 : World :=
  { files := [("/in/f.nncp.meta".toList, "meta64".toList),
      ("/in/f.nncp.chunk0".toList, "abcd".toList)],
    dirs := ["/in".toList], txCalls := [], cmds := [], log := [] }

/-- The world `wChunks64` with the second chunk, whose content is not the recorded one. -/
def wChunks64Bad : World :=
  { wChunks64 with files := wChunks64.files ++ [("/in/f.nncp.chunk1".toList, "xx".toList)] }

/-- The world `wChunks64` with the right second chunk. -/
def wChunks64Good : World :=
  { wChunks64 with files := wChunks64.files ++ [("/in/f.nncp.chunk1".toList, "ef".toList)] }

/-- The numbered chunk paths that `process` computes for the meta file `path` with the
meta `m` (main.go, lines 72, 80 and 99 to 107). -/
def expectedChunks (re : ReassEnv) (path : Str) (m : ChunkedMeta) : List (Nat × Str) :=
  chunksPaths re (dir path)
    ((base path).take ((base path).length - re.suffixMeta.length)) m.checksums.length

/-! ## The incremental tree hash

The file mth.go with `MTHNew`, `Write`, `PrependFrom` and `Sum` is not among the
sources, only its test mth_test.go is. The definitions of this section follow the
description of the hash in the specification. -/

/-- Modelled from the spec: the digest that the missing mth.go computes, as the term of
its computation: the hash of a leaf of bytes, or the combination of the digests of two
subtrees. Equal terms are equal digests whatever the two hash functions are. -/
inductive Digest
  | leaf (bytes : Str)
  | node (l r : Digest)
  deriving DecidableEq, Repr

/-- Modelled from the spec: the error `ShortRead` of `prepend_from` of the missing
mth.go. -/
inductive MTHError
  | shortRead
  deriving DecidableEq, Repr

/-- Modelled from the spec: the state of the hash of the missing mth.go: the leaf size
(a constant of the package), the total expected length, the start offset, the number
of bytes still missing up to the first leaf boundary after the start offset, the bytes
written before that boundary, the digests of the completed leaves, the bytes of the
leaf under way, and the digests of the leaves that `PrependFrom` has added. -/
structure MTH where
  leafSize : Nat
  size : Nat
  offset : Nat
  headNeed : Nat
  head : Str
  leaves : List Digest
  buf : Str
  prepended : List Digest
  deriving DecidableEq, Repr

/-- Modelled from the spec: `new(total_length, start_offset)` of the missing mth.go. The
leaf boundaries are the multiples of the leaf size; the total length 0 is the mark of
the unknown length. -/
def MTHNew (leafSize size offset : Nat) : MTH :=
  { leafSize := leafSize, size := size, offset := offset,
    headNeed := if size = 0 then 0 else (leafSize - offset % leafSize) % leafSize,
    head := [], leaves := [], buf := [], prepended := [] }

/-- Modelled from the spec: one byte enters the leaf under way of the missing mth.go; a
leaf that has reached the leaf size is hashed. -/
def feedByte (leafSize : Nat) (acc : List Digest × Str) (c : Char) : List Digest × Str :=
  if (acc.2 ++ [c]).length = leafSize then (acc.1 ++ [Digest.leaf (acc.2 ++ [c])], [])
  else (acc.1, acc.2 ++ [c])

/-- Modelled from the spec: the bytes `x` enter the leaves of the missing mth.go in
order. -/
def feed (leafSize : Nat) (acc : List Digest × Str) (x : Str) : List Digest × Str :=
  x.foldl (feedByte leafSize) acc

/-- Modelled from the spec: the leaves of the missing mth.go at the end of the stream: a
last leaf that is not full is hashed as it is. -/
def flushLeaves (acc : List Digest × Str) : List Digest :=
  if acc.2 = [] then acc.1 else acc.1 ++ [Digest.leaf acc.2]

/-- Modelled from the spec: the digest of a completed subtree enters the array of the
completed subtrees of each level (lowest level first) of the missing mth.go; two
subtrees of one level are combined into one of the next. -/
def mthPush : List (Option Digest) → Digest → List (Option Digest)
  | [], d => [some d]
  | none :: rest, d => some d :: rest
  | some a :: rest, d => none :: mthPush rest (Digest.node a d)

/-- Modelled from the spec: the subtrees left in the array of the missing mth.go are
combined, the earlier one on the left. -/
def mthFinish : List (Option Digest) → Option Digest
  | [] => none
  | none :: rest => mthFinish rest
  | some a :: rest =>
    match mthFinish rest with
    | none => some a
    | some b => some (Digest.node b a)

/-- Modelled from the spec: the root of the tree over the leaf digests `l` of the
missing mth.go; the digest of the empty stream is the hash of the empty leaf. -/
def mthRoot (l : List Digest) : Digest :=
  (mthFinish (l.foldl mthPush [])).getD (Digest.leaf [])

namespace MTH

/-- Modelled from the spec: `write` of the missing mth.go for one byte. With the unknown
length all bytes form one leaf; otherwise the bytes before the first leaf boundary
after the start offset are kept aside, the later ones fill the leaves. -/
def writeByte (s : MTH) (c : Char) : MTH :=
  if s.size = 0 then { s with buf := s.buf ++ [c] }
  else if s.headNeed ≠ 0 then { s with head := s.head ++ [c], headNeed := s.headNeed - 1 }
  else
    { s with leaves := (feedByte s.leafSize (s.leaves, s.buf) c).1,
             buf := (feedByte s.leafSize (s.leaves, s.buf) c).2 }

/-- Modelled from the spec: `write(bytes)` of the missing mth.go. -/
def Write (s : MTH) (bytes : Str) : MTH :=
  bytes.foldl writeByte s

/-- Modelled from the spec: `prepend_from(reader)` of the missing mth.go: it consumes
exactly `offset` bytes of the reader, which with the bytes kept aside form the leaves
before the first leaf boundary after the start offset, and fails with `ShortRead` if
the reader has fewer bytes. The second component is what is left of the reader. -/
def PrependFrom (s : MTH) (reader : Str) : Except MTHError (MTH × Str) :=
  if reader.length < s.offset then .error .shortRead
  else
    .ok ({ s with prepended :=
            flushLeaves (feed s.leafSize ([], []) (reader.take s.offset ++ s.head)) },
         reader.drop s.offset)

/-- Modelled from the spec: the final digest of the missing mth.go: with the unknown
length the flat hash of what was written, otherwise the root of the tree over all
leaves. -/
def Sum (s : MTH) : Digest :=
  if s.size = 0 then Digest.leaf s.buf
  else mthRoot (s.prepended ++ flushLeaves (s.leaves, s.buf))

end MTH

/-- Modelled from the spec: `io.Copy` into the hash of the missing mth.go, as the
sequence `parts` of `Write` calls it makes. -/
def copyParts (s : MTH) (parts : List Str) : MTH :=
  parts.foldl MTH.Write s

/-! ## The run of nncp-reass over incoming directories -/

/-- What `main` of nncp-reass takes from outside beside `ReassEnv`: the names that
`dir.Readdir(0)` yields for a directory, in its order (`none`: `os.Open` or `Readdir`
fails). -/
structure MainEnv extends ReassEnv where
  readdir : World → Str → Option (List Str)

/-- The function `findMetas` (main.go, lines 243 to 263): the paths of the entries of
`dirPath` whose name has the meta suffix; a directory that cannot be read is logged
and gives no path. -/
def findMetas (me : MainEnv) (w : World) (dirPath : Str) : List Str × World :=
  match me.readdir w dirPath with
  | none => ([], w.logMsg .error "")
  | some names =>
    ((names.filter (fun n => me.suffixMeta.isSuffixOf n)).map (fun n => join dirPath n), w)

/-- The state of the loops of `main`: how the run goes on, the variable `hasErrors`,
the world, the set `seenMetaPaths`, and the meta paths `process` was called with, in
order. -/
structure ReassRun where
  ctl : Ctl
  hasErrors : Bool
  world : World
  seen : List Str
  invoked : List Str
  deriving DecidableEq, Repr

/-- The loop of `main` for one node given with `-node` (main.go, lines 347 to 349) over
the meta paths: `hasErrors = hasErrors || !process(...)`, where Go evaluates the right
operand only when `hasErrors` is false. -/
def reassMetas (me : MainEnv) (keep dryRun : Bool) : List Str → ReassRun → ReassRun
  | [], r => r
  | metaPath :: rest, r =>
    if r.hasErrors then reassMetas me keep dryRun rest r
    else
      let p := process me.toReassEnv metaPath keep dryRun false false r.world
      match p.ctl with
      | .ok =>
        reassMetas me keep dryRun rest
          { r with hasErrors := !p.ret, world := p.world, invoked := r.invoked ++ [metaPath] }
      | stop => { r with ctl := stop, world := p.world, invoked := r.invoked ++ [metaPath] }

/-- The inner loop of `main` for all nodes (main.go, lines 335 to 341): a meta path
seen before is passed over, every other one is recorded as seen after the statement
`hasErrors = hasErrors || !process(...)`. -/
def reassSeenMetas (me : MainEnv) (keep dryRun : Bool) : List Str → ReassRun → ReassRun
  | [], r => r
  | metaPath :: rest, r =>
    if r.seen.contains metaPath then reassSeenMetas me keep dryRun rest r
    else if r.hasErrors then
      reassSeenMetas me keep dryRun rest { r with seen := r.seen ++ [metaPath] }
    else
      let p := process me.toReassEnv metaPath keep dryRun false false r.world
      match p.ctl with
      | .ok =>
        reassSeenMetas me keep dryRun rest
          { r with hasErrors := !p.ret, world := p.world, seen := r.seen ++ [metaPath],
                   invoked := r.invoked ++ [metaPath] }
      | stop => { r with ctl := stop, world := p.world, invoked := r.invoked ++ [metaPath] }

/-- The outer loop of `main` for all nodes (main.go, lines 331 to 342) over the nodes
of `ctx.Neigh` in the order of the iteration. -/
def reassNodes (me : MainEnv) (keep dryRun : Bool) : List Node → ReassRun → ReassRun
  | [], r => r
  | node :: rest, r =>
    match node.incoming with
    | none => reassNodes me keep dryRun rest r
    | some incoming =>
      let found := findMetas me r.world incoming
      let r1 := reassSeenMetas me keep dryRun found.1 { r with world := found.2 }
      match r1.ctl with
      | .ok => reassNodes me keep dryRun rest r1
      | _ => r1

/-- The end of `main` of nncp-reass (main.go, lines 329 to 354), when no file is named
on the command line: over all nodes (`nodeOnly` is `none`) or over the node given with
`-node`. The run ends with the exit status 1 exactly when `ctl` is `ok` and `hasErrors`
is set. -/
def reassMain (me : MainEnv) (nodeOnly : Option Node) (nodes : List Node)
    (keep dryRun : Bool) (w : World) : ReassRun :=
  match nodeOnly with
  | none => reassNodes me keep dryRun nodes ⟨.ok, false, w, [], []⟩
  | some node =>
    match node.incoming with
    | none => ⟨.fatal, false, w, [], []⟩
    | some incoming =>
      let found := findMetas me w incoming
      reassMetas me keep dryRun found.1 ⟨.ok, false, found.2, [], []⟩

/-- A sample environment of `main`: directories list the base names of their files in the
order of the world. -/
def mainEnv0 : MainEnv :=
  { toReassEnv := reEnv0,
    readdir := fun w d =>
      if w.dirs.contains d then some ((w.files.filter (fun e => dir e.1 == d)).map (fun e => base e.1))
      else none }

/-- The directory `/in` with the meta file of `a` (6 bytes in chunks of 4), of which
only the chunk 0 has arrived, and the meta file of `f` with its two chunks. -/
def wTwoMetas : World :=
  { files := [("/in/a.nncp.meta".toList, "meta64".toList),
      ("/in/a.nncp.chunk0".toList, "abcd".toList),
      ("/in/f.nncp.meta".toList, "meta64".toList),
      ("/in/f.nncp.chunk0".toList, "abcd".toList), ("/in/f.nncp.chunk1".toList, "ef".toList)],
    dirs := ["/in".toList], txCalls := [], cmds := [], log := [] }

/-- The world `wTwoMetas` without the files of `a`. -/
def wOneMeta : World :=
  { wTwoMetas with files := wTwoMetas.files.drop 2 }

/-! ## The integrity check -/

/-- One job as `ctx.Jobs` yields it for the check: the name of its file, the bytes that
reading `job.Fd` gives, whether the reading ends with an error, and the recorded digest
`job.HshValue`. -/
structure CheckJob where
  name : Str
  content : Str
  readErr : Bool
  hshValue : Str
  deriving DecidableEq, Repr

/-- The function `Check` (check.go, lines 29 to 38): the two results, the boolean
and whether the error is not nil. `hash` is BLAKE2b-256. -/
def Check (hash : Str → Str) (src : Str) (srcErr : Bool) (checksum : Str) : Bool × Bool :=
  if srcErr then (false, true)
  else (hash src == checksum, false)

/-- The state of `checkXx`: the value returned, the jobs that `Check` was called for,
and the world. -/
structure CheckRun where
  bad : Bool
  checked : List Str
  world : World
  deriving DecidableEq, Repr

/-- The loop of `checkXx` (check.go, lines 40 to 56) over the jobs of one queue, with
the variable `isBad`: an error of `Check` is logged and ends the function with `false`,
a digest that differs is logged as "bad" and sets `isBad`. -/
def checkXxLoop (hash : Str → Str) : List CheckJob → Bool → List Str → World → CheckRun
  | [], isBad, checked, w => ⟨isBad, checked, w⟩
  | job :: rest, isBad, checked, w =>
    let r := Check hash job.content job.readErr job.hshValue
    if r.2 then ⟨false, checked ++ [job.name], w.logMsg .error ""⟩
    else if !r.1 then
      checkXxLoop hash rest true (checked ++ [job.name]) (w.logMsg .error "bad")
    else checkXxLoop hash rest isBad (checked ++ [job.name]) w

/-- The function `checkXx` (check.go, lines 40 to 56) for the jobs of one queue. -/
def checkXx (hash : Str → Str) (jobs : List CheckJob) (checked : List Str) (w : World) :
    CheckRun :=
  checkXxLoop hash jobs false checked w

/-- The method `Ctx.Check` (check.go, lines 58 to 60) for the jobs `rx` and `tx` of the
two queues of a node: `ctx.checkXx(nodeId, TRx) || ctx.checkXx(nodeId, TTx)`, where Go
evaluates the right operand only when the left one is false. -/
def CtxCheck (hash : Str → Str) (rx tx : List CheckJob) (w : World) : CheckRun :=
  let r := checkXx hash rx [] w
  if r.bad then r
  else checkXx hash tx r.checked r.world

/-- A job whose content has the recorded digest. -/
def cjGood (name : String) : CheckJob :=
  { name := name.toList, content := "data".toList, readErr := false,
    hshValue := hash0 "data".toList }

/-- A job whose content does not have the recorded digest. -/
def cjBad (name : String) : CheckJob :=
  { name := name.toList, content := "datb".toList, readErr := false,
    hshValue := hash0 "data".toList }

/-- A job whose file cannot be read to the end. -/
def cjUnreadable (name : String) : CheckJob :=
  { name := name.toList, content := "da".toList, readErr := true,
    hshValue := hash0 "data".toList }

/-! ## Sizes given in KiB -/

/-- The conversion of a 64-bit pattern to `int64` (two's complement). -/
def wrapInt64 (x : Int) : Int :=
  (x + 2 ^ 63) % 2 ^ 64 - 2 ^ 63

/-- The expression `int64(v) * 1024` of cfg.go and of nncp-file for a `uint64` value
`v`: the conversion to `int64` and the product wrap around. -/
def kibToBytes (v : Nat) : Int :=
  wrapInt64 (wrapInt64 (v % 2 ^ 64) * 1024)

/-- The part of `NewNode` (cfg.go, lines 149 to 159) that sets `FreqChunked` and
`FreqMinSize` from the optional `uint64` fields `freqchunked` and `freqminsize` of the
configuration: the two values, or the error. -/
def NewNodeFreq (freqChunkedYml freqMinSizeYml : Option Nat) : Except String (Int × Int) :=
  let chunked : Except String Int :=
    match freqChunkedYml with
    | some k =>
      if k % 2 ^ 64 = 0 then .error "freqchunked value must be greater than zero"
      else .ok (kibToBytes k)
    | none => .ok 0
  match chunked with
  | .error e => .error e
  | .ok freqChunked =>
    let freqMinSize : Int :=
      match freqMinSizeYml with
      | some m => kibToBytes m
      | none => 0
    .ok (freqChunked, freqMinSize)

/-- The call that `main` of nncp-file makes (nncp-file/main.go, lines 105 to 122) for
the options `-minsize` and `-chunked` (both `uint64`): `TxFile` when `-chunked` is zero,
`TxFileChunked` otherwise. -/
def fileTx (node : Node) (nice : Nat) (src dst : Str) (minSize chunkSize : Nat) : TxCall :=
  if chunkSize % 2 ^ 64 = 0 then .file node nice src dst (kibToBytes minSize)
  else .fileChunked node nice src dst (kibToBytes minSize) (kibToBytes chunkSize)

/-! ## Samples for the panics of `process` -/

/-- The meta of a file of 6 bytes with the chunk size 0 and one checksum. -/
def meta60 : ChunkedMeta :=
  { magic := "NNCPM1".toList, fileSize := 6, chunkSize := 0,
    checksums := [hash0 "abcdef".toList] }

/-- The environment `reEnv0` in which every meta file decodes to `meta60`. -/
def reEnvZeroChunk : ReassEnv :=
  { reEnv0 with decodeMeta := fun _ => some meta60 }

/-- The environment `reEnv0` in which `os.Stat` fails for the chunk 1 of `/in/f`
otherwise than by its absence (as without the permission to search the directory). -/
def reEnvStatFails : ReassEnv :=
  { reEnv0 with toEnv := { env0 with statErr := fun p => p == "/in/f.nncp.chunk1".toList } }

/-- The directory `/in` with a meta file of `f` and one chunk of 6 bytes. -/
def wChunks60 : World :=
  { files := [("/in/f.nncp.meta".toList, "meta60".toList),
      ("/in/f.nncp.chunk0".toList, "abcdef".toList)],
    dirs := ["/in".toList], txCalls := [], cmds := [], log := [] }

/-! ## The humanizer of log lines -/

/-- What `Humanize` takes from outside: `time.Parse(time.RFC3339Nano, _)` (`none`: it
returns an error) and `Format(time.RFC3339)` of the time package, the name of the node
that `ctx.FindNode` finds (`none`: it returns an error), and `humanize.IBytes`. -/
structure HumanizeEnv where
  parseTime : Str → Option Nat
  formatTime : Nat → Str
  findNode : Str → Option Str
  iBytes : Nat → Str

/-- The call `strings.TrimRight(s, "\n")`. -/
def trimRightNL (s : Str) : Str :=
  (s.reverse.dropWhile (fun c => c == '\n')).reverse

/-- The call `strings.Trim(s, " ")`. -/
def trimSpaces (s : Str) : Str :=
  ((s.dropWhile (fun c => c == ' ')).reverse.dropWhile (fun c => c == ' ')).reverse

/-- The call `strings.SplitN(s, sep, n)` for a separator of one character: at most `n`
pieces, the last one unsplit. -/
def splitN (sep : Char) : Nat → Str → List Str
  | 0, _ => []
  | 1, s => [s]
  | n + 2, s =>
    match s.span (fun c => c != sep) with
    | (a, []) => [a]
    | (a, _ :: rest) => a :: splitN sep (n + 1) rest

/-- The call `strings.LastIndex(s, "]")` (`none` for -1) with the character `c` for the
bracket. -/
def lastIndex (c : Char) (s : Str) : Option Nat :=
  match s.reverse.indexOf? c with
  | some i => some (s.length - 1 - i)
  | none => none

/-- A character of the class `\w` of the regexp package. -/
def isWordChar (c : Char) : Bool :=
  c.isAlphanum || c == '_'

/-- The state of the search for the matches of the pattern `\w+="[^"]+"`: in a run of
word characters, after such a run and `=`, or after the opening quote. -/
inductive PairScan
  | word (w : Str)
  | eq (w : Str)
  | value (w v : Str)
  deriving DecidableEq, Repr

/-- One character more in the search for the matches of `\w+="[^"]+"`; the second
component collects the matches. -/
def pairStep (st : PairScan × List Str) (c : Char) : PairScan × List Str :=
  match st.1 with
  | .word w =>
    if isWordChar c then (.word (w ++ [c]), st.2)
    else if c == '=' && !w.isEmpty then (.eq w, st.2)
    else (.word [], st.2)
  | .eq w =>
    if c == '"' then (.value w [], st.2)
    else if isWordChar c then (.word [c], st.2)
    else (.word [], st.2)
  | .value w v =>
    if c != '"' then (.value w (v ++ [c]), st.2)
    else if v.isEmpty then (.word [], st.2)
    else (.word [], st.2 ++ [w ++ ['=', '"'] ++ v ++ ['"']])

/-- The call `re.FindAllString(s, -1)` for the pattern `\w+="[^"]+"`: the successive
leftmost matches, which do not overlap. -/
def findAllPairs (s : Str) : List Str :=
  (s.foldl pairStep (.word [], [])).2

/-- The map `sds`: the pairs in the order of their assignment. -/
abbrev Sds := List (Str × Str)

/-- The value `sds[k]` with whether the key exists; the last assignment counts. -/
def sdsLookup (sds : Sds) (k : Str) : Option Str :=
  (sds.reverse.find? (fun e => e.1 == k)).map (fun e => e.2)

/-- The value `sds[k]`, empty when the key is missing. -/
def sdsGet (sds : Sds) (k : String) : Str :=
  (sdsLookup sds k.toList).getD []

/-- The statements `sep := strings.Index(pair, "=")` and
`sds[pair[:sep]] = pair[sep+2 : len(pair)-1]` (humanizer.go, lines 55 and 56); `none`
when a slice is out of range. -/
def addPair (sds : Sds) (pair : Str) : Option Sds :=
  match pair.indexOf? '=' with
  | none => none
  | some sep =>
    if sep + 2 ≤ pair.length - 1 ∧ 1 ≤ pair.length then
      some (sds ++ [(pair.take sep, (pair.take (pair.length - 1)).drop (sep + 2))])
    else none

/-- The loop of `Humanize` over the matches (humanizer.go, lines 54 to 57). -/
def buildSds : List Str → Sds → Option Sds
  | [], sds => some sds
  | pair :: rest, sds =>
    match addPair sds pair with
    | none => none
    | some sds1 => buildSds rest sds1

/-- The call `strconv.ParseUint(s, 10, 64)` (`none`: it returns an error). -/
def parseUint (s : Str) : Option Nat :=
  if s.isEmpty || !s.all (fun c => c.isDigit) then none
  else if digitsVal s < 2 ^ 64 then some (digitsVal s)
  else none

/-- The outcome of the part of `Humanize` that builds the message: the message, the
statement `return s`, or a runtime panic. -/
inductive HMsg
  | msg (m : Str)
  | same
  | panic
  deriving DecidableEq, Repr

/-- The statement `if err, exists := sds["err"]; exists { msg += ": " + err }`. -/
def withErr (sds : Sds) (m : Str) : Str :=
  match sdsLookup sds "err".toList with
  | some err => m ++ ": ".toList ++ err
  | none => m

/-- The call `strings.Replace(s, " ", ",", -1)`. -/
def spacesToCommas (s : Str) : Str :=
  s.map (fun c => if c == ' ' then ',' else c)

/-- The switch of `Humanize` over `who` (humanizer.go, lines 73 to 225). -/
def humanizeMsg (he : HumanizeEnv) (who : Str) (sds : Sds) (nodeS size rem : Str) : HMsg :=
  if who = "tx".toList then
    if sdsGet sds "type" = "file".toList then
      .msg (withErr sds ("File ".toList ++ sdsGet sds "src" ++ " (".toList ++ size ++
        ") transfer to ".toList ++ nodeS ++ ":".toList ++ sdsGet sds "dst" ++
        " (nice ".toList ++ sdsGet sds "nice" ++ "): ".toList ++ rem))
    else if sdsGet sds "type" = "freq".toList then
      .msg (withErr sds ("File request from ".toList ++ nodeS ++ ":".toList ++
        sdsGet sds "src" ++ " to ".toList ++ sdsGet sds "dst" ++ " (nice ".toList ++
        sdsGet sds "nice" ++ "): ".toList ++ rem))
    else if sdsGet sds "type" = "mail".toList then
      .msg (withErr sds ("Mail to ".toList ++ nodeS ++ "@".toList ++
        spacesToCommas (sdsGet sds "dst") ++ " (".toList ++ size ++ ") (nice ".toList ++
        sdsGet sds "nice" ++ "): ".toList ++ rem))
    else if sdsGet sds "type" = "trns".toList then
      .msg (withErr sds ("Transitional packet to ".toList ++ nodeS ++ " (".toList ++ size ++
        ") (nice ".toList ++ sdsGet sds "nice" ++ "): ".toList ++ rem))
    else .same
  else if who = "rx".toList then
    if sdsGet sds "type" = "mail".toList then
      .msg (withErr sds ("Got mail from ".toList ++ nodeS ++ " to ".toList ++
        spacesToCommas (sdsGet sds "dst") ++ " (".toList ++ size ++ ")".toList))
    else if sdsGet sds "type" = "file".toList then
      .msg (withErr sds ("Got file ".toList ++ sdsGet sds "dst" ++ " (".toList ++ size ++
        ") from ".toList ++ nodeS))
    else if sdsGet sds "type" = "freq".toList then
      .msg (withErr sds ("Got file request ".toList ++ sdsGet sds "src" ++ " to ".toList ++
        nodeS))
    else if sdsGet sds "type" = "trns".toList then
      let nodeT := (he.findNode (sdsGet sds "dst")).getD (sdsGet sds "dst")
      .msg (withErr sds ("Got transitional packet from ".toList ++ nodeS ++ " to ".toList ++
        nodeT ++ " (".toList ++ size ++ ")".toList))
    else .same
  else if who = "toss-check".toList then
    .msg ("Integrity check: ".toList ++ sdsGet sds "node" ++ "/".toList ++ sdsGet sds "xx" ++
      "/".toList ++ sdsGet sds "pkt" ++ " ".toList ++ sdsGet sds "err")
  else if who = "nncp-xfer".toList then
    let start : Option Str :=
      if sdsGet sds "xx" = "rx".toList then some "Packet transfer, received from".toList
      else if sdsGet sds "xx" = "tx".toList then some "Packet transfer, sent to".toList
      else none
    match start with
    | none => .same
    | some m0 =>
      let m1 := if nodeS ≠ [] then m0 ++ " node ".toList ++ nodeS else m0
      let m2 := if size ≠ [] then m1 ++ " (".toList ++ size ++ ")".toList else m1
      .msg (withErr sds m2)
  else if who = "daemon".toList then
    .msg ("Daemon listening on ".toList ++ sdsGet sds "bind")
  else if who = "call-start".toList then
    .msg ("Connected to ".toList ++ nodeS)
  else if who = "call-finish".toList then
    match parseUint (sdsGet sds "rxbytes") with
    | none => .same
    | some rx =>
      match parseUint (sdsGet sds "rxspeed") with
      | none => .same
      | some rxs =>
        match parseUint (sdsGet sds "txbytes") with
        | none => .same
        | some tx =>
          match parseUint (sdsGet sds "txspeed") with
          | none => .same
          | some txs =>
            .msg ("Finished call with ".toList ++ nodeS ++ ": ".toList ++ he.iBytes rx ++
              " received (".toList ++ he.iBytes rxs ++ "/sec), ".toList ++ he.iBytes tx ++
              " transferred (".toList ++ he.iBytes txs ++ "/sec)".toList)
  else if who = "llp-infos".toList then
    let start : Option Str :=
      if sdsGet sds "xx" = "rx".toList then some (nodeS ++ " has got for us: ".toList)
      else if sdsGet sds "xx" = "tx".toList then
        some ("We have got for ".toList ++ nodeS ++ ": ".toList)
      else none
    match start with
    | none => .same
    | some m0 => .msg (m0 ++ sdsGet sds "pkts" ++ " packets, ".toList ++ size)
  else if who = "llp-file".toList then
    let start : Option Str :=
      if sdsGet sds "xx" = "rx".toList then some "Got file ".toList
      else if sdsGet sds "xx" = "tx".toList then some "Sent file ".toList
      else none
    match start with
    | none => .same
    | some m0 =>
      match parseUint (sdsGet sds "fullsize") with
      | none => .same
      | some fullsize =>
        match parseUint (sdsGet sds "size") with
        | none => .same
        | some sizeParsed =>
          if fullsize = 0 then .panic
          else
            .msg (m0 ++ sdsGet sds "hash" ++ " ".toList ++
              itoa (100 * sizeParsed % 2 ^ 64 / fullsize) ++ "% (".toList ++
              he.iBytes sizeParsed ++ " / ".toList ++ he.iBytes fullsize ++ ")".toList)
  else if who = "llp-done".toList then
    if sdsGet sds "xx" = "rx".toList then
      .msg ("File ".toList ++ sdsGet sds "hash" ++ " is retreived (".toList ++ size ++
        ")".toList)
    else if sdsGet sds "xx" = "tx".toList then
      .msg ("File ".toList ++ sdsGet sds "hash" ++ " is sent".toList)
    else .same
  else .same

/-- The method `Ctx.Humanize` (humanizer.go, lines 31 to 227); `none` is a runtime
panic. -/
def Humanize (he : HumanizeEnv) (line : Str) : Option Str :=
  let s := trimRightNL line
  match splitN ' ' 4 s with
  | [f0, f1, f2, f3] =>
    let level : Str := if f0 = "E".toList then "ERROR ".toList else []
    match he.parseTime f1 with
    | none => some s
    | some time =>
      match f2 with
      | [] => none
      | _ :: who =>
        match lastIndex ']' f3 with
        | none => some s
        | some closingBracket =>
          let rem := trimSpaces (f3.drop (closingBracket + 1))
          match buildSds (findAllPairs (f3.take (closingBracket + 1))) [] with
          | none => none
          | some sds =>
            let nodeS := (he.findNode (sdsGet sds "node")).getD (sdsGet sds "node")
            let size : Option Str :=
              match sdsLookup sds "size".toList with
              | some sizeRaw => (parseUint sizeRaw).map he.iBytes
              | none => some []
            match size with
            | none => some s
            | some size =>
              match humanizeMsg he who sds nodeS size rem with
              | .msg m => some (he.formatTime time ++ " ".toList ++ level ++ m)
              | .same => some s
              | .panic => none
  | _ => some s

/-- A sample environment of `Humanize`: the only timestamp that parses is
`2020-01-01T00:00:00Z`, no node is found, and sizes are printed as a number of
bytes. -/
def hEnv0 : HumanizeEnv :=
  { parseTime := fun s => if s = "2020-01-01T00:00:00Z".toList then some 0 else none,
    formatTime := fun _ => "2020-01-01T00:00:00Z".toList,
    findNode := fun _ => none,
    iBytes := fun n => itoa n ++ " B".toList }

/-- The content of the file `p` in the list of files `fs`, empty if there is none. -/
def fileContent (fs : List (Str × Str)) (p : Str) : Str :=
  ((fs.find? (fun e => e.1 == p)).map (fun e => e.2)).getD []

/-- The concatenation of the contents that the chunks have in the list of files `fs`,
in the order of the chunks. -/
def chunkData (fs : List (Str × Str)) (chunks : List (Nat × Str)) : Str :=
  (chunks.map (fun ip => fileContent fs ip.2)).flatten

/-- The files that are left of `fs` when the chunks and the meta file `path` are
removed, and all of `fs` when `keep` is set. -/
def keptFiles (keep : Bool) (fs : List (Str × Str)) (chunks : List (Nat × Str))
    (path : Str) : List (Str × Str) :=
  if keep then fs
  else (fs.filter (fun e => !(chunks.map Prod.snd).contains e.1)).filter (fun e => e.1 != path)

/-- The environment `reEnv0` with every `os.Remove` failing. -/
def reEnvRemoveFails : ReassEnv :=
  { reEnv0 with toEnv := envRemoveFails }

/-! ## Lemmas: decimal numerals -/

theorem toDigitsCore_append (f : Nat) : ∀ (n : Nat) (ds : List Char),
    Nat.toDigitsCore 10 f n ds = Nat.toDigitsCore 10 f n [] ++ ds := by
  induction f with
  | zero => intro n ds; simp [Nat.toDigitsCore]
  | succ f ih =>
    intro n ds
    simp only [Nat.toDigitsCore]
    by_cases h : n / 10 = 0
    · simp [h]
    · simp only [h, if_false]
      rw [ih (n / 10) (_ :: ds), ih (n / 10) [_]]
      simp

theorem digitChar_val (d : Nat) (h : d < 10) : (Nat.digitChar d).toNat - 48 = d := by
  interval_cases d <;> rfl

theorem digitsVal_toDigitsCore (f : Nat) : ∀ n : Nat, n < f →
    digitsVal (Nat.toDigitsCore 10 f n []) = n := by
  induction f with
  | zero => intro n h; omega
  | succ f ih =>
    intro n hn
    simp only [Nat.toDigitsCore]
    by_cases h : n / 10 = 0
    · simp only [h, if_true]
      have hd := digitChar_val (n % 10) (Nat.mod_lt _ (by norm_num))
      have hm : n % 10 = n := by omega
      rw [hm] at hd ⊢
      simp [digitsVal, hd]
    · simp only [h, if_false]
      rw [toDigitsCore_append]
      have h1 : n / 10 < f := by omega
      have := ih (n / 10) h1
      simp only [digitsVal] at this ⊢
      rw [List.foldl_append, this]
      simp [digitChar_val (n % 10) (Nat.mod_lt _ (by norm_num))]
      omega

theorem digitsVal_itoa (n : Nat) : digitsVal (itoa n) = n := by
  unfold itoa Nat.toDigits
  exact digitsVal_toDigitsCore (n + 1) n (Nat.lt_succ_self n)

theorem itoa_injective : Function.Injective itoa := by
  intro a b h
  have := congrArg digitsVal h
  simpa [digitsVal_itoa] using this

theorem itoa_ne_nil (n : Nat) : itoa n ≠ [] := by
  unfold itoa Nat.toDigits
  simp only [Nat.toDigitsCore]
  by_cases h : n / 10 = 0
  · simp [h]
  · simp only [h, if_false]
    rw [toDigitsCore_append]
    simp

theorem pathExists_iff (w : World) (p : Str) : w.pathExists p = true ↔ p ∈ w.names := by
  simp only [World.pathExists, World.names, Bool.or_eq_true, List.any_eq_true, beq_iff_eq,
    List.mem_append, List.mem_map, List.contains_iff_exists_mem_beq]
  constructor
  · rintro (⟨x, hx, rfl⟩ | ⟨x, hx, rfl⟩)
    · exact Or.inl ⟨x, hx, rfl⟩
    · exact Or.inr hx
  · rintro (⟨x, hx, rfl⟩ | hx)
    · exact Or.inl ⟨x, hx, rfl⟩
    · exact Or.inr ⟨p, hx, rfl⟩

theorem stat_found_iff (e : Env) (w : World) (p : Str) :
    stat e w p = .found ↔ e.statErr p = false ∧ w.pathExists p = true := by
  unfold stat
  by_cases h1 : e.statErr p = true <;> by_cases h2 : w.pathExists p = true <;> simp [h1, h2]

theorem stat_notExist_iff (e : Env) (w : World) (p : Str) :
    stat e w p = .notExist ↔ e.statErr p = false ∧ w.pathExists p = false := by
  unfold stat
  by_cases h1 : e.statErr p = true <;> by_cases h2 : w.pathExists p = true <;> simp [h1, h2]

theorem stat_failed_iff (e : Env) (w : World) (p : Str) :
    stat e w p = .failed ↔ e.statErr p = true := by
  unfold stat
  by_cases h1 : e.statErr p = true <;> by_cases h2 : w.pathExists p = true <;> simp [h1, h2]

theorem tried_length (orig : Str) : ∀ fuel path ctr, (tried orig fuel path ctr).length = fuel := by
  intro fuel
  induction fuel with
  | zero => intro _ _; rfl
  | succ f ih => intro p c; simp [tried, ih]

theorem mem_tried (orig : Str) : ∀ fuel path ctr q, q ∈ tried orig fuel path ctr →
    q = path ∨ ∃ k, ctr ≤ k ∧ q = orig ++ itoa k := by
  intro fuel
  induction fuel with
  | zero => intro _ _ q h; simp [tried] at h
  | succ f ih =>
    intro p c q h
    simp only [tried, List.mem_cons] at h
    rcases h with h | h
    · exact Or.inl h
    · rcases ih _ _ q h with h | ⟨k, hk, rfl⟩
      · exact Or.inr ⟨c, le_refl _, h⟩
      · exact Or.inr ⟨k, by omega, rfl⟩

theorem tried_nodup (orig : Str) : ∀ fuel path ctr,
    (∀ k, ctr ≤ k → path ≠ orig ++ itoa k) → (tried orig fuel path ctr).Nodup := by
  intro fuel
  induction fuel with
  | zero => intro _ _ _; simp [tried]
  | succ f ih =>
    intro p c hp
    simp only [tried, List.nodup_cons]
    refine ⟨?_, ih _ _ ?_⟩
    · intro hmem
      rcases mem_tried orig f _ _ p hmem with h | ⟨k, hk, h⟩
      · exact hp c (le_refl _) h
      · exact hp k (by omega) h
    · intro k hk h
      have := itoa_injective (List.append_cancel_left h)
      omega

theorem tossDstLoop_outOfFuel (e : Env) (w : World) (orig : Str) : ∀ fuel path ctr,
    tossDstLoop e w orig fuel path ctr = .outOfFuel →
    ∀ q ∈ tried orig fuel path ctr, w.pathExists q = true := by
  intro fuel
  induction fuel with
  | zero => intro _ _ _ q h; simp [tried] at h
  | succ f ih =>
    intro p c h q hq
    simp only [tossDstLoop] at h
    cases hs : stat e w p with
    | notExist => simp [hs] at h
    | failed => simp [hs] at h
    | found =>
      simp only [hs] at h
      simp only [tried, List.mem_cons] at hq
      rcases hq with rfl | hq
      · exact ((stat_found_iff e w q).1 hs).2
      · exact ih _ _ h q hq

theorem tossDstPath_ne_outOfFuel (e : Env) (w : World) (p : Str) :
    tossDstPath e w p ≠ .outOfFuel := by
  intro h
  have hall := tossDstLoop_outOfFuel e w p _ _ _ h
  have hnd : (tried p (w.files.length + w.dirs.length + 1) p 0).Nodup :=
    tried_nodup p _ p 0 (fun k _ hk => itoa_ne_nil k (List.self_eq_append_right.1 hk))
  have hsub : tried p (w.files.length + w.dirs.length + 1) p 0 ⊆ w.names :=
    fun q hq => (pathExists_iff w q).1 (hall q hq)
  have hle := (List.subperm_of_subset hnd hsub).length_le
  rw [tried_length] at hle
  simp [World.names] at hle

theorem tossDstLoop_chosen (e : Env) (w : World) (orig : Str) : ∀ fuel path ctr q,
    tossDstLoop e w orig fuel path ctr = .chosen q →
    stat e w q = .notExist ∧
      (q = path ∨ (stat e w path = .found ∧ ∃ k, ctr ≤ k ∧ q = orig ++ itoa k ∧
        ∀ j, ctr ≤ j → j < k → stat e w (orig ++ itoa j) = .found)) := by
  intro fuel
  induction fuel with
  | zero => intro _ _ q h; simp [tossDstLoop] at h
  | succ f ih =>
    intro p c q h
    simp only [tossDstLoop] at h
    cases hs : stat e w p with
    | notExist =>
      simp only [hs, DstSearch.chosen.injEq] at h
      subst h
      exact ⟨hs, Or.inl rfl⟩
    | failed => simp [hs] at h
    | found =>
      simp only [hs] at h
      obtain ⟨hq, hcase⟩ := ih _ _ q h
      refine ⟨hq, Or.inr ⟨rfl, ?_⟩⟩
      rcases hcase with rfl | ⟨hf, k, hk, rfl, hmin⟩
      · exact ⟨c, le_refl _, rfl, fun j h1 h2 => by omega⟩
      · refine ⟨k, by omega, rfl, fun j h1 h2 => ?_⟩
        by_cases hj : j = c
        · subst hj; exact hf
        · exact hmin j (by omega) h2

theorem tossDstLoop_statFailed (e : Env) (w : World) (orig : Str) : ∀ fuel path ctr,
    tossDstLoop e w orig fuel path ctr = .statFailed → ∃ q, e.statErr q = true := by
  intro fuel
  induction fuel with
  | zero => intro _ _ h; simp [tossDstLoop] at h
  | succ f ih =>
    intro p c h
    simp only [tossDstLoop] at h
    cases hs : stat e w p with
    | notExist => simp [hs] at h
    | failed => exact ⟨p, (stat_failed_iff e w p).1 hs⟩
    | found => simp only [hs] at h; exact ih _ _ h

theorem reassDstLoop_eq (e : Env) (w : World) (orig : Str) : ∀ fuel path ctr,
    reassDstLoop e w orig fuel path ctr = (tossDstLoop e w orig fuel path ctr).toReass := by
  intro fuel
  induction fuel with
  | zero => intro _ _; rfl
  | succ f ih =>
    intro p c
    simp only [reassDstLoop, tossDstLoop]
    cases hs : stat e w p <;> simp [DstSearch.toReass, ih]

theorem find_filter_ne (l : List (Str × Str)) (p x : Str) (h : x ≠ p) :
    (l.filter (fun e => e.1 != p)).find? (fun e => e.1 == x) = l.find? (fun e => e.1 == x) := by
  induction l with
  | nil => rfl
  | cons a l ih =>
    rw [List.filter_cons, List.find?_cons]
    by_cases ha : a.1 = p
    · have hx : (a.1 == x) = false := beq_eq_false_iff_ne.2 (fun hax => h (hax ▸ ha))
      have hb : (a.1 != p) = false := by simp [ha]
      rw [hx, hb]
      simpa using ih
    · have hb : (a.1 != p) = true := by simp [ha]
      rw [hb]
      simp only [if_true, List.find?_cons]
      rw [ih]

theorem any_filter_ne (l : List (Str × Str)) (p x : Str) (h : x ≠ p) :
    (l.filter (fun e => e.1 != p)).any (fun e => e.1 == x) = l.any (fun e => e.1 == x) := by
  rw [Bool.eq_iff_iff]
  simp only [List.any_eq_true, List.mem_filter, beq_iff_eq, bne_iff_ne, ne_eq]
  constructor
  · rintro ⟨y, ⟨hy, _⟩, rfl⟩
    exact ⟨y, hy, rfl⟩
  · rintro ⟨y, hy, rfl⟩
    exact ⟨y, ⟨hy, h⟩, rfl⟩

theorem any_filter_self (l : List (Str × Str)) (p : Str) :
    (l.filter (fun e => e.1 != p)).any (fun e => e.1 == p) = false := by
  rw [List.any_eq_false]
  intro y hy
  simp only [List.mem_filter, bne_iff_ne, ne_eq] at hy
  simpa using hy.2

theorem readFile_writeFile_same (w : World) (p c : Str) :
    (w.writeFile p c).readFile p = some c := by
  simp [World.writeFile, World.readFile, List.find?_cons]

theorem readFile_writeFile_ne (w : World) (p c x : Str) (h : x ≠ p) :
    (w.writeFile p c).readFile x = w.readFile x := by
  have hp : (p == x) = false := beq_eq_false_iff_ne.2 (fun hpx => h hpx.symm)
  simp only [World.writeFile, World.readFile, List.find?_cons, hp, find_filter_ne _ _ _ h]

theorem readFile_unlink_ne (w : World) (p x : Str) (h : x ≠ p) :
    (w.unlink p).readFile x = w.readFile x := by
  simp [World.unlink, World.readFile, find_filter_ne _ _ _ h]

theorem isFile_writeFile_same (w : World) (p c : Str) : (w.writeFile p c).isFile p = true := by
  simp [World.writeFile, World.isFile]

theorem isFile_writeFile_ne (w : World) (p c x : Str) (h : x ≠ p) :
    (w.writeFile p c).isFile x = w.isFile x := by
  have hp : (p == x) = false := beq_eq_false_iff_ne.2 (fun hpx => h hpx.symm)
  simp only [World.writeFile, World.isFile, List.any_cons, hp, any_filter_ne _ _ _ h,
    Bool.false_or]

theorem isFile_unlink_same (w : World) (p : Str) : (w.unlink p).isFile p = false := by
  simp only [World.unlink, World.isFile, any_filter_self]

theorem isFile_unlink_ne (w : World) (p x : Str) (h : x ≠ p) :
    (w.unlink p).isFile x = w.isFile x := by
  simp only [World.unlink, World.isFile, any_filter_ne _ _ _ h]

theorem readFile_eq_none_of_not_isFile (w : World) (p : Str) (h : w.isFile p = false) :
    w.readFile p = none := by
  simp only [World.isFile, List.any_eq_false, beq_iff_eq] at h
  simp only [World.readFile, Option.map_eq_none', List.find?_eq_none, beq_iff_eq]
  exact h

theorem isFile_of_readFile (w : World) (p c : Str) (h : w.readFile p = some c) :
    w.isFile p = true := by
  by_contra hn
  rw [readFile_eq_none_of_not_isFile w p (by simpa using hn)] at h
  exact Option.noConfusion h

theorem pathExists_of_isFile (w : World) (p : Str) (h : w.isFile p = true) :
    w.pathExists p = true := by
  simp [World.pathExists, World.isFile] at h ⊢
  exact Or.inl h

theorem rename_keeps (w : World) (tmp q x c : Str) (hq : w.pathExists q = false)
    (hx : x ≠ tmp) (hc : w.readFile x = some c) : (w.rename tmp q).readFile x = some c := by
  have hxq : x ≠ q := by
    rintro rfl
    have := pathExists_of_isFile w x (isFile_of_readFile w x c hc)
    rw [hq] at this
    exact Bool.noConfusion this
  unfold World.rename
  cases ht : w.readFile tmp with
  | none => exact hc
  | some c2 =>
    simp only
    rw [readFile_writeFile_ne _ _ _ _ hxq, readFile_unlink_ne _ _ _ hx, hc]

/-! ## Lemmas: the world and the steps of a job -/

@[simp] theorem logMsg_files (w : World) (l : Level) (m : String) :
    (w.logMsg l m).files = w.files := rfl
@[simp] theorem logMsg_dirs (w : World) (l : Level) (m : String) :
    (w.logMsg l m).dirs = w.dirs := rfl
@[simp] theorem logMsg_txCalls (w : World) (l : Level) (m : String) :
    (w.logMsg l m).txCalls = w.txCalls := rfl
@[simp] theorem logMsg_cmds (w : World) (l : Level) (m : String) :
    (w.logMsg l m).cmds = w.cmds := rfl
@[simp] theorem logMsg_isFile (w : World) (l : Level) (m : String) (p : Str) :
    (w.logMsg l m).isFile p = w.isFile p := rfl
@[simp] theorem logMsg_readFile (w : World) (l : Level) (m : String) (p : Str) :
    (w.logMsg l m).readFile p = w.readFile p := rfl
@[simp] theorem logMsg_pathExists (w : World) (l : Level) (m : String) (p : Str) :
    (w.logMsg l m).pathExists p = w.pathExists p := rfl
@[simp] theorem tx_files (w : World) (t : TxCall) : (w.tx t).files = w.files := rfl
@[simp] theorem tx_dirs (w : World) (t : TxCall) : (w.tx t).dirs = w.dirs := rfl
@[simp] theorem tx_cmds (w : World) (t : TxCall) : (w.tx t).cmds = w.cmds := rfl
@[simp] theorem tx_txCalls (w : World) (t : TxCall) : (w.tx t).txCalls = w.txCalls ++ [t] := rfl
@[simp] theorem tx_isFile (w : World) (t : TxCall) (p : Str) : (w.tx t).isFile p = w.isFile p := rfl
@[simp] theorem run_files (w : World) (r : CmdRun) : (w.run r).files = w.files := rfl
@[simp] theorem run_dirs (w : World) (r : CmdRun) : (w.run r).dirs = w.dirs := rfl
@[simp] theorem run_txCalls (w : World) (r : CmdRun) : (w.run r).txCalls = w.txCalls := rfl
@[simp] theorem run_cmds (w : World) (r : CmdRun) : (w.run r).cmds = w.cmds ++ [r] := rfl
@[simp] theorem run_isFile (w : World) (r : CmdRun) (p : Str) : (w.run r).isFile p = w.isFile p := rfl
@[simp] theorem run_readFile (w : World) (r : CmdRun) (p : Str) :
    (w.run r).readFile p = w.readFile p := rfl
@[simp] theorem writeFile_dirs (w : World) (p c : Str) : (w.writeFile p c).dirs = w.dirs := rfl
@[simp] theorem writeFile_txCalls (w : World) (p c : Str) :
    (w.writeFile p c).txCalls = w.txCalls := rfl
@[simp] theorem writeFile_cmds (w : World) (p c : Str) : (w.writeFile p c).cmds = w.cmds := rfl
@[simp] theorem unlink_dirs (w : World) (p : Str) : (w.unlink p).dirs = w.dirs := rfl
@[simp] theorem unlink_txCalls (w : World) (p : Str) : (w.unlink p).txCalls = w.txCalls := rfl
@[simp] theorem unlink_cmds (w : World) (p : Str) : (w.unlink p).cmds = w.cmds := rfl
@[simp] theorem addDirs_files (w : World) (ds : List Str) : (w.addDirs ds).files = w.files := rfl
@[simp] theorem addDirs_txCalls (w : World) (ds : List Str) :
    (w.addDirs ds).txCalls = w.txCalls := rfl
@[simp] theorem addDirs_cmds (w : World) (ds : List Str) : (w.addDirs ds).cmds = w.cmds := rfl
@[simp] theorem addDirs_isFile (w : World) (ds : List Str) (p : Str) :
    (w.addDirs ds).isFile p = w.isFile p := rfl
@[simp] theorem addDirs_readFile (w : World) (ds : List Str) (p : Str) :
    (w.addDirs ds).readFile p = w.readFile p := rfl

theorem seen_ne (n : Str) : n ++ SeenSuffix ≠ n := by
  intro h
  have := congrArg List.length h
  simp [SeenSuffix] at this

theorem called_files (w : World) (c : FsCall) : (w.called c).files = w.files := rfl

theorem called_dirs (w : World) (c : FsCall) : (w.called c).dirs = w.dirs := rfl

theorem called_isFile (w : World) (c : FsCall) (p : Str) :
    (w.called c).isFile p = w.isFile p := rfl

theorem called_readFile (w : World) (c : FsCall) (p : Str) :
    (w.called c).readFile p = w.readFile p := rfl

theorem called_logMsg_isFile (w : World) (c : FsCall) (l : Level) (m : String) (p : Str) :
    ((w.called c).logMsg l m).isFile p = w.isFile p := rfl

theorem called_logMsg_readFile (w : World) (c : FsCall) (l : Level) (m : String) (p : Str) :
    ((w.called c).logMsg l m).readFile p = w.readFile p := rfl

theorem unlink_called_isFile (w : World) (c : FsCall) (x p : Str) :
    ((w.unlink x).called c).isFile p = (w.unlink x).isFile p := rfl

theorem unlink_called_readFile (w : World) (c : FsCall) (x p : Str) :
    ((w.unlink x).called c).readFile p = (w.unlink x).readFile p := rfl

/-- The two ways `retire` can end, over the world `w1` left by the marker step. -/
theorem retire_cases (e : Env) (fl : Flags) (j : Job) (w : World) :
    ∃ w1, (w1 = w ∨ w1 = w.called (.create (j.name ++ SeenSuffix) true) ∨
        w1 = (w.writeFile (j.name ++ SeenSuffix) []).called
          (.create (j.name ++ SeenSuffix) false)) ∧
      (retire e fl j w = (true, (w1.called (.remove j.name true)).logMsg .error "remove") ∨
        (e.removeErr j.name = false ∧ w1.isFile j.name = true ∧
          retire e fl j w = (false, (w1.unlink j.name).called (.remove j.name false)))) := by
  have key : ∀ w1 : World,
      (if (e.removeErr j.name || !w1.isFile j.name) = true
        then (true, (w1.called (.remove j.name true)).logMsg .error "remove")
        else (false, (w1.unlink j.name).called (.remove j.name false))) =
          (true, (w1.called (.remove j.name true)).logMsg .error "remove") ∨
      (e.removeErr j.name = false ∧ w1.isFile j.name = true ∧
        (if (e.removeErr j.name || !w1.isFile j.name) = true
          then (true, (w1.called (.remove j.name true)).logMsg .error "remove")
          else (false, (w1.unlink j.name).called (.remove j.name false))) =
            (false, (w1.unlink j.name).called (.remove j.name false))) := by
    intro w1
    cases h2 : e.removeErr j.name <;> cases h3 : w1.isFile j.name <;> simp
  unfold retire
  by_cases h1 : fl.doSeen = true
  · by_cases h2 : e.createErr (j.name ++ SeenSuffix) = true
    · refine ⟨w.called (.create (j.name ++ SeenSuffix) true), Or.inr (Or.inl rfl), ?_⟩
      rw [if_pos h1, if_pos h2]
      exact key _
    · refine ⟨(w.writeFile (j.name ++ SeenSuffix) []).called
        (.create (j.name ++ SeenSuffix) false), Or.inr (Or.inr rfl), ?_⟩
      rw [if_pos h1, if_neg h2]
      exact key _
  · refine ⟨w, Or.inl rfl, ?_⟩
    rw [if_neg h1]
    exact key _

theorem retire_txCalls (e : Env) (fl : Flags) (j : Job) (w : World) :
    (retire e fl j w).2.txCalls = w.txCalls := by
  obtain ⟨w1, hw1, h | ⟨_, _, h⟩⟩ := retire_cases e fl j w <;>
    rcases hw1 with rfl | rfl | rfl <;> rw [h] <;> rfl

theorem retire_cmds (e : Env) (fl : Flags) (j : Job) (w : World) :
    (retire e fl j w).2.cmds = w.cmds := by
  obtain ⟨w1, hw1, h | ⟨_, _, h⟩⟩ := retire_cases e fl j w <;>
    rcases hw1 with rfl | rfl | rfl <;> rw [h] <;> rfl

theorem retire_dirs (e : Env) (fl : Flags) (j : Job) (w : World) :
    (retire e fl j w).2.dirs = w.dirs := by
  obtain ⟨w1, hw1, h | ⟨_, _, h⟩⟩ := retire_cases e fl j w <;>
    rcases hw1 with rfl | rfl | rfl <;> rw [h] <;> rfl

/-- The spool file is gone after `retire` only when the removal did not fail. -/
theorem retire_isFile_of_bad (e : Env) (fl : Flags) (j : Job) (w : World)
    (hw : w.isFile j.name = true) (hb : (retire e fl j w).1 = true) :
    (retire e fl j w).2.isFile j.name = true := by
  have hne : j.name ≠ j.name ++ SeenSuffix := fun h => seen_ne j.name h.symm
  obtain ⟨w1, hw1, h | ⟨_, _, h⟩⟩ := retire_cases e fl j w
  · rw [h]
    show w1.isFile j.name = true
    rcases hw1 with rfl | rfl | rfl
    · exact hw
    · exact hw
    · show (w.writeFile (j.name ++ SeenSuffix) []).isFile j.name = true
      rw [isFile_writeFile_ne _ _ _ _ hne]
      exact hw
  · rw [h] at hb
    exact Bool.noConfusion hb

/-- When the removal of the spool file succeeds, it is gone and the job is not bad. -/
theorem retire_ok (e : Env) (fl : Flags) (j : Job) (w : World)
    (hw : w.isFile j.name = true) (hr : e.removeErr j.name = false) :
    (retire e fl j w).1 = false ∧ (retire e fl j w).2.isFile j.name = false := by
  have hne : j.name ≠ j.name ++ SeenSuffix := fun h => seen_ne j.name h.symm
  obtain ⟨w1, hw1, h | ⟨_, _, h⟩⟩ := retire_cases e fl j w
  · exfalso
    have hf : w1.isFile j.name = true := by
      rcases hw1 with rfl | rfl | rfl
      · exact hw
      · exact hw
      · show (w.writeFile (j.name ++ SeenSuffix) []).isFile j.name = true
        rw [isFile_writeFile_ne _ _ _ _ hne]
        exact hw
    have hw2 : (w.writeFile (j.name ++ SeenSuffix) []).isFile j.name = true := by
      rw [isFile_writeFile_ne _ _ _ _ hne]
      exact hw
    unfold retire at h
    by_cases h1 : fl.doSeen = true
    · by_cases h2 : e.createErr (j.name ++ SeenSuffix) = true
      · rw [if_pos h1, if_pos h2] at h
        simp [hr, called_isFile, hw] at h
      · rw [if_pos h1, if_neg h2] at h
        simp [hr, called_isFile, hw2] at h
    · rw [if_neg h1] at h
      simp [hr, hw] at h
  · rw [h]
    exact ⟨rfl, isFile_unlink_same _ _⟩

theorem retire_readFile (e : Env) (fl : Flags) (j : Job) (w : World) (x : Str)
    (h1 : x ≠ j.name) (h2 : x ≠ j.name ++ SeenSuffix) :
    (retire e fl j w).2.readFile x = w.readFile x := by
  obtain ⟨w1, hw1, h | ⟨_, _, h⟩⟩ := retire_cases e fl j w <;>
    rcases hw1 with rfl | rfl | rfl <;> rw [h] <;>
    simp [called_readFile, called_logMsg_readFile, unlink_called_readFile,
      readFile_writeFile_ne _ _ _ _ h2, readFile_unlink_ne _ _ _ h1]

/-- If the job is bad after `retire`, no file has been removed. -/
theorem retire_files_of_bad (e : Env) (fl : Flags) (j : Job) (w : World) (x : Str)
    (hx : w.isFile x = true) : (retire e fl j w).1 = true →
    (retire e fl j w).2.isFile x = true := by
  intro hb
  obtain ⟨w1, hw1, h | ⟨_, _, h⟩⟩ := retire_cases e fl j w
  · rw [h]
    show w1.isFile x = true
    rcases hw1 with rfl | rfl | rfl
    · exact hx
    · exact hx
    · show (w.writeFile (j.name ++ SeenSuffix) []).isFile x = true
      by_cases hxs : x = j.name ++ SeenSuffix
      · subst hxs; simp [isFile_writeFile_same]
      · simpa [isFile_writeFile_ne _ _ _ _ hxs] using hx
  · rw [h] at hb
    exact Bool.noConfusion hb

theorem notify_some (c : Ctx) (ft : Option FromTo) (input : FromTo → Stdin) (w : World)
    (n : Node) (h : c.neigh.lookup c.selfId = some n) :
    ∃ w2, notify c ft input w = some w2 ∧ w2.files = w.files ∧ w2.dirs = w.dirs ∧
      w2.txCalls = w.txCalls := by
  unfold notify
  rw [h]
  simp only
  split
  · split_ifs
    · exact ⟨_, rfl, rfl, rfl, rfl⟩
    · exact ⟨_, rfl, rfl, rfl, rfl⟩
  · exact ⟨_, rfl, rfl, rfl, rfl⟩

theorem pathExists_addDirs (w : World) (ds : List Str) (p : Str) (h : p ∉ ds) :
    (w.addDirs ds).pathExists p = w.pathExists p := by
  have hc : (w.dirs ++ ds.filter (fun d => !w.dirs.contains d)).contains p = w.dirs.contains p := by
    rw [Bool.eq_iff_iff]
    simp only [List.contains_iff_exists_mem_beq, beq_iff_eq, exists_eq_right', List.mem_append,
      List.mem_filter]
    constructor
    · rintro (h1 | ⟨h1, _⟩)
      · exact h1
      · exact absurd h1 h
    · exact fun h1 => Or.inl h1
  simp only [World.pathExists, World.addDirs, hc]

theorem pathExists_writeFile_ne (w : World) (p c x : Str) (h : x ≠ p) :
    (w.writeFile p c).pathExists x = w.pathExists x := by
  have := isFile_writeFile_ne w p c x h
  simp only [World.isFile] at this
  simp only [World.pathExists, writeFile_dirs, this]

theorem tossDstPath_free (e : Env) (w : World) (p : Str) (hs : e.statErr p = false)
    (hp : w.pathExists p = false) : tossDstPath e w p = .chosen p := by
  simp [tossDstPath, tossDstLoop, stat, hs, hp]

theorem notify_ne_none (c : Ctx) (ft : Option FromTo) (input : FromTo → Stdin) (w : World)
    (n : Node) (h : c.neigh.lookup c.selfId = some n) : notify c ft input w ≠ none := by
  obtain ⟨w2, hw2, -⟩ := notify_some c ft input w n h
  rw [hw2]
  exact Option.some_ne_none w2

theorem notify_files (c : Ctx) (ft : Option FromTo) (input : FromTo → Stdin) (w w2 : World)
    (h : notify c ft input w = some w2) : w2.files = w.files := by
  unfold notify at h
  split at h
  · exact Option.noConfusion h
  · split at h
    · split_ifs at h <;> cases h <;> rfl
    · cases h; rfl

theorem readFile_congr (w w2 : World) (h : w2.files = w.files) (p : Str) :
    w2.readFile p = w.readFile p := by
  simp only [World.readFile, h]

theorem isFile_congr (w w2 : World) (h : w2.files = w.files) (p : Str) :
    w2.isFile p = w.isFile p := by
  simp only [World.isFile, h]

/-- The files after the payload `body` was written to the temporary file `tmp` and
renamed to `t`: the file `name` is still there and `t` holds `body`. -/
theorem delivered_world (w : World) (tmp t body name : Str) (h2 : tmp ≠ name)
    (h3 : t ≠ name) (hs : w.isFile name = true) :
    (((((w.writeFile tmp []).logMsg .debug "created").writeFile tmp body).rename tmp t).logMsg
      .info "").isFile name = true ∧
    (((((w.writeFile tmp []).logMsg .debug "created").writeFile tmp body).rename tmp t).logMsg
      .info "").readFile t = some body := by
  unfold World.rename
  rw [readFile_writeFile_same]
  simp only [logMsg_isFile, logMsg_readFile]
  rw [readFile_writeFile_same, isFile_writeFile_ne _ _ _ _ h3.symm,
    isFile_unlink_ne _ _ _ h2.symm, isFile_writeFile_ne _ _ _ _ h2.symm, logMsg_isFile,
    isFile_writeFile_ne _ _ _ _ h2.symm]
  exact ⟨hs, rfl⟩

theorem tossLoop_cons_ok (c : Ctx) (e : Env) (fl : Flags) (j : Job) (js : List Job) (b : Bool)
    (w : World) (h : (tossJob c e fl j w).ctl = .ok) :
    tossLoop c e fl (j :: js) b w =
      tossLoop c e fl js (b || (tossJob c e fl j w).bad) (tossJob c e fl j w).world := by
  simp only [tossLoop, h]

/-! ## Lemmas: the model of `Toss` never runs out of rounds -/

theorem tossFile_ne_diverge (c : Ctx) (e : Env) (fl : Flags) (j : Job) (pkt : Pkt) (n : Int)
    (w : World) : (tossFile c e fl j pkt n w).ctl ≠ .diverge := by
  unfold tossFile
  dsimp only
  cases fl.noFile
  case true => simp
  cases isAbs pkt.path
  case true => simp
  cases c.neigh.lookup j.sender with
  | none => simp
  | some sender =>
    dsimp only
    cases sender.incoming with
    | none => simp
    | some incoming =>
      dsimp only
      cases (e.mkdirAllErr (join incoming (dir pkt.path)) ||
        (mkdirAllPaths (join incoming (dir pkt.path))).any w.isFile)
      case true => simp
      cases fl.dryRun
      case true => simp
      cases e.tempFile (w.addDirs (mkdirAllPaths (join incoming (dir pkt.path))))
        (join incoming (dir pkt.path)) with
      | none => simp
      | some tmp =>
        dsimp only
        cases e.copyErr tmp j.body
        case true => simp
        cases h : tossDstPath e
          ((((w.addDirs (mkdirAllPaths (join incoming (dir pkt.path)))).writeFile tmp []).logMsg
            .debug "created").writeFile tmp
              (if e.flushErr tmp j.body = true then e.stored tmp j.body else j.body))
          (join incoming pkt.path) with
        | outOfFuel => exact absurd h (tossDstPath_ne_outOfFuel _ _ _)
        | statFailed => simp
        | chosen q =>
          simp only [Bool.false_eq_true, if_false]
          split <;> simp

theorem tossExec_ne_diverge (c : Ctx) (e : Env) (fl : Flags) (j : Job) (pkt : Pkt)
    (w : World) : (tossExec c e fl j pkt w).ctl ≠ .diverge := by
  unfold tossExec
  dsimp only
  cases fl.noExec
  case true => simp
  cases e.zlibErr j.body
  case true => simp
  cases c.neigh.lookup j.sender with
  | none => simp
  | some sender =>
    dsimp only
    cases sender.exec.lookup ((pkt.path.splitOn (Char.ofNat 0)).headD []) with
    | none => simp
    | some cmdline =>
      dsimp only
      by_cases hc : cmdline = []
      · simp [hc]
      · cases fl.dryRun
        · cases e.cmdErr ⟨cmdline ++ (pkt.path.splitOn (Char.ofNat 0)).tail,
            some (c.self, sender.id, pkt.nice), .zlibOf j.body⟩ <;> simp [hc]
        · simp [hc]

theorem tossFreq_ne_diverge (c : Ctx) (e : Env) (fl : Flags) (j : Job) (pkt : Pkt)
    (w : World) : (tossFreq c e fl j pkt w).ctl ≠ .diverge := by
  unfold tossFreq
  dsimp only
  cases fl.noFreq
  case true => simp
  cases isAbs pkt.path
  case true => simp
  cases c.neigh.lookup j.sender with
  | none => simp
  | some sender =>
    dsimp only
    cases sender.freq with
    | none => simp
    | some freq =>
      dsimp only
      cases fl.dryRun
      case true => simp
      simp only [Bool.false_eq_true, if_false]
      split_ifs
      all_goals first
        | (simp; done)
        | (split <;> simp)

theorem tossTrns_ne_diverge (c : Ctx) (e : Env) (fl : Flags) (j : Job) (pkt : Pkt) (n : Int)
    (w : World) : (tossTrns c e fl j pkt n w).ctl ≠ .diverge := by
  unfold tossTrns
  cases fl.noTrns
  case true => simp
  cases c.neigh.lookup (trnsNodeId pkt.path) with
  | none => simp
  | some node =>
    dsimp only
    cases fl.dryRun
    case true => simp
    cases e.txTrnsErr (.trns node j.nice n j.body) <;> simp

theorem tossJob_ne_diverge (c : Ctx) (e : Env) (fl : Flags) (j : Job) (w : World) :
    (tossJob c e fl j w).ctl ≠ .diverge := by
  unfold tossJob
  split
  · simp
  · split
    · simp
    · dsimp only
      split
      · exact tossExec_ne_diverge _ _ _ _ _ _
      · exact tossFile_ne_diverge _ _ _ _ _ _ _
      · exact tossFreq_ne_diverge _ _ _ _ _ _
      · exact tossTrns_ne_diverge _ _ _ _ _ _ _
      · simp

theorem tossLoop_ne_diverge (c : Ctx) (e : Env) (fl : Flags) :
    ∀ (js : List Job) (b : Bool) (w : World), (tossLoop c e fl js b w).ctl ≠ .diverge := by
  intro js
  induction js with
  | nil => intro b w; simp [tossLoop]
  | cons j js ih =>
    intro b w
    have hj := tossJob_ne_diverge c e fl j w
    simp only [tossLoop]
    cases h : (tossJob c e fl j w).ctl with
    | ok => simpa using ih _ _
    | fatal => simp
    | panic => simp
    | diverge => exact absurd h hj

/-! ## Decryption failures -/

/-- The outcome of a job does not depend on whether `PktEncRead` returned an error:
the error is sent to a channel that `Toss` never reads. -/
theorem tossJob_ignores_decErr (c : Ctx) (e : Env) (fl : Flags) (j : Job) (w : World) :
    tossJob c e fl { j with decErr := true } w = tossJob c e fl { j with decErr := false } w :=
  rfl

/-- A processed job whose header cannot be read from the pipe, as when `PktEncRead`
fails before it has written a whole header, is marked bad, changes nothing but the
log, and the loop goes on with the next job. -/
theorem toss_unmarshal_failure (c : Ctx) (e : Env) (fl : Flags) (j : Job) (w : World)
    (hnice : j.nice ≤ fl.nice) (hpkt : j.pkt = none) :
    tossJob c e fl j w = ⟨.ok, true, w.logMsg .error "unmarshal"⟩ := by
  have hn : ¬ j.nice > fl.nice := by omega
  unfold tossJob
  rw [if_neg hn, hpkt]

/-- C1 (failing input): for the job `jobLate`, whose header and body went down the
pipe before `PktEncRead` ended with an error, `Toss` returns `false`, delivers the
payload to `/in/reports/out.txt` and removes the spool file. -/
theorem toss_delivers_after_late_decryption_failure :
    jobLate.decErr = true ∧
    (Toss ctx0 env0 fl0 [jobLate] w0).ctl = .ok ∧
    (Toss ctx0 env0 fl0 [jobLate] w0).bad = false ∧
    (Toss ctx0 env0 fl0 [jobLate] w0).world.readFile "/in/reports/out.txt".toList =
      some "hello".toList ∧
    (Toss ctx0 env0 fl0 [jobLate] w0).world.isFile spool0 = false := by
  decide

/-! ## File delivery -/

/-- C2 (counterexample): a File packet with the relative destination `reports/out.txt`
from a sender with the incoming directory `/in` is not delivered and its spool file
stays when File packets are switched off or the job is too nice; and for the empty
destination path, with nothing existing at `/in`, the payload ends up in `/in0`. -/
theorem toss_file_not_delivered :
    isAbs "reports/out.txt".toList = false ∧ nodeA.incoming = some "/in".toList ∧
    join "/in".toList "reports/out.txt".toList = "/in/reports/out.txt".toList ∧
    w0.pathExists "/in/reports/out.txt".toList = false ∧
    flNoFile.dryRun = false ∧ flNice50.dryRun = false ∧
    (Toss ctx0 env0 flNoFile [job0 idA .file "reports/out.txt"] w0).world.readFile
      "/in/reports/out.txt".toList = none ∧
    (Toss ctx0 env0 flNoFile [job0 idA .file "reports/out.txt"] w0).world.isFile spool0 = true ∧
    (Toss ctx0 env0 flNice50 [job0 idA .file "reports/out.txt"] w0).world.readFile
      "/in/reports/out.txt".toList = none ∧
    (Toss ctx0 env0 flNice50 [job0 idA .file "reports/out.txt"] w0).world.isFile spool0 = true ∧
    isAbs "".toList = false ∧ w0.pathExists (join "/in".toList "".toList) = false ∧
    (Toss ctx0 env0 fl0 [job0 idA .file ""] w0).world.readFile (join "/in".toList "".toList) =
      none ∧
    (Toss ctx0 env0 fl0 [job0 idA .file ""] w0).world.readFile "/in0".toList =
      some "hello".toList := by
  decide

/-- C2 (amended): a File packet with a relative destination path, from a sender with
the incoming directory `D`, in a job that `Toss` processes (niceness within the limit,
`noFile` and `dryRun` off): when nothing exists at `join D dst`, that path is not the
delivery directory or one of its parents, the temporary file has another name than
the destination and the spool file, the seen marker is not the destination, the own
node is in the neighbour table and no call of the delivery fails, then afterwards the
file `join D dst` holds exactly the payload, the spool file is gone and the job has
not set the bad flag. -/
theorem toss_file_delivery (c : Ctx) (e : Env) (fl : Flags) (j : Job) (w : World) (pkt : Pkt)
    (sender selfNode : Node) (D tmp : Str)
    (hnice : j.nice ≤ fl.nice) (hpkt : j.pkt = some pkt) (htype : pkt.type = .file)
    (hno : fl.noFile = false) (hdry : fl.dryRun = false) (hrel : isAbs pkt.path = false)
    (hsender : c.neigh.lookup j.sender = some sender) (hinc : sender.incoming = some D)
    (hself : c.neigh.lookup c.selfId = some selfNode)
    (hfree : w.pathExists (join D pkt.path) = false)
    (hnotdir : join D pkt.path ∉ mkdirAllPaths (join D (dir pkt.path)))
    (hmkdir : e.mkdirAllErr (join D (dir pkt.path)) = false)
    (hnofile : (mkdirAllPaths (join D (dir pkt.path))).any w.isFile = false)
    (htmp : e.tempFile ((w.logMsg .debug "taken").addDirs (mkdirAllPaths (join D (dir pkt.path))))
      (join D (dir pkt.path)) = some tmp)
    (htmp1 : tmp ≠ join D pkt.path) (htmp2 : tmp ≠ j.name)
    (hcopy : e.copyErr tmp j.body = false) (hflush : e.flushErr tmp j.body = false)
    (hstat : e.statErr (join D pkt.path) = false)
    (hren : e.renameErr tmp (join D pkt.path) = false)
    (hseen : j.name ++ SeenSuffix ≠ join D pkt.path)
    (hspool : w.isFile j.name = true) (hrm : e.removeErr j.name = false) :
    (tossJob c e fl j w).ctl = .ok ∧ (tossJob c e fl j w).bad = false ∧
    (tossJob c e fl j w).world.readFile (join D pkt.path) = some j.body ∧
    (tossJob c e fl j w).world.isFile j.name = false := by
  have hn : ¬ j.nice > fl.nice := by omega
  have htj : join D pkt.path ≠ j.name := by
    rintro h
    have := pathExists_of_isFile w j.name hspool
    rw [← h, hfree] at this
    exact Bool.noConfusion this
  have hnofile2 : (mkdirAllPaths (join D (dir pkt.path))).any
      (w.logMsg .debug "taken").isFile = false := hnofile
  have hsearch : tossDstPath e
      (((((w.logMsg .debug "taken").addDirs (mkdirAllPaths (join D (dir pkt.path)))).writeFile tmp
        []).logMsg .debug "created").writeFile tmp j.body) (join D pkt.path) =
      .chosen (join D pkt.path) := by
    apply tossDstPath_free _ _ _ hstat
    rw [pathExists_writeFile_ne _ _ _ _ htmp1.symm, logMsg_pathExists,
      pathExists_writeFile_ne _ _ _ _ htmp1.symm, pathExists_addDirs _ _ _ hnotdir,
      logMsg_pathExists, hfree]
  have hdel := delivered_world
    ((w.logMsg .debug "taken").addDirs (mkdirAllPaths (join D (dir pkt.path))))
    tmp (join D pkt.path) j.body j.name htmp2 htj hspool
  unfold tossJob
  rw [if_neg hn, hpkt]
  simp only [htype, tossFile, hno, hrel, hsender, hinc, hmkdir, hnofile2, hdry, htmp, hcopy,
    hflush, Bool.false_eq_true, if_false, Bool.or_self, hsearch, hren]
  split
  · rename_i hnone
    exact absurd hnone (notify_ne_none c _ _ _ selfNode hself)
  · rename_i w4 hsome
    have hf := notify_files c _ _ _ _ hsome
    have hok := retire_ok e fl j _ hdel.1 hrm
    refine ⟨rfl, by simpa using hok.1, ?_, ?_⟩
    · show w4.readFile (join D pkt.path) = some j.body
      rw [readFile_congr _ _ hf, retire_readFile e fl j _ _ htj hseen.symm]
      exact hdel.2
    · show w4.isFile j.name = false
      rw [isFile_congr _ _ hf]
      exact hok.2

/-- Witness of C2: the sample File job delivers `hello` to `/in/reports/out.txt`. -/
theorem toss_file_delivery_witness :
    (tossJob ctx0 env0 fl0 (job0 idA .file "reports/out.txt") w0).ctl = .ok ∧
    (tossJob ctx0 env0 fl0 (job0 idA .file "reports/out.txt") w0).bad = false ∧
    (tossJob ctx0 env0 fl0 (job0 idA .file "reports/out.txt") w0).world.readFile
      (join "/in".toList "reports/out.txt".toList) = some "hello".toList ∧
    (tossJob ctx0 env0 fl0 (job0 idA .file "reports/out.txt") w0).world.isFile spool0 = false :=
  toss_file_delivery ctx0 env0 fl0 (job0 idA .file "reports/out.txt") w0
    ⟨.file, 100, "reports/out.txt".toList⟩ nodeA nodeS "/in".toList
    "/in/reports/nncp-file1".toList (by decide) rfl rfl rfl rfl (by decide) (by decide)
    (by decide) (by decide) (by decide) (by decide) rfl (by decide) (by decide) (by decide)
    (by decide) rfl rfl rfl rfl (by decide) (by decide) rfl

/-! ## Absolute paths -/

/-- C3 (counterexample): a File packet with the absolute destination `/etc/passwd` is
not marked bad when File packets are switched off, nor when the job is too nice. -/
theorem toss_absolute_path_not_bad :
    isAbs "/etc/passwd".toList = true ∧
    (Toss ctx0 env0 flNoFile [job0 idA .file "/etc/passwd"] w0).bad = false ∧
    (Toss ctx0 env0 flNice50 [job0 idA .file "/etc/passwd"] w0).bad = false := by
  decide

/-- C3 (amended): for a File packet with an absolute destination path and a Freq
packet with an absolute source path, `Toss` writes and removes no file (the spool file
stays), creates no directory, calls no transmit function and runs no command; and
it marks the job bad when the job is within the niceness limit and the packet type
is not switched off. -/
theorem toss_rejects_absolute_path (c : Ctx) (e : Env) (fl : Flags) (j : Job) (w : World)
    (pkt : Pkt) (hpkt : j.pkt = some pkt) (htype : pkt.type = .file ∨ pkt.type = .freq)
    (habs : isAbs pkt.path = true) :
    (tossJob c e fl j w).ctl = .ok ∧
    (tossJob c e fl j w).world.files = w.files ∧
    (tossJob c e fl j w).world.dirs = w.dirs ∧
    (tossJob c e fl j w).world.txCalls = w.txCalls ∧
    (tossJob c e fl j w).world.cmds = w.cmds ∧
    (j.nice ≤ fl.nice → (pkt.type = .file → fl.noFile = false) →
      (pkt.type = .freq → fl.noFreq = false) → (tossJob c e fl j w).bad = true) := by
  unfold tossJob
  by_cases hn : j.nice > fl.nice
  · rw [if_pos hn]
    exact ⟨rfl, rfl, rfl, rfl, rfl, fun h => absurd hn (by omega)⟩
  · rw [if_neg hn, hpkt]
    rcases htype with ht | ht
    · simp only [ht, tossFile, habs]
      cases hf : fl.noFile <;> simp
    · simp only [ht, tossFreq, habs]
      cases hf : fl.noFreq <;> simp

/-- Witness of C3: the sample File job with the destination `/etc/passwd`. -/
theorem toss_rejects_absolute_path_witness :
    (tossJob ctx0 env0 fl0 (job0 idA .file "/etc/passwd") w0).ctl = .ok ∧
    (tossJob ctx0 env0 fl0 (job0 idA .file "/etc/passwd") w0).world.files = w0.files ∧
    (tossJob ctx0 env0 fl0 (job0 idA .file "/etc/passwd") w0).world.txCalls = [] ∧
    (tossJob ctx0 env0 fl0 (job0 idA .file "/etc/passwd") w0).bad = true :=
  have h := toss_rejects_absolute_path ctx0 env0 fl0 (job0 idA .file "/etc/passwd") w0
    ⟨.file, 100, "/etc/passwd".toList⟩ rfl (Or.inl rfl) (by decide)
  ⟨h.1, h.2.1, h.2.2.2.1, h.2.2.2.2.2 (by decide) (fun _ => rfl) (fun _ => rfl)⟩

/-! ## Confinement to the incoming directory -/

/-- C4 (failing input): the File packet with the relative destination `../x` from a
sender with the incoming directory `/in` is accepted; `Toss` creates the directory
`/` and renames the payload to `/x`, both outside `/in`. With the empty destination
path the payload is renamed to `/in0`, outside `/in` as well. -/
theorem toss_file_escapes_incoming :
    isAbs "../x".toList = false ∧
    (Toss ctx0 env0 fl0 [job0 idA .file "../x"] w0).bad = false ∧
    (Toss ctx0 env0 fl0 [job0 idA .file "../x"] w0).world.dirs = ["/".toList] ∧
    (Toss ctx0 env0 fl0 [job0 idA .file "../x"] w0).world.files =
      [("/x".toList, "hello".toList)] ∧
    inside "/in".toList "/".toList = false ∧ inside "/in".toList "/x".toList = false ∧
    (Toss ctx0 env0 fl0 [job0 idA .file ""] w0).world.files =
      [("/in0".toList, "hello".toList)] ∧
    inside "/in".toList "/in0".toList = false := by
  decide

/-! ## The destination-name collision policy -/

/-- C5: in a File delivery with original target path `p` (no `os.Stat` failing hard),
the search of `Toss` ends with a chosen path `q` that does not exist: `q` is `p` when `p`
does not exist, and otherwise `p` followed by the decimal numeral of the smallest `k`,
counted from 0, for which that name does not exist. Renaming the temporary file to `q`
leaves the content of every other existing file as it was. -/
theorem toss_collision_policy (e : Env) (w : World) (p tmp : Str)
    (hstat : ∀ q, e.statErr q = false) :
    ∃ q, tossDstPath e w p = .chosen q ∧ w.pathExists q = false ∧
      ((w.pathExists p = false ∧ q = p) ∨
        (w.pathExists p = true ∧ ∃ k, q = p ++ itoa k ∧
          ∀ j, j < k → w.pathExists (p ++ itoa j) = true)) ∧
      (∀ x c, x ≠ tmp → w.readFile x = some c → (w.rename tmp q).readFile x = some c) := by
  cases hr : tossDstPath e w p with
  | outOfFuel => exact absurd hr (tossDstPath_ne_outOfFuel e w p)
  | statFailed =>
    obtain ⟨q, hq⟩ := tossDstLoop_statFailed e w p _ _ _ hr
    rw [hstat q] at hq
    exact Bool.noConfusion hq
  | chosen q =>
    obtain ⟨hq, hcase⟩ := tossDstLoop_chosen e w p _ _ _ q hr
    have hqn : w.pathExists q = false := ((stat_notExist_iff e w q).1 hq).2
    refine ⟨q, rfl, hqn, ?_, fun x c hx hc => rename_keeps w tmp q x c hqn hx hc⟩
    rcases hcase with rfl | ⟨hf, k, _, rfl, hmin⟩
    · exact Or.inl ⟨hqn, rfl⟩
    · exact Or.inr ⟨((stat_found_iff e w p).1 hf).2, k, rfl,
        fun j hj => ((stat_found_iff e w _).1 (hmin j (Nat.zero_le j) hj)).2⟩

/-- Witness of C5: with `/in/a` and `/in/a0` taken, the search for `/in/a` chooses
`/in/a1`. -/
theorem toss_collision_policy_witness :
    tossDstPath env0 wTaken "/in/a".toList = .chosen "/in/a1".toList ∧
    ∃ q, tossDstPath env0 wTaken "/in/a".toList = .chosen q ∧ wTaken.pathExists q = false ∧
      ((wTaken.pathExists "/in/a".toList = false ∧ q = "/in/a".toList) ∨
        (wTaken.pathExists "/in/a".toList = true ∧ ∃ k, q = "/in/a".toList ++ itoa k ∧
          ∀ j, j < k → wTaken.pathExists ("/in/a".toList ++ itoa j) = true)) ∧
      (∀ x c, x ≠ "/in/nncp-file1".toList → wTaken.readFile x = some c →
        (wTaken.rename "/in/nncp-file1".toList q).readFile x = some c) :=
  ⟨by decide,
    toss_collision_policy env0 wTaken "/in/a".toList "/in/nncp-file1".toList (fun _ => rfl)⟩

/-- C6: the destination search of `process` in nncp-reass and the one of `Toss` are
the same function of the original path and the state of the file system: both end
(neither runs out of rounds), each chooses a path exactly when the other chooses that
path, and when no `os.Stat` fails hard both choose one and the same path. -/
theorem reass_toss_same_collision_policy (e : Env) (w : World) (p : Str) :
    reassDstPath e w p ≠ .outOfFuel ∧ tossDstPath e w p ≠ .outOfFuel ∧
    (∀ q, reassDstPath e w p = .chosen q ↔ tossDstPath e w p = .chosen q) ∧
    (reassDstPath e w p = .fatal ↔ tossDstPath e w p = .statFailed) ∧
    ((∀ x, e.statErr x = false) →
      ∃ q, reassDstPath e w p = .chosen q ∧ tossDstPath e w p = .chosen q) := by
  have heq : reassDstPath e w p = (tossDstPath e w p).toReass := reassDstLoop_eq e w p _ _ _
  have hne := tossDstPath_ne_outOfFuel e w p
  rw [heq]
  cases hr : tossDstPath e w p with
  | outOfFuel => exact absurd hr hne
  | statFailed =>
    refine ⟨by simp [DstSearch.toReass], by simp, by simp [DstSearch.toReass],
      by simp [DstSearch.toReass], fun hstat => ?_⟩
    obtain ⟨q, hq⟩ := tossDstLoop_statFailed e w p _ _ _ hr
    rw [hstat q] at hq
    exact Bool.noConfusion hq
  | chosen q =>
    exact ⟨by simp [DstSearch.toReass], by simp, by simp [DstSearch.toReass],
      by simp [DstSearch.toReass], fun _ => ⟨q, rfl, rfl⟩⟩

/-- Witness of C6: with `/in/a` and `/in/a0` taken, both searches choose `/in/a1`. -/
theorem reass_toss_same_collision_policy_witness :
    reassDstPath env0 wTaken "/in/a".toList = .chosen "/in/a1".toList ∧
    ∃ q, reassDstPath env0 wTaken "/in/a".toList = .chosen q ∧
      tossDstPath env0 wTaken "/in/a".toList = .chosen q :=
  ⟨by decide,
    (reass_toss_same_collision_policy env0 wTaken "/in/a".toList).2.2.2.2 (fun _ => rfl)⟩

/-! ## Permissions of the sender -/

/-- C7 (counterexample): a File packet from the sender `idN`, which has no incoming
directory, is not marked bad when File packets are switched off or the job is too
nice; and an Exec packet with an unknown handle whose body `zlib.NewReader` rejects
ends the process before the second job of the queue is looked at. -/
theorem toss_permission_not_enforced :
    nodeN.incoming = none ∧
    (Toss ctx0 env0 flNoFile [job0 idN .file "x"] w0).bad = false ∧
    (Toss ctx0 env0 flNice50 [job0 idN .file "x"] w0).bad = false ∧
    nodeN.exec.lookup "sh".toList = none ∧
    (Toss ctx0 envZlibFails fl0 [job0 idN .exec "sh", job0 idA .file "/abs"] w0).ctl = .fatal ∧
    (Toss ctx0 envZlibFails fl0 [job0 idN .exec "sh", job0 idA .file "/abs"] w0).bad = false := by
  decide

/-- C7 (amended): a File packet from a sender with no incoming directory, a Freq
packet from a sender with no freq directory, and an Exec packet whose body
`zlib.NewReader` accepts and whose handle is absent from the sender's exec map or has
an empty command line: the job changes no file (the spool file stays) and no
directory, calls no transmit function, runs no command, and the loop goes on with
the remaining jobs; the job is marked bad when it is within the niceness limit and
its packet type is not switched off. -/
theorem toss_enforces_permissions (c : Ctx) (e : Env) (fl : Flags) (j : Job) (w : World)
    (pkt : Pkt) (n : Node) (hpkt : j.pkt = some pkt) (hsender : c.neigh.lookup j.sender = some n)
    (hden : (pkt.type = .file ∧ n.incoming = none) ∨ (pkt.type = .freq ∧ n.freq = none) ∨
      (pkt.type = .exec ∧ e.zlibErr j.body = false ∧
        (n.exec.lookup ((pkt.path.splitOn (Char.ofNat 0)).headD []) = none ∨
          n.exec.lookup ((pkt.path.splitOn (Char.ofNat 0)).headD []) = some []))) :
    (tossJob c e fl j w).ctl = .ok ∧
    (tossJob c e fl j w).world.files = w.files ∧
    (tossJob c e fl j w).world.dirs = w.dirs ∧
    (tossJob c e fl j w).world.txCalls = w.txCalls ∧
    (tossJob c e fl j w).world.cmds = w.cmds ∧
    (j.nice ≤ fl.nice → (pkt.type = .file → fl.noFile = false) →
      (pkt.type = .freq → fl.noFreq = false) → (pkt.type = .exec → fl.noExec = false) →
      (tossJob c e fl j w).bad = true) ∧
    (∀ js b, tossLoop c e fl (j :: js) b w =
      tossLoop c e fl js (b || (tossJob c e fl j w).bad) (tossJob c e fl j w).world) := by
  have main : (tossJob c e fl j w).ctl = .ok ∧
      (tossJob c e fl j w).world.files = w.files ∧
      (tossJob c e fl j w).world.dirs = w.dirs ∧
      (tossJob c e fl j w).world.txCalls = w.txCalls ∧
      (tossJob c e fl j w).world.cmds = w.cmds ∧
      (j.nice ≤ fl.nice → (pkt.type = .file → fl.noFile = false) →
        (pkt.type = .freq → fl.noFreq = false) → (pkt.type = .exec → fl.noExec = false) →
        (tossJob c e fl j w).bad = true) := by
    unfold tossJob
    by_cases hn : j.nice > fl.nice
    · rw [if_pos hn]
      exact ⟨rfl, rfl, rfl, rfl, rfl, fun h => absurd hn (by omega)⟩
    · rw [if_neg hn, hpkt]
      rcases hden with ⟨ht, hi⟩ | ⟨ht, hq⟩ | ⟨ht, hz, hh | hh⟩
      · simp only [ht, tossFile, hsender, hi]
        cases hf : fl.noFile <;> cases ha : isAbs pkt.path <;> simp
      · simp only [ht, tossFreq, hsender, hq]
        cases hf : fl.noFreq <;> cases ha : isAbs pkt.path <;> simp
      · simp only [ht, tossExec, hsender, hz, hh]
        cases hf : fl.noExec <;> simp
      · simp only [ht, tossExec, hsender, hz, hh]
        cases hf : fl.noExec <;> simp
  exact ⟨main.1, main.2.1, main.2.2.1, main.2.2.2.1, main.2.2.2.2.1, main.2.2.2.2.2,
    fun js b => tossLoop_cons_ok c e fl j js b w main.1⟩

/-- Witness of C7: the sample Exec job of a sender without handles, followed by a
second job, which is still processed. -/
theorem toss_enforces_permissions_witness :
    (tossJob ctx0 env0 fl0 (job0 idN .exec "sh") w0).ctl = .ok ∧
    (tossJob ctx0 env0 fl0 (job0 idN .exec "sh") w0).world.files = w0.files ∧
    (tossJob ctx0 env0 fl0 (job0 idN .exec "sh") w0).world.cmds = [] ∧
    (tossJob ctx0 env0 fl0 (job0 idN .exec "sh") w0).bad = true ∧
    tossLoop ctx0 env0 fl0 [job0 idN .exec "sh", job0 idA .file "a"] false w0 =
      tossLoop ctx0 env0 fl0 [job0 idA .file "a"]
        (false || (tossJob ctx0 env0 fl0 (job0 idN .exec "sh") w0).bad)
        (tossJob ctx0 env0 fl0 (job0 idN .exec "sh") w0).world :=
  have h := toss_enforces_permissions ctx0 env0 fl0 (job0 idN .exec "sh") w0
    ⟨.exec, 100, "sh".toList⟩ nodeN rfl (by decide)
    (Or.inr (Or.inr ⟨rfl, rfl, Or.inl (by decide)⟩))
  ⟨h.1, h.2.1, h.2.2.2.2.1,
    h.2.2.2.2.2.1 (by decide) (fun _ => rfl) (fun _ => rfl) (fun _ => rfl),
    h.2.2.2.2.2.2 [job0 idA .file "a"] false⟩

/-! ## Transit packets -/

/-- C8 (counterexample): a Trns packet that names no configured node is not marked
bad when Trns packets are switched off, nor when the job is too nice. -/
theorem toss_trns_unknown_not_bad :
    ctx0.neigh.lookup (trnsNodeId idXText.toList) = none ∧
    (Toss ctx0 env0 flNoTrns [job0 idA .trns idXText] w0).bad = false ∧
    (Toss ctx0 env0 flNice50 [job0 idA .trns idXText] w0).bad = false := by
  decide

/-- C8 (amended): for a Trns packet whose path field names no node of the neighbour
table, `Toss` does not call `TxTrns` or any other transmit function, writes no seen
marker and does not remove the spool file (no file and no directory changes), and
runs no command; it marks the job bad when the job is within the niceness limit and
Trns packets are not switched off. -/
theorem toss_trns_unknown_node (c : Ctx) (e : Env) (fl : Flags) (j : Job) (w : World)
    (pkt : Pkt) (hpkt : j.pkt = some pkt) (htype : pkt.type = .trns)
    (hunk : c.neigh.lookup (trnsNodeId pkt.path) = none) :
    (tossJob c e fl j w).ctl = .ok ∧
    (tossJob c e fl j w).world.files = w.files ∧
    (tossJob c e fl j w).world.dirs = w.dirs ∧
    (tossJob c e fl j w).world.txCalls = w.txCalls ∧
    (tossJob c e fl j w).world.cmds = w.cmds ∧
    (j.nice ≤ fl.nice → fl.noTrns = false → (tossJob c e fl j w).bad = true) := by
  unfold tossJob
  by_cases hn : j.nice > fl.nice
  · rw [if_pos hn]
    exact ⟨rfl, rfl, rfl, rfl, rfl, fun h => absurd hn (by omega)⟩
  · rw [if_neg hn, hpkt]
    simp only [htype, tossTrns, hunk]
    cases hf : fl.noTrns <;> simp

/-- Witness of C8: the sample Trns job for an unknown node. -/
theorem toss_trns_unknown_node_witness :
    (tossJob ctx0 env0 fl0 (job0 idA .trns idXText) w0).ctl = .ok ∧
    (tossJob ctx0 env0 fl0 (job0 idA .trns idXText) w0).world.files = w0.files ∧
    (tossJob ctx0 env0 fl0 (job0 idA .trns idXText) w0).world.txCalls = [] ∧
    (tossJob ctx0 env0 fl0 (job0 idA .trns idXText) w0).bad = true :=
  have h := toss_trns_unknown_node ctx0 env0 fl0 (job0 idA .trns idXText) w0
    ⟨.trns, 100, idXText.toList⟩ rfl rfl (by decide)
  ⟨h.1, h.2.1, h.2.2.2.1, h.2.2.2.2.2 (by decide) rfl⟩

/-- C9 (counterexample): a Trns packet that names the configured node `idA` is not
forwarded when Trns packets are switched off, nor when the job is too nice. -/
theorem toss_trns_not_forwarded :
    ctx0.neigh.lookup (trnsNodeId idAText.toList) = some nodeA ∧
    flNoTrns.dryRun = false ∧
    (Toss ctx0 env0 flNoTrns [job0 idN .trns idAText] w0).world.txCalls = [] ∧
    flNice50.dryRun = false ∧
    (Toss ctx0 env0 flNice50 [job0 idN .trns idAText] w0).world.txCalls = [] := by
  decide

/-- C9 (amended): for a Trns packet whose path field names a known node `node`, in a
job within the niceness limit, with `dryRun` and `noTrns` off, `Toss` calls `TxTrns` once,
for `node`, at the niceness of the envelope, with the size `job.Size - PktEncOverhead -
PktOverhead` and the rest of the pipe as it is, and calls nothing else; if that call
fails the job is bad and no file changes, and if it succeeds and the removal of the
spool file does not fail, the spool file is gone and the job is not bad. -/
theorem toss_trns_forwards (c : Ctx) (e : Env) (fl : Flags) (j : Job) (w : World)
    (pkt : Pkt) (node : Node) (hnice : j.nice ≤ fl.nice) (hpkt : j.pkt = some pkt)
    (htype : pkt.type = .trns) (hknown : c.neigh.lookup (trnsNodeId pkt.path) = some node)
    (hdry : fl.dryRun = false) (hno : fl.noTrns = false) :
    (tossJob c e fl j w).ctl = .ok ∧
    (tossJob c e fl j w).world.txCalls =
      w.txCalls ++ [.trns node j.nice (j.size - c.pktEncOverhead - c.pktOverhead) j.body] ∧
    (tossJob c e fl j w).world.cmds = w.cmds ∧
    (tossJob c e fl j w).world.dirs = w.dirs ∧
    (e.txTrnsErr (.trns node j.nice (j.size - c.pktEncOverhead - c.pktOverhead) j.body) = true →
      (tossJob c e fl j w).bad = true ∧ (tossJob c e fl j w).world.files = w.files) ∧
    (e.txTrnsErr (.trns node j.nice (j.size - c.pktEncOverhead - c.pktOverhead) j.body) = false →
      w.isFile j.name = true → e.removeErr j.name = false →
      (tossJob c e fl j w).bad = false ∧ (tossJob c e fl j w).world.isFile j.name = false) := by
  have hn : ¬ j.nice > fl.nice := by omega
  unfold tossJob
  rw [if_neg hn, hpkt]
  simp only [htype, tossTrns, hknown, hno, hdry]
  cases herr : e.txTrnsErr (.trns node j.nice (j.size - c.pktEncOverhead - c.pktOverhead) j.body)
  · simp only [Bool.false_eq_true, if_false, retire_txCalls, retire_cmds, retire_dirs]
    exact ⟨trivial, rfl, rfl, rfl, fun h => h.elim, fun _ hw hr => retire_ok e fl j _ hw hr⟩
  · simp

/-- Witness of C9: the sample Trns job for the node `idA` is forwarded with the size
`500 - 100 - 20`. -/
theorem toss_trns_forwards_witness :
    (tossJob ctx0 env0 fl0 (job0 idN .trns idAText) w0).world.txCalls =
      [] ++ [.trns nodeA 100 (500 - 100 - 20) "hello".toList] ∧
    (tossJob ctx0 env0 fl0 (job0 idN .trns idAText) w0).bad = false ∧
    (tossJob ctx0 env0 fl0 (job0 idN .trns idAText) w0).world.isFile spool0 = false :=
  have h := toss_trns_forwards ctx0 env0 fl0 (job0 idN .trns idAText) w0
    ⟨.trns, 100, idAText.toList⟩ nodeA (by decide) rfl rfl (by decide) rfl rfl
  ⟨h.2.1, h.2.2.2.2.2 rfl (by decide) rfl⟩

/-! ## Remote execution -/

/-- C10: for an Exec packet, if the job has run a command and the command ended with
an error, the job is marked bad and no file changes (no seen marker is written, the
spool file is not removed); and if the spool file is gone after the job, the job has
run a command and the command returned success. -/
theorem toss_exec_failure_keeps_spool (c : Ctx) (e : Env) (fl : Flags) (j : Job) (w : World)
    (pkt : Pkt) (hpkt : j.pkt = some pkt) (htype : pkt.type = .exec) :
    (∀ cmd, (tossJob c e fl j w).world.cmds = w.cmds ++ [cmd] → e.cmdErr cmd = true →
      (tossJob c e fl j w).bad = true ∧ (tossJob c e fl j w).world.files = w.files) ∧
    (w.isFile j.name = true → (tossJob c e fl j w).world.isFile j.name = false →
      ∃ cmd, (tossJob c e fl j w).world.cmds = w.cmds ++ [cmd] ∧ e.cmdErr cmd = false) := by
  unfold tossJob
  by_cases hn : j.nice > fl.nice
  · rw [if_pos hn]
    simp
  · rw [if_neg hn, hpkt]
    simp only [htype, tossExec]
    cases hf : fl.noExec
    · cases hz : e.zlibErr j.body
      · simp only [Bool.false_eq_true, if_false]
        split
        · simp
        · split
          · simp
          · rename_i sender _ cmdline _
            split_ifs with hc hd he
            · simp
            · simp
            · simp only [run_cmds, logMsg_cmds, logMsg_files, run_files, logMsg_isFile,
                run_isFile]
              refine ⟨fun _ _ _ => ⟨trivial, trivial⟩, fun h1 h2 => ?_⟩
              rw [h1] at h2
              exact Bool.noConfusion h2
            · simp only [retire_cmds, run_cmds, logMsg_cmds]
              refine ⟨fun cmd h1 h2 => ?_, fun _ _ => ⟨_, rfl, by simpa using he⟩⟩
              rw [← List.singleton_inj.1 (List.append_cancel_left h1)] at h2
              exact absurd h2 he
      · simp
    · simp

/-- Witness of C10: with every command failing, the sample Exec job is bad and keeps
its spool file; with no command failing, its spool file is removed after the run. -/
theorem toss_exec_failure_keeps_spool_witness :
    ((tossJob ctx0 envCmdFails fl0 (job0 idA .exec "sh") w0).bad = true ∧
      (tossJob ctx0 envCmdFails fl0 (job0 idA .exec "sh") w0).world.files = w0.files) ∧
    ∃ cmd, (tossJob ctx0 env0 fl0 (job0 idA .exec "sh") w0).world.cmds = w0.cmds ++ [cmd] ∧
      env0.cmdErr cmd = false :=
  ⟨(toss_exec_failure_keeps_spool ctx0 envCmdFails fl0 (job0 idA .exec "sh") w0
      ⟨.exec, 100, "sh".toList⟩ rfl rfl).1 cmdSh (by decide) rfl,
    (toss_exec_failure_keeps_spool ctx0 env0 fl0 (job0 idA .exec "sh") w0
      ⟨.exec, 100, "sh".toList⟩ rfl rfl).2 (by decide) (by decide)⟩

/-! ## The niceness limit -/

/-- C11: a job whose envelope niceness is above the `nice` argument is skipped whatever
its content: nothing but the log changes (the spool file stays, nothing is
dispatched), the job does not set the bad flag and the loop goes on with the flag it
had. A job whose niceness equals the argument is processed: a header that cannot be
read marks it bad, and a header that can be read is dispatched by its type. -/
theorem toss_too_nice_skipped (c : Ctx) (e : Env) (fl : Flags) (j : Job) (w : World) :
    (j.nice > fl.nice →
      tossJob c e fl j w = ⟨.ok, false, w.logMsg .debug "too nice"⟩ ∧
      ∀ js b, tossLoop c e fl (j :: js) b w = tossLoop c e fl js b (w.logMsg .debug "too nice")) ∧
    (j.nice = fl.nice →
      (j.pkt = none → tossJob c e fl j w = ⟨.ok, true, w.logMsg .error "unmarshal"⟩) ∧
      (∀ pkt, j.pkt = some pkt → tossJob c e fl j w =
        match pkt.type with
        | .exec => tossExec c e fl j pkt (w.logMsg .debug "taken")
        | .file => tossFile c e fl j pkt (j.size - c.pktEncOverhead - c.pktOverhead)
            (w.logMsg .debug "taken")
        | .freq => tossFreq c e fl j pkt (w.logMsg .debug "taken")
        | .trns => tossTrns c e fl j pkt (j.size - c.pktEncOverhead - c.pktOverhead)
            (w.logMsg .debug "taken")
        | .other _ => ⟨.ok, true, (w.logMsg .debug "taken").logMsg .error "unknown type"⟩)) := by
  constructor
  · intro hn
    have hj : tossJob c e fl j w = ⟨.ok, false, w.logMsg .debug "too nice"⟩ := by
      unfold tossJob
      rw [if_pos hn]
    refine ⟨hj, fun js b => ?_⟩
    simp only [tossLoop, hj, Bool.or_false]
  · intro heq
    have hn : ¬ j.nice > fl.nice := by omega
    constructor
    · intro hp
      unfold tossJob
      rw [if_neg hn, hp]
    · intro pkt hp
      unfold tossJob
      rw [if_neg hn, hp]

/-- Witness of C11: under the limit 50 the sample File job of niceness 100 is skipped
and its spool file stays; under the limit 100 it is delivered. -/
theorem toss_too_nice_skipped_witness :
    (tossJob ctx0 env0 flNice50 (job0 idA .file "reports/out.txt") w0 =
      ⟨.ok, false, w0.logMsg .debug "too nice"⟩ ∧
      tossLoop ctx0 env0 flNice50 [job0 idA .file "reports/out.txt"] false w0 =
        tossLoop ctx0 env0 flNice50 [] false (w0.logMsg .debug "too nice")) ∧
    tossJob ctx0 env0 flNice100 (job0 idA .file "reports/out.txt") w0 =
      tossFile ctx0 env0 flNice100 (job0 idA .file "reports/out.txt")
        ⟨.file, 100, "reports/out.txt".toList⟩ (500 - 100 - 20) (w0.logMsg .debug "taken") ∧
    (tossJob ctx0 env0 flNice100 (job0 idA .file "reports/out.txt") w0).world.readFile
      "/in/reports/out.txt".toList = some "hello".toList :=
  ⟨⟨((toss_too_nice_skipped ctx0 env0 flNice50 (job0 idA .file "reports/out.txt") w0).1
      (by decide)).1,
    ((toss_too_nice_skipped ctx0 env0 flNice50 (job0 idA .file "reports/out.txt") w0).1
      (by decide)).2 [] false⟩,
    ((toss_too_nice_skipped ctx0 env0 flNice100 (job0 idA .file "reports/out.txt") w0).2
      rfl).2 ⟨.file, 100, "reports/out.txt".toList⟩ rfl,
    by decide⟩

/-! ## Dry runs -/

/-- With `dryRun` on, a job changes no file, calls no transmit function and runs no
command. -/
theorem tossJob_dryRun_frame (c : Ctx) (e : Env) (fl : Flags) (j : Job) (w : World)
    (hdry : fl.dryRun = true) :
    (tossJob c e fl j w).world.files = w.files ∧
    (tossJob c e fl j w).world.txCalls = w.txCalls ∧
    (tossJob c e fl j w).world.cmds = w.cmds := by
  unfold tossJob
  by_cases hn : j.nice > fl.nice
  · rw [if_pos hn]
    exact ⟨rfl, rfl, rfl⟩
  rw [if_neg hn]
  cases j.pkt with
  | none => exact ⟨rfl, rfl, rfl⟩
  | some pkt =>
    dsimp only
    cases pkt.type with
    | other t => exact ⟨rfl, rfl, rfl⟩
    | exec =>
      dsimp only
      unfold tossExec
      dsimp only
      cases fl.noExec
      swap
      · exact ⟨rfl, rfl, rfl⟩
      cases e.zlibErr j.body
      swap
      · exact ⟨rfl, rfl, rfl⟩
      cases c.neigh.lookup j.sender with
      | none => exact ⟨rfl, rfl, rfl⟩
      | some sender =>
        dsimp only
        cases sender.exec.lookup ((pkt.path.splitOn (Char.ofNat 0)).headD []) with
        | none => exact ⟨rfl, rfl, rfl⟩
        | some cmdline =>
          dsimp only
          simp only [hdry, if_true, Bool.false_eq_true, if_false]
          split_ifs <;> exact ⟨rfl, rfl, rfl⟩
    | file =>
      dsimp only
      unfold tossFile
      dsimp only
      cases fl.noFile
      swap
      · exact ⟨rfl, rfl, rfl⟩
      cases isAbs pkt.path
      swap
      · exact ⟨rfl, rfl, rfl⟩
      cases c.neigh.lookup j.sender with
      | none => exact ⟨rfl, rfl, rfl⟩
      | some sender =>
        dsimp only
        cases sender.incoming with
        | none => exact ⟨rfl, rfl, rfl⟩
        | some incoming =>
          dsimp only
          simp only [hdry, if_true, Bool.false_eq_true, if_false]
          split_ifs <;> exact ⟨rfl, rfl, rfl⟩
    | freq =>
      dsimp only
      unfold tossFreq
      dsimp only
      cases fl.noFreq
      swap
      · exact ⟨rfl, rfl, rfl⟩
      cases isAbs pkt.path
      swap
      · exact ⟨rfl, rfl, rfl⟩
      cases c.neigh.lookup j.sender with
      | none => exact ⟨rfl, rfl, rfl⟩
      | some sender =>
        dsimp only
        cases sender.freq with
        | none => exact ⟨rfl, rfl, rfl⟩
        | some freq =>
          dsimp only
          simp only [hdry, if_true, Bool.false_eq_true, if_false]
          exact ⟨rfl, rfl, rfl⟩
    | trns =>
      dsimp only
      unfold tossTrns
      cases fl.noTrns
      swap
      · exact ⟨rfl, rfl, rfl⟩
      cases c.neigh.lookup (trnsNodeId pkt.path) with
      | none => exact ⟨rfl, rfl, rfl⟩
      | some node =>
        dsimp only
        simp only [hdry, if_true, Bool.false_eq_true, if_false]
        exact ⟨rfl, rfl, rfl⟩

/-- C12 (failing input): with `dryRun` on, the sample File job leaves files, transmit
calls and commands as they were but creates the directories `/in` and `/in/reports`,
which did not exist: `os.MkdirAll` is called before `dryRun` is looked at. -/
theorem toss_dryRun_creates_directory :
    flDry.dryRun = true ∧ w0.dirs = [] ∧
    (Toss ctx0 env0 flDry [job0 idA .file "reports/out.txt"] w0).ctl = .ok ∧
    (Toss ctx0 env0 flDry [job0 idA .file "reports/out.txt"] w0).world.files = w0.files ∧
    (Toss ctx0 env0 flDry [job0 idA .file "reports/out.txt"] w0).world.dirs =
      ["/in".toList, "/in/reports".toList] := by
  decide

/-! ## Lemmas: how the work on a job ends -/

theorem jobEnd_same (e : Env) (fl : Flags) (j : Job) (w : World) (s : Step)
    (hw : w.isFile j.name = true) (hf : s.world.files = w.files)
    (hc : s.world.fsCalls = w.fsCalls) : JobEnd e fl j w s :=
  Or.inl ⟨by rw [isFile_congr _ _ hf]; exact hw, readFile_congr _ _ hf _, hc⟩

theorem jobEnd_retire (e : Env) (fl : Flags) (j : Job) (w w1 : World) (s : Step)
    (hdry : fl.dryRun = false)
    (hf : s.world.files = (retire e fl j w1).2.files) (hb : s.bad = (retire e fl j w1).1)
    (hw : w1.isFile j.name = true) (hc1 : w1.fsCalls = w.fsCalls)
    (hc : s.world.fsCalls = (retire e fl j w1).2.fsCalls) :
    JobEnd e fl j w s :=
  Or.inr ⟨hdry, w1, false, hw, hc1, hf, hc, by simpa using hb, fun h => Bool.noConfusion h⟩

theorem notify_cases (c : Ctx) (ft : Option FromTo) (input : FromTo → Stdin) (w : World)
    (b : Bool) :
    (match notify c ft input w with
      | none => (⟨.panic, b, w⟩ : Step)
      | some w2 => ⟨.ok, b, w2⟩).world.files = w.files ∧
    (match notify c ft input w with
      | none => (⟨.panic, b, w⟩ : Step)
      | some w2 => ⟨.ok, b, w2⟩).bad = b ∧
    (match notify c ft input w with
      | none => (⟨.panic, b, w⟩ : Step)
      | some w2 => ⟨.ok, b, w2⟩).world.txCalls = w.txCalls ∧
    (match notify c ft input w with
      | none => (⟨.panic, b, w⟩ : Step)
      | some w2 => ⟨.ok, b, w2⟩).world.fsCalls = w.fsCalls := by
  cases h : notify c ft input w with
  | none => exact ⟨rfl, rfl, rfl, rfl⟩
  | some w2 =>
    refine ⟨notify_files c ft input w w2 h, rfl, ?_, ?_⟩
    · unfold notify at h
      split at h
      · exact Option.noConfusion h
      · split at h
        · split_ifs at h <;> cases h <;> rfl
        · cases h; rfl
    · unfold notify at h
      split at h
      · exact Option.noConfusion h
      · split at h
        · split_ifs at h <;> cases h <;> rfl
        · cases h; rfl

theorem tossExec_jobEnd (c : Ctx) (e : Env) (fl : Flags) (j : Job) (pkt : Pkt) (w : World)
    (hw : w.isFile j.name = true) : JobEnd e fl j w (tossExec c e fl j pkt w) := by
  unfold tossExec
  dsimp only
  cases fl.noExec
  swap
  · exact jobEnd_same e fl j w _ hw rfl rfl
  cases e.zlibErr j.body
  swap
  · exact jobEnd_same e fl j w _ hw rfl rfl
  cases c.neigh.lookup j.sender with
  | none => exact jobEnd_same e fl j w _ hw rfl rfl
  | some sender =>
    dsimp only
    cases sender.exec.lookup ((pkt.path.splitOn (Char.ofNat 0)).headD []) with
    | none => exact jobEnd_same e fl j w _ hw rfl rfl
    | some cmdline =>
      dsimp only
      by_cases hc : cmdline = []
      · simp only [hc, if_true]
        exact jobEnd_same e fl j w _ hw rfl rfl
      · cases hd : fl.dryRun
        · simp only [hc, if_false, Bool.false_eq_true]
          split_ifs
          · exact jobEnd_same e fl j w _ hw rfl rfl
          · exact jobEnd_retire e fl j w _ _ hd rfl rfl hw rfl rfl
        · simp only [hc, if_false, if_true]
          exact jobEnd_same e fl j w _ hw rfl rfl

theorem tossFreq_jobEnd (c : Ctx) (e : Env) (fl : Flags) (j : Job) (pkt : Pkt) (w : World)
    (hw : w.isFile j.name = true) : JobEnd e fl j w (tossFreq c e fl j pkt w) := by
  unfold tossFreq
  dsimp only
  cases fl.noFreq
  swap
  · exact jobEnd_same e fl j w _ hw rfl rfl
  cases isAbs pkt.path
  swap
  · exact jobEnd_same e fl j w _ hw rfl rfl
  cases c.neigh.lookup j.sender with
  | none => exact jobEnd_same e fl j w _ hw rfl rfl
  | some sender =>
    dsimp only
    cases sender.freq with
    | none => exact jobEnd_same e fl j w _ hw rfl rfl
    | some freq =>
      dsimp only
      cases hd : fl.dryRun
      swap
      · exact jobEnd_same e fl j w _ hw rfl rfl
      simp only [Bool.false_eq_true, if_false]
      split_ifs
      · exact jobEnd_same e fl j w _ hw rfl rfl
      · have h := notify_cases c c.notifyFreq (fun a => .notifyFreq a sender.name pkt.path)
        exact jobEnd_retire e fl j w _ _ hd (h _ _).1 (h _ _).2.1 hw rfl (h _ _).2.2.2
      · exact jobEnd_same e fl j w _ hw rfl rfl
      · have h := notify_cases c c.notifyFreq (fun a => .notifyFreq a sender.name pkt.path)
        exact jobEnd_retire e fl j w _ _ hd (h _ _).1 (h _ _).2.1 hw rfl (h _ _).2.2.2

theorem tossTrns_jobEnd (c : Ctx) (e : Env) (fl : Flags) (j : Job) (pkt : Pkt) (n : Int)
    (w : World) (hw : w.isFile j.name = true) : JobEnd e fl j w (tossTrns c e fl j pkt n w) := by
  unfold tossTrns
  cases fl.noTrns
  swap
  · exact jobEnd_same e fl j w _ hw rfl rfl
  cases c.neigh.lookup (trnsNodeId pkt.path) with
  | none => exact jobEnd_same e fl j w _ hw rfl rfl
  | some node =>
    dsimp only
    cases hd : fl.dryRun
    swap
    · exact jobEnd_same e fl j w _ hw rfl rfl
    simp only [Bool.false_eq_true, if_false]
    split_ifs
    · exact jobEnd_same e fl j w _ hw rfl rfl
    · exact jobEnd_retire e fl j w _ _ hd rfl rfl hw rfl rfl

theorem isFile_written_twice (w : World) (tmp a b x : Str) (l : Level) (m : String)
    (hx : x ≠ tmp) :
    (((w.writeFile tmp a).logMsg l m).writeFile tmp b).isFile x = w.isFile x := by
  rw [isFile_writeFile_ne _ _ _ _ hx, logMsg_isFile, isFile_writeFile_ne _ _ _ _ hx]

theorem readFile_written_twice (w : World) (tmp a b x : Str) (l : Level) (m : String)
    (hx : x ≠ tmp) :
    (((w.writeFile tmp a).logMsg l m).writeFile tmp b).readFile x = w.readFile x := by
  rw [readFile_writeFile_ne _ _ _ _ hx, logMsg_readFile, readFile_writeFile_ne _ _ _ _ hx]

theorem isFile_rename (w : World) (a b x : Str) (hx : x ≠ a) (hw : w.isFile x = true) :
    (w.rename a b).isFile x = true := by
  unfold World.rename
  cases w.readFile a with
  | none => exact hw
  | some c =>
    dsimp only
    by_cases hxb : x = b
    · rw [hxb]; exact isFile_writeFile_same _ _ _
    · rw [isFile_writeFile_ne _ _ _ _ hxb, isFile_unlink_ne _ _ _ hx]; exact hw

theorem tossFile_jobEnd (c : Ctx) (e : Env) (fl : Flags) (j : Job) (pkt : Pkt) (n : Int)
    (w : World) (hw : w.isFile j.name = true)
    (htmp : ∀ w1 d t, e.tempFile w1 d = some t → t ≠ j.name ∧ t ≠ j.name ++ SeenSuffix) :
    JobEnd e fl j w (tossFile c e fl j pkt n w) := by
  unfold tossFile
  dsimp only
  cases fl.noFile
  swap
  · exact jobEnd_same e fl j w _ hw rfl rfl
  cases isAbs pkt.path
  swap
  · exact jobEnd_same e fl j w _ hw rfl rfl
  cases c.neigh.lookup j.sender with
  | none => exact jobEnd_same e fl j w _ hw rfl rfl
  | some sender =>
    dsimp only
    cases sender.incoming with
    | none => exact jobEnd_same e fl j w _ hw rfl rfl
    | some incoming =>
      dsimp only
      cases (e.mkdirAllErr (join incoming (dir pkt.path)) ||
        (mkdirAllPaths (join incoming (dir pkt.path))).any w.isFile)
      swap
      · exact jobEnd_same e fl j w _ hw rfl rfl
      cases hd : fl.dryRun
      swap
      · exact jobEnd_same e fl j w _ hw rfl rfl
      cases ht : e.tempFile (w.addDirs (mkdirAllPaths (join incoming (dir pkt.path))))
        (join incoming (dir pkt.path)) with
      | none => exact jobEnd_same e fl j w _ hw rfl rfl
      | some tmp =>
        obtain ⟨h1, h2⟩ := htmp _ _ _ ht
        dsimp only
        cases e.copyErr tmp j.body
        swap
        · refine Or.inl ⟨?_, ?_, rfl⟩
          · show ((((w.addDirs _).writeFile tmp []).logMsg _ _).writeFile tmp _).isFile j.name = true
            rw [isFile_written_twice _ _ _ _ _ _ _ h1.symm]
            exact hw
          · show ((((w.addDirs _).writeFile tmp []).logMsg _ _).writeFile tmp _).readFile
              (j.name ++ SeenSuffix) = w.readFile (j.name ++ SeenSuffix)
            rw [readFile_written_twice _ _ _ _ _ _ _ h2.symm]
            rfl
        simp only [Bool.false_eq_true, if_false]
        have hw3 : ∀ b, ((((w.addDirs (mkdirAllPaths (join incoming (dir pkt.path)))).writeFile tmp
            []).logMsg .debug "created").writeFile tmp b).isFile j.name = true := by
          intro b
          rw [isFile_written_twice _ _ _ _ _ _ _ h1.symm]
          exact hw
        have hr3 : ∀ b, ((((w.addDirs (mkdirAllPaths (join incoming (dir pkt.path)))).writeFile tmp
            []).logMsg .debug "created").writeFile tmp b).readFile (j.name ++ SeenSuffix) =
            w.readFile (j.name ++ SeenSuffix) := by
          intro b
          rw [readFile_written_twice _ _ _ _ _ _ _ h2.symm]
          rfl
        have hw3' := hw3 (if e.flushErr tmp j.body = true then e.stored tmp j.body else j.body)
        have hr3' := hr3 (if e.flushErr tmp j.body = true then e.stored tmp j.body else j.body)
        have hc3' : ((((w.addDirs (mkdirAllPaths (join incoming (dir pkt.path)))).writeFile tmp
            []).logMsg .debug "created").writeFile tmp
              (if e.flushErr tmp j.body = true then e.stored tmp j.body else j.body)).fsCalls =
            w.fsCalls := rfl
        generalize ((((w.addDirs (mkdirAllPaths (join incoming (dir pkt.path)))).writeFile tmp
            []).logMsg .debug "created").writeFile tmp
              (if e.flushErr tmp j.body = true then e.stored tmp j.body else j.body)) = w3
          at hw3' hr3' hc3' ⊢
        split
        · exact Or.inl ⟨hw3', hr3', hc3'⟩
        · exact Or.inl ⟨hw3', hr3', hc3'⟩
        · rename_i dstPath _
          have h := notify_cases c c.notifyFile
            (fun a => .notifyFile a sender.name pkt.path n)
          by_cases hre : e.renameErr tmp dstPath = true
          · simp only [hre, if_true]
            exact Or.inr ⟨hd, (w3.logMsg .error "rename").logMsg .info "", true, hw3', hc3',
              (h _ _).1, (h _ _).2.2.2, (h _ _).2.1, fun _ => ⟨_, _, hre⟩⟩
          · simp only [hre, if_false, Bool.false_eq_true]
            have hc4 : ((w3.rename tmp dstPath).logMsg .info "").fsCalls = w.fsCalls := by
              rw [← hc3']
              show (w3.rename tmp dstPath).fsCalls = w3.fsCalls
              unfold World.rename
              cases w3.readFile tmp <;> rfl
            exact Or.inr ⟨hd, (w3.rename tmp dstPath).logMsg .info "", false,
              isFile_rename _ _ _ _ h1.symm hw3', hc4, (h _ _).1, (h _ _).2.2.2, (h _ _).2.1,
              fun hp => Bool.noConfusion hp⟩

theorem tossJob_jobEnd (c : Ctx) (e : Env) (fl : Flags) (j : Job) (w : World)
    (hw : w.isFile j.name = true)
    (htmp : ∀ w1 d t, e.tempFile w1 d = some t → t ≠ j.name ∧ t ≠ j.name ++ SeenSuffix) :
    JobEnd e fl j w (tossJob c e fl j w) := by
  have lift : ∀ s, JobEnd e fl j (w.logMsg .debug "taken") s → JobEnd e fl j w s := fun s h => h
  unfold tossJob
  by_cases hn : j.nice > fl.nice
  · rw [if_pos hn]
    exact jobEnd_same e fl j w _ hw rfl rfl
  rw [if_neg hn]
  cases j.pkt with
  | none => exact jobEnd_same e fl j w _ hw rfl rfl
  | some pkt =>
    dsimp only
    cases pkt.type with
    | other t => exact jobEnd_same e fl j w _ hw rfl rfl
    | exec => exact lift _ (tossExec_jobEnd c e fl j pkt _ hw)
    | file => exact lift _ (tossFile_jobEnd c e fl j pkt _ _ hw htmp)
    | freq => exact lift _ (tossFreq_jobEnd c e fl j pkt _ hw)
    | trns => exact lift _ (tossTrns_jobEnd c e fl j pkt _ _ hw)

theorem retire_eq_markSeen (e : Env) (fl : Flags) (j : Job) (w : World) :
    retire e fl j w =
      if e.removeErr j.name || !(markSeen e fl j w).isFile j.name then
        (true, ((markSeen e fl j w).called (.remove j.name true)).logMsg .error "remove")
      else (false, ((markSeen e fl j w).unlink j.name).called (.remove j.name false)) :=
  rfl

theorem markSeen_isFile (e : Env) (fl : Flags) (j : Job) (w : World)
    (hw : w.isFile j.name = true) : (markSeen e fl j w).isFile j.name = true := by
  have hne : j.name ≠ j.name ++ SeenSuffix := fun h => seen_ne j.name h.symm
  unfold markSeen
  split_ifs
  · exact hw
  · show (w.writeFile (j.name ++ SeenSuffix) []).isFile j.name = true
    rw [isFile_writeFile_ne _ _ _ _ hne]; exact hw
  · exact hw

theorem markSeen_fsCalls (e : Env) (fl : Flags) (j : Job) (w : World) :
    (markSeen e fl j w).fsCalls = w.fsCalls ++
      (if fl.doSeen then [FsCall.create (j.name ++ SeenSuffix) (e.createErr (j.name ++ SeenSuffix))]
       else []) := by
  unfold markSeen
  cases fl.doSeen
  · simp
  · cases e.createErr (j.name ++ SeenSuffix) <;> rfl

theorem markSeen_readFile (e : Env) (fl : Flags) (j : Job) (w : World)
    (hs : fl.doSeen = true) (hc : e.createErr (j.name ++ SeenSuffix) = false) :
    (markSeen e fl j w).readFile (j.name ++ SeenSuffix) = some [] := by
  unfold markSeen
  rw [if_pos hs, hc]
  exact readFile_writeFile_same _ _ _

theorem retire_bad_removeErr (e : Env) (fl : Flags) (j : Job) (w : World)
    (hw : w.isFile j.name = true) (hb : (retire e fl j w).1 = true) :
    e.removeErr j.name = true := by
  by_contra h
  have := (retire_ok e fl j w hw (by simpa using h)).1
  rw [hb] at this
  exact Bool.noConfusion this

/-! ## Failed jobs -/

/-- When no final rename fails (and the temporary file of a File delivery is neither
the spool file nor its marker), a job that sets the bad flag leaves its spool file in
place, and the content at the name of its seen marker is what it was unless the
removal of the spool file fails. -/
theorem bad_job_keeps_spool (c : Ctx) (e : Env) (fl : Flags) (j : Job) (w : World)
    (hren : ∀ a b, e.renameErr a b = false)
    (htmp : ∀ w1 d t, e.tempFile w1 d = some t → t ≠ j.name ∧ t ≠ j.name ++ SeenSuffix)
    (hspool : w.isFile j.name = true) (hbad : (tossJob c e fl j w).bad = true) :
    (tossJob c e fl j w).world.isFile j.name = true ∧
    ((tossJob c e fl j w).world.readFile (j.name ++ SeenSuffix) =
        w.readFile (j.name ++ SeenSuffix) ∨ e.removeErr j.name = true) := by
  rcases tossJob_jobEnd c e fl j w hspool htmp with h | ⟨_, w1, pre, hw1, _, hf, _, hb, hpre⟩
  · exact ⟨h.1, Or.inl h.2.1⟩
  · have hp : pre = false := by
      cases pre
      · rfl
      · obtain ⟨a, b, hab⟩ := hpre rfl
        rw [hren a b] at hab
        exact Bool.noConfusion hab
    rw [hp, Bool.false_or, hbad] at hb
    refine ⟨?_, Or.inr (retire_bad_removeErr e fl j w1 hw1 hb.symm)⟩
    rw [isFile_congr _ _ hf]
    exact retire_isFile_of_bad e fl j w1 hw1 hb.symm

/-- C13 (failing input): the sample File job whose final rename fails sets the bad flag,
and yet `Toss` goes on to the final steps: with `doSeen` on the seen marker is created,
and the spool file is removed, while nothing is delivered to `/in/a`. The Exec job whose
command fails, which also sets the bad flag, keeps its spool file and gets no marker. -/
theorem toss_failed_rename_removes_spool :
    w0.isFile spool0 = true ∧ w0.isFile seen0 = false ∧
    (Toss ctx0 envRenameFails flSeen [job0 idA .file "a"] w0).ctl = .ok ∧
    (Toss ctx0 envRenameFails flSeen [job0 idA .file "a"] w0).bad = true ∧
    (Toss ctx0 envRenameFails flSeen [job0 idA .file "a"] w0).world.isFile spool0 = false ∧
    (Toss ctx0 envRenameFails flSeen [job0 idA .file "a"] w0).world.readFile seen0 = some [] ∧
    (Toss ctx0 envRenameFails flSeen [job0 idA .file "a"] w0).world.isFile "/in/a".toList =
      false ∧
    (Toss ctx0 envRenameFails flSeen [job0 idA .file "a"] w0).world.fsCalls =
      [.create seen0 false, .remove spool0 false] ∧
    (Toss ctx0 envCmdFails flSeen [job0 idA .exec "sh"] w0).bad = true ∧
    (Toss ctx0 envCmdFails flSeen [job0 idA .exec "sh"] w0).world.isFile spool0 = true ∧
    (Toss ctx0 envCmdFails flSeen [job0 idA .exec "sh"] w0).world.isFile seen0 = false ∧
    (Toss ctx0 envCmdFails flSeen [job0 idA .exec "sh"] w0).world.fsCalls = [] := by
  decide

/-! ## The whole run -/

/-- The flag `isBad` only accumulates: a run started with the flag `b` ends like the
run started with `false`, with `b` or-ed to the result. -/
theorem tossLoop_bad_or (c : Ctx) (e : Env) (fl : Flags) :
    ∀ (js : List Job) (b : Bool) (w : World),
      tossLoop c e fl js b w =
        ⟨(tossLoop c e fl js false w).ctl, b || (tossLoop c e fl js false w).bad,
          (tossLoop c e fl js false w).world⟩ := by
  intro js
  induction js with
  | nil => intro b w; simp [tossLoop]
  | cons j js ih =>
    intro b w
    simp only [tossLoop]
    cases h : (tossJob c e fl j w).ctl with
    | ok =>
      simp only [Bool.false_or]
      rw [ih (b || (tossJob c e fl j w).bad), ih (tossJob c e fl j w).bad]
      simp [Bool.or_assoc]
    | fatal => simp
    | panic => simp
    | diverge => simp

/-- C14 (failing input): an Exec job whose body `zlib.NewReader` rejects ends the
process (`log.Fatalln`) before the File job behind it is looked at, which on its own
would be delivered; and a File job for which `ioutil.TempFile` fails ends the run
with a nil pointer dereference before the Trns job behind it, which on its own would
make `Toss` return `true`. -/
theorem toss_stops_at_fatal_job :
    (Toss ctx0 envZlibFails fl0 [job0 idA .exec "sh", job0 idA .file "a"] w0).ctl = .fatal ∧
    (Toss ctx0 envZlibFails fl0 [job0 idA .exec "sh", job0 idA .file "a"] w0).world.files =
      w0.files ∧
    (Toss ctx0 envZlibFails fl0 [job0 idA .file "a"] w0).world.readFile "/in/a".toList =
      some "hello".toList ∧
    (Toss ctx0 envTempFails fl0 [job0 idA .file "a", job0 idA .trns idXText] w0).ctl = .panic ∧
    (Toss ctx0 envTempFails fl0 [job0 idA .file "a", job0 idA .trns idXText] w0).bad = false ∧
    (Toss ctx0 envTempFails fl0 [job0 idA .trns idXText] w0).ctl = .ok ∧
    (Toss ctx0 envTempFails fl0 [job0 idA .trns idXText] w0).bad = true := by
  decide

/-! ## The seen marker -/

/-- C15 (counterexample): with `doSeen` on and `os.Create` failing, the sample File job
is completed without the bad flag, its spool file is removed and no marker exists. -/
theorem toss_seen_marker_missing :
    flSeen.doSeen = true ∧ flSeen.dryRun = false ∧
    (Toss ctx0 envCreateFails flSeen [job0 idA .file "a"] w0).ctl = .ok ∧
    (Toss ctx0 envCreateFails flSeen [job0 idA .file "a"] w0).bad = false ∧
    (Toss ctx0 envCreateFails flSeen [job0 idA .file "a"] w0).world.readFile "/in/a".toList =
      some "hello".toList ∧
    (Toss ctx0 envCreateFails flSeen [job0 idA .file "a"] w0).world.isFile spool0 = false ∧
    (Toss ctx0 envCreateFails flSeen [job0 idA .file "a"] w0).world.isFile seen0 = false := by
  decide

/-- C15 (amended): when the spool file of a job is gone after the job (the temporary
file of a File delivery being neither the spool file nor its marker), `dryRun` is off
and the removal has not failed, and the calls of `os.Create` and `os.Remove` that the
job has made are, in this order: with `doSeen` on, `os.Create` of the marker
`name ++ SeenSuffix`, failed or not, and then `os.Remove` of the spool file; with
`doSeen` off, `os.Remove` of the spool file alone, so that no marker is created. With
`doSeen` on and `os.Create` not failing, the empty marker is there at the end. -/
theorem toss_seen_marker_before_removal (c : Ctx) (e : Env) (fl : Flags) (j : Job) (w : World)
    (htmp : ∀ w1 d t, e.tempFile w1 d = some t → t ≠ j.name ∧ t ≠ j.name ++ SeenSuffix)
    (hspool : w.isFile j.name = true)
    (hgone : (tossJob c e fl j w).world.isFile j.name = false) :
    fl.dryRun = false ∧ e.removeErr j.name = false ∧
    (tossJob c e fl j w).world.fsCalls = w.fsCalls ++
      (if fl.doSeen then
        [FsCall.create (j.name ++ SeenSuffix) (e.createErr (j.name ++ SeenSuffix)),
          FsCall.remove j.name false]
       else [FsCall.remove j.name false]) ∧
    (fl.doSeen = true → e.createErr (j.name ++ SeenSuffix) = false →
      (tossJob c e fl j w).world.readFile (j.name ++ SeenSuffix) = some []) := by
  rcases tossJob_jobEnd c e fl j w hspool htmp with h | ⟨hd, w1, pre, hw1, hc1, hf, hc, _, _⟩
  · rw [h.1] at hgone
    exact Bool.noConfusion hgone
  · have hm := markSeen_isFile e fl j w1 hw1
    have hre : e.removeErr j.name = false := by
      by_contra hne
      have hne' : e.removeErr j.name = true := by simpa using hne
      have hr : retire e fl j w1 =
          (true, ((markSeen e fl j w1).called (.remove j.name true)).logMsg .error "remove") := by
        rw [retire_eq_markSeen]
        simp [hne']
      rw [isFile_congr _ _ hf, hr] at hgone
      rw [called_logMsg_isFile, hm] at hgone
      exact Bool.noConfusion hgone
    have hr : retire e fl j w1 =
        (false, ((markSeen e fl j w1).unlink j.name).called (.remove j.name false)) := by
      rw [retire_eq_markSeen]
      simp [hre, hm]
    rw [hr] at hf hc
    have hne : j.name ++ SeenSuffix ≠ j.name := seen_ne j.name
    refine ⟨hd, hre, ?_, fun hs hcr => ?_⟩
    · rw [hc]
      show (markSeen e fl j w1).fsCalls ++ [FsCall.remove j.name false] = _
      rw [markSeen_fsCalls, hc1]
      cases fl.doSeen <;> simp
    · rw [readFile_congr _ _ hf]
      show ((markSeen e fl j w1).unlink j.name).readFile (j.name ++ SeenSuffix) = some []
      rw [readFile_unlink_ne _ _ _ hne]
      exact markSeen_readFile e fl j w1 hs hcr

/-- Witness of C15: with `doSeen` on, the sample Trns job for the node `idA` calls
`os.Create` for the marker and then `os.Remove` for the spool file, and leaves the
empty marker. -/
theorem toss_seen_marker_before_removal_witness :
    flSeen.dryRun = false ∧ envTmp.removeErr spool0 = false ∧
    (tossJob ctx0 envTmp flSeen (job0 idN .trns idAText) w0).world.fsCalls = w0.fsCalls ++
      (if flSeen.doSeen then
        [FsCall.create (spool0 ++ SeenSuffix) (envTmp.createErr (spool0 ++ SeenSuffix)),
          FsCall.remove spool0 false]
       else [FsCall.remove spool0 false]) ∧
    (flSeen.doSeen = true → envTmp.createErr (spool0 ++ SeenSuffix) = false →
      (tossJob ctx0 envTmp flSeen (job0 idN .trns idAText) w0).world.readFile
        (spool0 ++ SeenSuffix) = some []) :=
  toss_seen_marker_before_removal ctx0 envTmp flSeen (job0 idN .trns idAText) w0
    (fun _ _ t h => by cases h; decide) (by decide) (by decide)

/-! ## File requests -/

/-- C16 (counterexample): an accepted Freq packet (relative source path, sender with
the freq directory `/pub`, `dryRun` off) queues no transfer when Freq packets are
switched off, nor when the job is too nice. -/
theorem toss_freq_not_queued :
    isAbs "x/y".toList = false ∧ nodeA.freq = some "/pub".toList ∧
    flNoFreq.dryRun = false ∧ flNice50.dryRun = false ∧
    (Toss ctx0 env0 flNoFreq [job0 idA .freq "x/y"] w0).world.txCalls = [] ∧
    (Toss ctx0 env0 flNice50 [job0 idA .freq "x/y"] w0).world.txCalls = [] := by
  decide

/-- C16 (amended): for a Freq packet with a relative source path `src` from a sender
`n` with the freq directory `F`, in a job within the niceness limit, with `noFreq` and
`dryRun` off, `Toss` makes one call of a transmit function: for the sender `n`, at the
niceness of the inner packet, of the file `join F src` under the name given by the body,
with the sender's `FreqMinSize`; it is `TxFileChunked` with the chunk size
`n.FreqChunked` when that is not zero and `TxFile` when it is zero. If the call fails
the job is bad and no file changes; if it succeeds and the removal of the spool file
does not fail, the spool file is gone and the job is not bad. -/
theorem toss_freq_queues_transfer (c : Ctx) (e : Env) (fl : Flags) (j : Job) (w : World)
    (pkt : Pkt) (n : Node) (F : Str) (hnice : j.nice ≤ fl.nice) (hpkt : j.pkt = some pkt)
    (htype : pkt.type = .freq) (hno : fl.noFreq = false) (hdry : fl.dryRun = false)
    (hrel : isAbs pkt.path = false) (hsender : c.neigh.lookup j.sender = some n)
    (hfreq : n.freq = some F) :
    ∃ call, (tossJob c e fl j w).world.txCalls = w.txCalls ++ [call] ∧
      (n.freqChunked = 0 →
        call = .file n pkt.nice (join F pkt.path) j.body n.freqMinSize) ∧
      (n.freqChunked ≠ 0 →
        call = .fileChunked n pkt.nice (join F pkt.path) j.body n.freqMinSize n.freqChunked) ∧
      (e.txFileErr call = true →
        (tossJob c e fl j w).bad = true ∧ (tossJob c e fl j w).world.files = w.files) ∧
      (e.txFileErr call = false → w.isFile j.name = true → e.removeErr j.name = false →
        (tossJob c e fl j w).bad = false ∧ (tossJob c e fl j w).world.isFile j.name = false) := by
  have hn : ¬ j.nice > fl.nice := by omega
  unfold tossJob
  rw [if_neg hn, hpkt]
  simp only [htype, tossFreq, hno, hrel, hsender, hfreq, hdry, Bool.false_eq_true, if_false]
  generalize hcall : (if n.freqChunked = 0 then
      TxCall.file n pkt.nice (join F pkt.path) j.body n.freqMinSize
    else TxCall.fileChunked n pkt.nice (join F pkt.path) j.body n.freqMinSize n.freqChunked) = call
  refine ⟨call, ?_, fun h0 => by rw [← hcall, if_pos h0], fun h0 => by rw [← hcall, if_neg h0],
    ?_, ?_⟩
  · cases e.txFileErr call
    · simp only [Bool.false_eq_true, if_false]
      have h := notify_cases c c.notifyFreq (fun a => Stdin.notifyFreq a n.name pkt.path)
      rw [(h _ _).2.2.1, retire_txCalls]
      rfl
    · rfl
  · intro herr
    simp only [herr, if_true]
    exact ⟨trivial, rfl⟩
  · intro herr hw hr
    simp only [herr, Bool.false_eq_true, if_false]
    have h := notify_cases c c.notifyFreq (fun a => Stdin.notifyFreq a n.name pkt.path)
    have hok := retire_ok e fl j (((w.logMsg .debug "taken").tx call).logMsg .info "") hw hr
    refine ⟨by rw [(h _ _).2.1]; exact hok.1, ?_⟩
    rw [isFile_congr _ _ (h _ _).1]
    exact hok.2

/-- Witness of C16: the sample Freq job queues a plain transfer for a sender without
chunking, after which its spool file is gone, and a chunked one for the sender `nodeC`,
whose failure leaves the files as they were. -/
theorem toss_freq_queues_transfer_witness :
    (tossJob ctx0 env0 fl0 (job0 idA .freq "x/y") w0).world.txCalls =
      [.file nodeA 100 "/pub/x/y".toList "hello".toList 0] ∧
    (tossJob ctx0 env0 fl0 (job0 idA .freq "x/y") w0).world.isFile spool0 = false ∧
    (tossJob ctxC envTxFails fl0 (job0 idA .freq "x/y") w0).world.txCalls =
      [.fileChunked nodeC 100 "/pub/x/y".toList "hello".toList 1024 4096] ∧
    (tossJob ctxC envTxFails fl0 (job0 idA .freq "x/y") w0).world.files = w0.files := by
  obtain ⟨call1, htx1, h01, _, _, hok1⟩ :=
    toss_freq_queues_transfer ctx0 env0 fl0 (job0 idA .freq "x/y") w0
      ⟨.freq, 100, "x/y".toList⟩ nodeA "/pub".toList (by decide) rfl rfl rfl rfl (by decide)
      (by decide) rfl
  obtain ⟨call2, htx2, _, hc2, herr2, _⟩ :=
    toss_freq_queues_transfer ctxC envTxFails fl0 (job0 idA .freq "x/y") w0
      ⟨.freq, 100, "x/y".toList⟩ nodeC "/pub".toList (by decide) rfl rfl rfl rfl (by decide)
      (by decide) rfl
  refine ⟨?_, (hok1 rfl (by decide) rfl).2, ?_, (herr2 rfl).2⟩
  · rw [htx1, h01 rfl]
    decide
  · rw [htx2, hc2 (by decide)]
    decide

/-! ## Lemmas: the checks of `process` -/

theorem isFile_false_of_readFile_none (w : World) (p : Str) (h : w.readFile p = none) :
    w.isFile p = false := by
  cases hf : w.isFile p with
  | false => rfl
  | true =>
    exfalso
    unfold World.isFile at hf
    unfold World.readFile at h
    rw [List.any_eq_true] at hf
    obtain ⟨x, hx, hxp⟩ := hf
    rw [Option.map_eq_none', List.find?_eq_none] at h
    exact h x hx hxp

theorem pathExists_congr (w1 w : World) (p : Str) (h : w1.files = w.files)
    (hd : w1.dirs = w.dirs) : w1.pathExists p = w.pathExists p := by
  unfold World.pathExists; rw [h, hd]

theorem badSize_false_iff (m : ChunkedMeta) (n i size : Nat) :
    badSize m n i size = false ↔
      size = if i + 1 = n then m.fileSize % m.chunkSize else m.chunkSize := by
  unfold badSize
  by_cases h : i + 1 = n <;> simp [h]

theorem checkSizes_frame (re : ReassEnv) (m : ChunkedMeta) (n : Nat) :
    ∀ (l : List (Nat × Str)) (w : World) (b : Bool),
      (checkSizes re m n l w b).2.2.files = w.files ∧
      (checkSizes re m n l w b).2.2.dirs = w.dirs := by
  intro l
  induction l with
  | nil => intro w b; exact ⟨rfl, rfl⟩
  | cons ip rest ih =>
    intro w b
    obtain ⟨i, p⟩ := ip
    unfold checkSizes
    cases stat re.toEnv w p with
    | notExist => exact ih (w.logMsg .info "missing") false
    | failed => exact ⟨rfl, rfl⟩
    | found =>
      dsimp only
      by_cases h1 : i + 1 = n ∧ m.chunkSize = 0
      · rw [if_pos h1]; exact ⟨rfl, rfl⟩
      · rw [if_neg h1]
        cases badSize m n i (statSize re w p) with
        | true => exact ih (w.logMsg .error "invalid size") false
        | false => exact ih w b

theorem checkSizes_false (re : ReassEnv) (m : ChunkedMeta) (n : Nat) :
    ∀ (l : List (Nat × Str)) (w : World), (checkSizes re m n l w false).2.1 = false := by
  intro l
  induction l with
  | nil => intro w; rfl
  | cons ip rest ih =>
    intro w
    obtain ⟨i, p⟩ := ip
    unfold checkSizes
    cases stat re.toEnv w p with
    | notExist => exact ih _
    | failed => rfl
    | found =>
      dsimp only
      by_cases h1 : i + 1 = n ∧ m.chunkSize = 0
      · rw [if_pos h1]
      · rw [if_neg h1]
        cases badSize m n i (statSize re w p) with
        | true => exact ih _
        | false => exact ih _

theorem stat_of_statErr (e : Env) (w : World) (p : Str) (h : e.statErr p = false) :
    stat e w p = if w.pathExists p then .found else .notExist := by
  unfold stat; rw [h]; rfl

theorem checkSizes_ok (re : ReassEnv) (m : ChunkedMeta) (n : Nat) (hcs : m.chunkSize ≠ 0) :
    ∀ (l : List (Nat × Str)) (w : World) (b : Bool),
      (∀ ip ∈ l, re.statErr ip.2 = false) → (checkSizes re m n l w b).1 = .ok := by
  intro l
  induction l with
  | nil => intro w b _; rfl
  | cons ip rest ih =>
    intro w b hs
    obtain ⟨i, p⟩ := ip
    have hr : ∀ ip ∈ rest, re.statErr ip.2 = false := fun ip h => hs ip (List.mem_cons_of_mem _ h)
    unfold checkSizes
    rw [stat_of_statErr _ _ _ (hs (i, p) (List.mem_cons_self _ _))]
    cases w.pathExists p with
    | false => exact ih _ _ hr
    | true =>
      rw [if_pos rfl]
      dsimp only
      rw [if_neg (fun h => hcs h.2)]
      cases badSize m n i (statSize re w p) with
      | true => exact ih _ _ hr
      | false => exact ih _ _ hr

theorem checkSizes_bad (re : ReassEnv) (m : ChunkedMeta) (n : Nat) (hcs : m.chunkSize ≠ 0) :
    ∀ (l : List (Nat × Str)) (w : World) (b : Bool),
      (∀ ip ∈ l, re.statErr ip.2 = false) →
      (∃ ip ∈ l, w.pathExists ip.2 = false ∨ badSize m n ip.1 (statSize re w ip.2) = true) →
      (checkSizes re m n l w b).2.1 = false := by
  intro l
  induction l with
  | nil => intro w b _ hb; obtain ⟨ip, h, _⟩ := hb; cases h
  | cons ip rest ih =>
    intro w b hs hb
    obtain ⟨i, p⟩ := ip
    have hr : ∀ ip ∈ rest, re.statErr ip.2 = false := fun ip h => hs ip (List.mem_cons_of_mem _ h)
    unfold checkSizes
    rw [stat_of_statErr _ _ _ (hs (i, p) (List.mem_cons_self _ _))]
    cases hpe : w.pathExists p with
    | false => exact checkSizes_false re m n rest _
    | true =>
      rw [if_pos rfl]
      dsimp only
      rw [if_neg (fun h => hcs h.2)]
      cases hbs : badSize m n i (statSize re w p) with
      | true => exact checkSizes_false re m n rest _
      | false =>
        refine ih w b hr ?_
        obtain ⟨ip, hmem, hbad⟩ := hb
        rcases List.mem_cons.1 hmem with h | h
        · subst h
          rcases hbad with h | h
          · rw [hpe] at h; cases h
          · rw [hbs] at h; cases h
        · exact ⟨ip, h, hbad⟩

theorem checkSums_frame (re : ReassEnv) (m : ChunkedMeta) :
    ∀ (l : List (Nat × Str)) (w : World) (b : Bool),
      (checkSums re m l w b).2.2.files = w.files ∧
      (checkSums re m l w b).2.2.dirs = w.dirs := by
  intro l
  induction l with
  | nil => intro w b; exact ⟨rfl, rfl⟩
  | cons ip rest ih =>
    intro w b
    obtain ⟨i, p⟩ := ip
    unfold checkSums
    cases w.readFile p with
    | none => exact ⟨rfl, rfl⟩
    | some c =>
      dsimp only
      cases (re.openErr p || re.readErr p) with
      | true => exact ⟨rfl, rfl⟩
      | false =>
        cases (re.blake2b256 c != m.checksums.getD i []) with
        | true => exact ih (w.logMsg .error "checksum is bad") false
        | false => exact ih w b

theorem checkSums_false (re : ReassEnv) (m : ChunkedMeta) :
    ∀ (l : List (Nat × Str)) (w : World), (checkSums re m l w false).2.1 = false := by
  intro l
  induction l with
  | nil => intro w; rfl
  | cons ip rest ih =>
    intro w
    obtain ⟨i, p⟩ := ip
    unfold checkSums
    cases w.readFile p with
    | none => rfl
    | some c =>
      dsimp only
      cases (re.openErr p || re.readErr p) with
      | true => rfl
      | false =>
        cases (re.blake2b256 c != m.checksums.getD i []) with
        | true => exact ih _
        | false => exact ih _

theorem checkSums_ok (re : ReassEnv) (m : ChunkedMeta) :
    ∀ (l : List (Nat × Str)) (w : World) (b : Bool),
      (∀ ip ∈ l, w.isFile ip.2 = true ∧ re.openErr ip.2 = false ∧ re.readErr ip.2 = false) →
      (checkSums re m l w b).1 = .ok := by
  intro l
  induction l with
  | nil => intro w b _; rfl
  | cons ip rest ih =>
    intro w b hs
    obtain ⟨i, p⟩ := ip
    have hr : ∀ ip ∈ rest, w.isFile ip.2 = true ∧ re.openErr ip.2 = false ∧
        re.readErr ip.2 = false := fun ip h => hs ip (List.mem_cons_of_mem _ h)
    obtain ⟨hf, ho, hrd⟩ := hs (i, p) (List.mem_cons_self _ _)
    unfold checkSums
    cases hc : w.readFile p with
    | none => rw [isFile_false_of_readFile_none w p hc] at hf; cases hf
    | some c =>
      dsimp only
      rw [ho, hrd]
      cases (re.blake2b256 c != m.checksums.getD i []) with
      | true => exact ih _ _ hr
      | false => exact ih _ _ hr

theorem checkSums_bad (re : ReassEnv) (m : ChunkedMeta) :
    ∀ (l : List (Nat × Str)) (w : World) (b : Bool),
      (∃ ip ∈ l, ∃ c, w.readFile ip.2 = some c ∧ re.blake2b256 c ≠ m.checksums.getD ip.1 []) →
      (checkSums re m l w b).1 = .ok → (checkSums re m l w b).2.1 = false := by
  intro l
  induction l with
  | nil => intro w b hb; obtain ⟨ip, h, _⟩ := hb; cases h
  | cons ip rest ih =>
    intro w b hb
    obtain ⟨i, p⟩ := ip
    unfold checkSums
    cases hc : w.readFile p with
    | none => intro h; cases h
    | some c =>
      dsimp only
      cases (re.openErr p || re.readErr p) with
      | true => intro h; cases h
      | false =>
        cases hd : (re.blake2b256 c != m.checksums.getD i []) with
        | true => intro _; exact checkSums_false re m rest _
        | false =>
          refine ih w b ?_
          obtain ⟨ip, hmem, c2, hc2, hne⟩ := hb
          rcases List.mem_cons.1 hmem with h | h
          · subst h
            rw [hc] at hc2
            cases hc2
            exfalso
            apply hne
            simpa using hd
          · exact ⟨ip, h, c2, hc2, hne⟩

theorem process_checked (re : ReassEnv) (path : Str) (keep dryRun out : Bool)
    (w : World) (content : Str) (m : ChunkedMeta)
    (hmeta : w.readFile path = some content)
    (hopen : re.openErr path = false) (hread : re.readErr path = false)
    (hdec : re.decodeMeta content = some m)
    (hmagic : m.magic = re.magicNNCPMv1)
    (hsuf : re.suffixMeta.isSuffixOf (base path) = true) :
    process re path keep dryRun out false w =
      match checkSizes re m m.checksums.length (expectedChunks re path m) w true with
      | (.ok, allChunksExist, w1) =>
        if !allChunksExist then ⟨.ok, false, w1, []⟩
        else
          match checkSums re m (expectedChunks re path m) w1 true with
          | (.ok, allChecksumsGood, w2) =>
            if !allChecksumsGood then ⟨.ok, false, w2, []⟩
            else if dryRun then ⟨.ok, true, w2.logMsg .info "ready", []⟩
            else assemble re path (dir path)
              ((base path).take ((base path).length - re.suffixMeta.length)) keep out
              (expectedChunks re path m) w2
          | (stop, _, w2) => ⟨stop, false, w2, []⟩
      | (stop, _, w1) => ⟨stop, false, w1, []⟩ := by
  have hpe : w.pathExists path = true :=
    pathExists_of_isFile w path (isFile_of_readFile w path content hmeta)
  unfold process expectedChunks
  rw [hpe, hopen, hmeta]
  simp only [Bool.not_true, Bool.or_false, Bool.false_eq_true, if_false, Option.bind, hread,
    hdec, hmagic, ne_eq, not_true_eq_false, hsuf]

/-! ## C19: the size expected of the last chunk -/

/-- C19 (the code differs): for the meta of a file of 8 bytes in chunks of 4 bytes with
two checksums, the size test of `process` rejects a last chunk of the full chunk size 4
and accepts only an empty last chunk, because it compares with `FileSize % ChunkSize`
also when this remainder is zero; `process` then returns false on the two complete
chunks `abcd` and `efgh` with the record "invalid size" and leaves them in place. -/
theorem process_rejects_full_last_chunk :
    meta84.fileSize % meta84.chunkSize = 0 ∧
    badSize meta84 meta84.checksums.length 1 meta84.chunkSize = true ∧
    badSize meta84 meta84.checksums.length 1 0 = false ∧
    badSize meta84 meta84.checksums.length 0 meta84.chunkSize = false ∧
    process reEnv0 "/in/f.nncp.meta".toList false false false false wChunks84 =
      ⟨.ok, false, wChunks84.logMsg .error "invalid size", []⟩ := by
  decide

/-! ## C20: a failed check leaves everything in place -/

/-- C20 (counterexample): called with `dumpMeta`, `process` returns true for a meta file
whose second chunk is missing. -/
theorem process_dumpMeta_returns_true :
    wChunks64.pathExists "/in/f.nncp.chunk1".toList = false ∧
    ("/in/f.nncp.chunk1".toList ∈
      (expectedChunks reEnv0 "/in/f.nncp.meta".toList meta64).map (fun ip => ip.2)) ∧
    process reEnv0 "/in/f.nncp.meta".toList false false false true wChunks64 =
      ⟨.ok, true, wChunks64, []⟩ := by
  decide

/-- C20 (amended): `process`, called without `dumpMeta` for a readable meta file that
decodes to a meta with the right magic, a nonzero chunk size and a name with the meta
suffix, when `os.Stat` fails for no expected chunk otherwise than by its absence and
every expected chunk that exists is a regular file which can be opened and read: if
some expected chunk is missing, fails the size test of the code, or has a digest other
than the checksum recorded for its index, then `process` returns false, writes nothing
to the standard output and leaves the files and directories as they were. -/
theorem process_failed_check_keeps_files (re : ReassEnv) (path : Str)
    (keep dryRun out : Bool) (w : World) (content : Str) (m : ChunkedMeta)
    (hmeta : w.readFile path = some content)
    (hopen : re.openErr path = false) (hread : re.readErr path = false)
    (hdec : re.decodeMeta content = some m)
    (hmagic : m.magic = re.magicNNCPMv1)
    (hsuf : re.suffixMeta.isSuffixOf (base path) = true)
    (hcs : m.chunkSize ≠ 0)
    (hstat : ∀ ip ∈ expectedChunks re path m, re.statErr ip.2 = false)
    (hreg : ∀ ip ∈ expectedChunks re path m, w.pathExists ip.2 = true →
      w.isFile ip.2 = true ∧ re.openErr ip.2 = false ∧ re.readErr ip.2 = false)
    (hbad : ∃ ip ∈ expectedChunks re path m,
      w.pathExists ip.2 = false ∨
      badSize m m.checksums.length ip.1 (statSize re w ip.2) = true ∨
      ∃ c, w.readFile ip.2 = some c ∧ re.blake2b256 c ≠ m.checksums.getD ip.1 []) :
    (process re path keep dryRun out false w).ctl = .ok ∧
    (process re path keep dryRun out false w).ret = false ∧
    (process re path keep dryRun out false w).out = [] ∧
    (process re path keep dryRun out false w).world.files = w.files ∧
    (process re path keep dryRun out false w).world.dirs = w.dirs := by
  rw [process_checked re path keep dryRun out w content m hmeta hopen hread hdec hmagic hsuf]
  have hok := checkSizes_ok re m m.checksums.length hcs (expectedChunks re path m) w true hstat
  have hfr := checkSizes_frame re m m.checksums.length (expectedChunks re path m) w true
  have hbd := checkSizes_bad re m m.checksums.length hcs (expectedChunks re path m) w true hstat
  generalize checkSizes re m m.checksums.length (expectedChunks re path m) w true = r at *
  obtain ⟨c1, f1, w1⟩ := r
  dsimp only at hok hfr hbd
  subst hok
  cases f1 with
  | false => exact ⟨rfl, rfl, rfl, hfr.1, hfr.2⟩
  | true =>
    simp only [Bool.not_true, Bool.false_eq_true, if_false]
    have hall : ∀ ip ∈ expectedChunks re path m, w.pathExists ip.2 = true ∧
        badSize m m.checksums.length ip.1 (statSize re w ip.2) = false := by
      intro ip hip
      constructor
      · cases hp : w.pathExists ip.2 with
        | true => rfl
        | false => exact absurd (hbd ⟨ip, hip, Or.inl hp⟩) (by decide)
      · cases hp : badSize m m.checksums.length ip.1 (statSize re w ip.2) with
        | false => rfl
        | true => exact absurd (hbd ⟨ip, hip, Or.inr hp⟩) (by decide)
    have hreg1 : ∀ ip ∈ expectedChunks re path m,
        w1.isFile ip.2 = true ∧ re.openErr ip.2 = false ∧ re.readErr ip.2 = false := by
      intro ip hip
      rw [isFile_congr w w1 hfr.1]
      exact hreg ip hip (hall ip hip).1
    have hbad1 : ∃ ip ∈ expectedChunks re path m, ∃ c, w1.readFile ip.2 = some c ∧
        re.blake2b256 c ≠ m.checksums.getD ip.1 [] := by
      obtain ⟨ip, hip, h⟩ := hbad
      rcases h with h | h | h
      · rw [(hall ip hip).1] at h; cases h
      · rw [(hall ip hip).2] at h; cases h
      · obtain ⟨c, hc, hne⟩ := h
        exact ⟨ip, hip, c, by rw [readFile_congr w w1 hfr.1]; exact hc, hne⟩
    have hok2 := checkSums_ok re m (expectedChunks re path m) w1 true hreg1
    have hfr2 := checkSums_frame re m (expectedChunks re path m) w1 true
    have hbd2 := checkSums_bad re m (expectedChunks re path m) w1 true hbad1 hok2
    generalize checkSums re m (expectedChunks re path m) w1 true = r2 at *
    obtain ⟨c2, f2, w2⟩ := r2
    dsimp only at hok2 hfr2 hbd2
    subst hok2
    subst hbd2
    simp only [Bool.not_false, if_true]
    exact ⟨trivial, trivial, trivial, hfr2.1.trans hfr.1, hfr2.2.trans hfr.2⟩

theorem process_failed_check_keeps_files_witness :
    (process reEnv0 "/in/f.nncp.meta".toList false false false false wChunks64Bad).ctl = .ok ∧
    (process reEnv0 "/in/f.nncp.meta".toList false false false false wChunks64Bad).ret = false ∧
    (process reEnv0 "/in/f.nncp.meta".toList false false false false wChunks64Bad).out = [] ∧
    (process reEnv0 "/in/f.nncp.meta".toList false false false false wChunks64Bad).world.files
      = wChunks64Bad.files ∧
    (process reEnv0 "/in/f.nncp.meta".toList false false false false wChunks64Bad).world.dirs
      = wChunks64Bad.dirs :=
  process_failed_check_keeps_files reEnv0 "/in/f.nncp.meta".toList false false false
    wChunks64Bad "meta64".toList meta64 (by decide) rfl rfl (by decide) (by decide) (by decide)
    (by decide) (fun _ _ => rfl) (by decide)
    ⟨(1, "/in/f.nncp.chunk1".toList), by decide,
      Or.inr (Or.inr ⟨"xx".toList, by decide, by decide⟩)⟩

/-! ## Lemmas: the leaves of the incremental tree hash -/

theorem feed_nil (B : Nat) (acc : List Digest × Str) : feed B acc [] = acc := rfl

theorem feed_cons (B : Nat) (acc : List Digest × Str) (c : Char) (x : Str) :
    feed B acc (c :: x) = feed B (feedByte B acc c) x := rfl

theorem feed_append (B : Nat) (acc : List Digest × Str) (x y : Str) :
    feed B acc (x ++ y) = feed B (feed B acc x) y := by
  unfold feed; rw [List.foldl_append]

theorem feed_shift (B : Nat) (x : Str) :
    ∀ (ls : List Digest) (buf : Str),
      feed B (ls, buf) x = (ls ++ (feed B ([], buf) x).1, (feed B ([], buf) x).2) := by
  induction x with
  | nil => intro ls buf; simp [feed_nil]
  | cons c x ih =>
    intro ls buf
    rw [feed_cons, feed_cons]
    unfold feedByte
    dsimp only
    by_cases h : (buf ++ [c]).length = B
    · rw [if_pos h, if_pos h, ih (ls ++ [Digest.leaf (buf ++ [c])]) [],
        ih ([] ++ [Digest.leaf (buf ++ [c])]) []]
      simp
    · rw [if_neg h, if_neg h, ih ls (buf ++ [c])]

theorem feed_buf_length (B : Nat) (hB : 0 < B) (x : Str) :
    ∀ (ls : List Digest) (buf : Str), buf.length < B →
      (feed B (ls, buf) x).2.length = (buf.length + x.length) % B := by
  induction x with
  | nil => intro ls buf h; simp [feed_nil, Nat.mod_eq_of_lt h]
  | cons c x ih =>
    intro ls buf h
    rw [feed_cons]
    unfold feedByte
    dsimp only
    by_cases h1 : (buf ++ [c]).length = B
    · rw [if_pos h1, ih _ [] hB]
      rw [List.length_append, List.length_singleton] at h1
      simp only [List.length_nil, List.length_cons, Nat.zero_add]
      have : buf.length + (x.length + 1) = x.length + B := by omega
      rw [this, Nat.add_mod_right]
    · rw [if_neg h1]
      rw [List.length_append, List.length_singleton] at h1
      have h2 : (buf ++ [c]).length < B := by
        rw [List.length_append, List.length_singleton]; omega
      rw [ih _ (buf ++ [c]) h2, List.length_append, List.length_singleton, List.length_cons]
      congr 1; omega

theorem feed_short (B : Nat) (x : Str) :
    ∀ (ls : List Digest) (buf : Str), buf.length + x.length < B →
      feed B (ls, buf) x = (ls, buf ++ x) := by
  induction x with
  | nil => intro ls buf _; simp [feed_nil]
  | cons c x ih =>
    intro ls buf h
    rw [feed_cons]
    unfold feedByte
    dsimp only
    rw [List.length_cons] at h
    have h1 : ¬ (buf ++ [c]).length = B := by
      rw [List.length_append, List.length_singleton]; omega
    rw [if_neg h1, ih ls (buf ++ [c])
      (by rw [List.length_append, List.length_singleton]; omega)]
    simp

theorem feed_exact (B : Nat) (x : Str) :
    ∀ (ls : List Digest) (buf : Str), x ≠ [] → buf.length + x.length = B →
      feed B (ls, buf) x = (ls ++ [Digest.leaf (buf ++ x)], []) := by
  induction x with
  | nil => intro ls buf h; exact absurd rfl h
  | cons c x ih =>
    intro ls buf _ h
    rw [feed_cons]
    unfold feedByte
    dsimp only
    rw [List.length_cons] at h
    cases x with
    | nil =>
      have h1 : (buf ++ [c]).length = B := by
        rw [List.length_append, List.length_singleton]; simpa using h
      rw [if_pos h1]; rfl
    | cons d x =>
      rw [List.length_cons] at h
      have h1 : ¬ (buf ++ [c]).length = B := by
        rw [List.length_append, List.length_singleton]; omega
      rw [if_neg h1, ih ls (buf ++ [c]) (List.cons_ne_nil _ _)
        (by rw [List.length_append, List.length_singleton, List.length_cons]; omega)]
      simp

theorem flushLeaves_shift (ls l2 : List Digest) (buf : Str) :
    flushLeaves (ls ++ l2, buf) = ls ++ flushLeaves (l2, buf) := by
  unfold flushLeaves
  dsimp only
  by_cases h : buf = []
  · rw [if_pos h, if_pos h]
  · rw [if_neg h, if_neg h, List.append_assoc]

theorem offset_to_boundary (B O : Nat) (hB : 0 < B) :
    (O + (B - O % B) % B) % B = 0 := by
  have hr : O % B < B := Nat.mod_lt O hB
  have hd : B * (O / B) + O % B = O := Nat.div_add_mod O B
  by_cases h0 : O % B = 0
  · rw [h0, Nat.sub_zero, Nat.mod_self, Nat.add_zero]; exact h0
  · have h1 : (B - O % B) % B = B - O % B := Nat.mod_eq_of_lt (by omega)
    rw [h1]
    have h2 : O + (B - O % B) = B * (O / B + 1) := by
      rw [Nat.mul_add, Nat.mul_one]; omega
    rw [h2, Nat.mul_mod_right]

theorem write_nil (s : MTH) : s.Write [] = s := rfl

theorem write_cons (s : MTH) (c : Char) (x : Str) :
    s.Write (c :: x) = (s.writeByte c).Write x := rfl

theorem write_append (s : MTH) (x y : Str) : s.Write (x ++ y) = (s.Write x).Write y := by
  unfold MTH.Write; rw [List.foldl_append]

theorem copyParts_flatten (parts : List Str) :
    ∀ s : MTH, copyParts s parts = s.Write parts.flatten := by
  induction parts with
  | nil => intro s; rfl
  | cons p ps ih =>
    intro s
    rw [List.flatten_cons, write_append, ← ih (s.Write p)]
    rfl

theorem write_flat (x : Str) :
    ∀ s : MTH, s.size = 0 → s.Write x = { s with buf := s.buf ++ x } := by
  induction x with
  | nil => intro s _; simp [write_nil]
  | cons c x ih =>
    intro s h
    rw [write_cons]
    unfold MTH.writeByte
    rw [if_pos h]
    refine (ih _ ?_).trans ?_
    · exact h
    · simp

theorem write_tree (x : Str) :
    ∀ s : MTH, s.size ≠ 0 →
      s.Write x =
        { s with
          head := s.head ++ x.take s.headNeed,
          headNeed := s.headNeed - x.length,
          leaves := (feed s.leafSize (s.leaves, s.buf) (x.drop s.headNeed)).1,
          buf := (feed s.leafSize (s.leaves, s.buf) (x.drop s.headNeed)).2 } := by
  induction x with
  | nil => intro s _; simp [write_nil, feed_nil]
  | cons c x ih =>
    intro s h
    rw [write_cons]
    unfold MTH.writeByte
    rw [if_neg h]
    by_cases hn : s.headNeed = 0
    · rw [if_neg (by simpa using hn)]
      refine (ih _ ?_).trans ?_
      · exact h
      · simp [hn, feed_cons]
    · rw [if_pos hn]
      refine (ih _ ?_).trans ?_
      · exact h
      · obtain ⟨k, hk⟩ := Nat.exists_eq_succ_of_ne_zero hn
        simp [hk]

theorem mthNew_headNeed_zero (B L : Nat) : (MTHNew B L 0).headNeed = 0 := by
  unfold MTHNew
  dsimp only
  by_cases h : L = 0
  · rw [if_pos h]
  · rw [if_neg h, Nat.zero_mod, Nat.sub_zero, Nat.mod_self]

theorem sum_write_full (B L : Nat) (hL : L ≠ 0) (S : Str) :
    ((MTHNew B L 0).Write S).Sum = mthRoot (flushLeaves (feed B ([], []) S)) := by
  rw [write_tree S _ hL]
  unfold MTH.Sum
  dsimp only
  rw [mthNew_headNeed_zero]
  show (if L = 0 then _ else _) = _
  rw [if_neg hL]
  rfl

theorem prependFrom_ok (s : MTH) (reader : Str) (h : s.offset ≤ reader.length) :
    s.PrependFrom reader =
      .ok ({ s with prepended :=
              flushLeaves (feed s.leafSize ([], []) (reader.take s.offset ++ s.head)) },
           reader.drop s.offset) := by
  unfold MTH.PrependFrom
  rw [if_neg (by omega)]

/-! ## C17: a suffix with the prefix prepended -/

/-- C17: for every positive leaf size, every byte string `S` of length at least 1 and
every offset `O` below the length of `S`, `PrependFrom` over a reader of `S`, after
`MTHNew` with the length of `S` and the offset `O` and the write of `S` from `O` on,
succeeds, leaves what follows the first `O` bytes in the reader, and gives the digest
that `MTHNew` with the offset 0 and the write of all of `S` give. -/
theorem mth_prepend_equals_full (B : Nat) (hB : 0 < B) (S : Str) (O : Nat)
    (hL : 1 ≤ S.length) (hO : O < S.length) :
    ∃ st : MTH,
      ((MTHNew B S.length O).Write (S.drop O)).PrependFrom S = .ok (st, S.drop O) ∧
      st.Sum = ((MTHNew B S.length 0).Write S).Sum := by
  have hL0 : S.length ≠ 0 := by omega
  have hsz : (MTHNew B S.length O).size ≠ 0 := hL0
  rw [write_tree _ _ hsz]
  refine ⟨_, prependFrom_ok _ S (Nat.le_of_lt hO), ?_⟩
  · rw [sum_write_full B S.length hL0 S]
    unfold MTH.Sum
    dsimp only
    show (if S.length = 0 then _ else _) = _
    rw [if_neg hL0]
    congr 1
    have hh : (MTHNew B S.length O).headNeed = (B - O % B) % B := by
      show (if S.length = 0 then _ else _) = _
      rw [if_neg hL0]
    rw [hh]
    show flushLeaves (feed B ([], []) (S.take O ++ ([] ++ (S.drop O).take ((B - O % B) % B)))) ++
        flushLeaves ((feed B ([], []) ((S.drop O).drop ((B - O % B) % B))).1,
          (feed B ([], []) ((S.drop O).drop ((B - O % B) % B))).2) = _
    rw [List.nil_append]
    generalize hh2 : (B - O % B) % B = h
    have hS : S = (S.take O ++ (S.drop O).take h) ++ (S.drop O).drop h := by
      rw [List.append_assoc, List.take_append_drop, List.take_append_drop]
    conv_rhs => rw [hS, feed_append]
    generalize hP : feed B ([], []) (S.take O ++ (S.drop O).take h) = accP
    obtain ⟨LP, bP⟩ := accP
    by_cases hr : (S.drop O).drop h = []
    · rw [hr, feed_nil, feed_nil]
      show flushLeaves (LP, bP) ++ flushLeaves ([], []) = _
      unfold flushLeaves
      simp
    · have hlen : h < (S.drop O).length := by
        by_contra hc
        exact hr (List.drop_eq_nil_of_le (by omega))
      have hbl := feed_buf_length B hB (S.take O ++ (S.drop O).take h) [] [] hB
      rw [hP] at hbl
      have hlen2 : (S.take O ++ (S.drop O).take h).length = O + h := by
        rw [List.length_append, List.length_take, List.length_take, List.length_drop]
        rw [List.length_drop] at hlen
        omega
      rw [hlen2, List.length_nil, Nat.zero_add, ← hh2, offset_to_boundary B O hB] at hbl
      have hb : bP = [] := List.length_eq_zero.1 hbl
      subst hb
      rw [feed_shift B _ LP [], flushLeaves_shift]
      congr 1

theorem mth_prepend_equals_full_witness :
    0 < 4 ∧ 1 ≤ "abcdefghij".toList.length ∧ 6 < "abcdefghij".toList.length ∧
    ∃ st : MTH,
      ((MTHNew 4 "abcdefghij".toList.length 6).Write ("abcdefghij".toList.drop 6)).PrependFrom
        "abcdefghij".toList = .ok (st, "abcdefghij".toList.drop 6) ∧
      st.Sum = ((MTHNew 4 "abcdefghij".toList.length 0).Write "abcdefghij".toList).Sum :=
  ⟨by decide, by decide, by decide,
    mth_prepend_equals_full 4 (by decide) "abcdefghij".toList 6 (by decide) (by decide)⟩

/-! ## C18: the unknown length -/

/-- C18 (failing input): with leaves of 4 bytes, the digest of `MTHNew(0, 0)` after
one `Write` of the 5 bytes `abcde` is the flat hash of the 5 bytes, while the digest
of `MTHNew(5, 0)` after the writes of `ab` and `cde` combines the hashes of the two
leaves `abcd` and `e`. -/
theorem mth_flat_differs_from_tree :
    ((MTHNew 4 0 0).Write "abcde".toList).Sum = Digest.leaf "abcde".toList ∧
    (copyParts (MTHNew 4 5 0) ["ab".toList, "cde".toList]).Sum =
      Digest.node (Digest.leaf "abcd".toList) (Digest.leaf "e".toList) ∧
    ((MTHNew 4 0 0).Write "abcde".toList).Sum ≠
      (copyParts (MTHNew 4 5 0) ["ab".toList, "cde".toList]).Sum := by
  decide

/-- For every leaf size and every byte string `S` of length `L`, written in whatever
sequence of parts, the digest of `MTHNew(L, 0)` after the writes of the parts is the
digest after one write of `S`; and when `S` is no longer than one leaf, it is the digest
of `MTHNew(0, 0)` after a single `Write(S)`. -/
theorem mth_flat_equals_tree_in_one_leaf (B : Nat) (S : Str)
    (parts : List Str) (hparts : parts.flatten = S) :
    (copyParts (MTHNew B S.length 0) parts).Sum = ((MTHNew B S.length 0).Write S).Sum ∧
    (S.length ≤ B →
      ((MTHNew B 0 0).Write S).Sum = (copyParts (MTHNew B S.length 0) parts).Sum) := by
  rw [copyParts_flatten, hparts]
  refine ⟨rfl, fun hle => ?_⟩
  cases S with
  | nil => rfl
  | cons c x =>
    have hL0 : (c :: x).length ≠ 0 := by simp
    rw [sum_write_full B _ hL0, write_flat _ _ rfl]
    show Digest.leaf ([] ++ c :: x) = _
    rw [List.nil_append]
    by_cases he : (c :: x).length = B
    · rw [feed_exact B (c :: x) [] [] (List.cons_ne_nil _ _) (by simpa using he)]
      rfl
    · rw [feed_short B (c :: x) [] [] (by simp only [List.length_nil]; omega)]
      rfl

theorem mth_flat_equals_tree_in_one_leaf_witness :
    ["ab".toList, "cd".toList].flatten = "abcd".toList ∧
    (copyParts (MTHNew 4 "abcd".toList.length 0) ["ab".toList, "cd".toList]).Sum =
      ((MTHNew 4 "abcd".toList.length 0).Write "abcd".toList).Sum ∧
    ("abcd".toList.length ≤ 4 →
      ((MTHNew 4 0 0).Write "abcd".toList).Sum =
        (copyParts (MTHNew 4 "abcd".toList.length 0) ["ab".toList, "cd".toList]).Sum) :=
  ⟨by decide,
    mth_flat_equals_tree_in_one_leaf 4 "abcd".toList
      ["ab".toList, "cd".toList] (by decide)⟩

/-! ## C22: the metas after a failed one -/

/-- C22 (failing input): in the directory `/in` with the meta of `a`, whose second chunk
is missing, listed before the meta of `f`, whose chunks are complete, the run for the
node and the run for all nodes call `process` for the meta of `a` only, leave all
files as they were and report the failure; on its own the meta of `f` is reassembled
into `/in/f`. -/
theorem reass_skips_metas_after_failure :
    (findMetas mainEnv0 wTwoMetas "/in".toList).1 =
      ["/in/a.nncp.meta".toList, "/in/f.nncp.meta".toList] ∧
    (reassMain mainEnv0 (some nodeA) [] false false wTwoMetas).invoked =
      ["/in/a.nncp.meta".toList] ∧
    (reassMain mainEnv0 (some nodeA) [] false false wTwoMetas).hasErrors = true ∧
    (reassMain mainEnv0 (some nodeA) [] false false wTwoMetas).world.files = wTwoMetas.files ∧
    (reassMain mainEnv0 none [nodeA] false false wTwoMetas).invoked =
      ["/in/a.nncp.meta".toList] ∧
    (reassMain mainEnv0 none [nodeA] false false wTwoMetas).world.files = wTwoMetas.files ∧
    (reassMain mainEnv0 (some nodeA) [] false false wOneMeta).invoked =
      ["/in/f.nncp.meta".toList] ∧
    (reassMain mainEnv0 (some nodeA) [] false false wOneMeta).hasErrors = false ∧
    (reassMain mainEnv0 (some nodeA) [] false false wOneMeta).world.readFile "/in/f".toList =
      some "abcdef".toList := by
  decide

/-! ## C23 and C26: the integrity check -/

theorem checkXxLoop_files (hash : Str → Str) :
    ∀ (jobs : List CheckJob) (b : Bool) (checked : List Str) (w : World),
      (checkXxLoop hash jobs b checked w).world.files = w.files ∧
      (checkXxLoop hash jobs b checked w).world.dirs = w.dirs := by
  intro jobs
  induction jobs with
  | nil => intro b checked w; exact ⟨rfl, rfl⟩
  | cons job rest ih =>
    intro b checked w
    unfold checkXxLoop
    dsimp only
    cases (Check hash job.content job.readErr job.hshValue).2 with
    | true => exact ⟨rfl, rfl⟩
    | false =>
      cases (Check hash job.content job.readErr job.hshValue).1 with
      | true => exact ih _ _ _
      | false => exact ih _ _ _

theorem ctxCheck_files (hash : Str → Str) (rx tx : List CheckJob) (w : World) :
    (CtxCheck hash rx tx w).world.files = w.files ∧
    (CtxCheck hash rx tx w).world.dirs = w.dirs := by
  unfold CtxCheck checkXx
  dsimp only
  have h1 := checkXxLoop_files hash rx false [] w
  cases (checkXxLoop hash rx false [] w).bad with
  | true => exact h1
  | false =>
    have h2 := checkXxLoop_files hash tx false (checkXxLoop hash rx false [] w).checked
      (checkXxLoop hash rx false [] w).world
    exact ⟨h2.1.trans h1.1, h2.2.trans h1.2⟩

theorem check_true_iff (hash : Str → Str) (src : Str) (srcErr : Bool) (checksum : Str) :
    (Check hash src srcErr checksum).1 = true ↔ srcErr = false ∧ hash src = checksum := by
  unfold Check
  cases srcErr <;> simp

/-- C23 (failing input): with one packet in the rx queue whose digest differs, `Ctx.Check`
calls `Check` for that packet only and never for the packet of the tx queue, whose
digest differs too; with a good packet in the rx queue the packet of the tx queue is
checked. A packet that cannot be read ends the check of its queue before the packets
behind it. -/
theorem check_skips_tx_after_bad_rx :
    (CtxCheck hash0 [cjBad "r1"] [cjBad "t1"] w0).checked = ["r1".toList] ∧
    (CtxCheck hash0 [cjBad "r1"] [cjBad "t1"] w0).bad = true ∧
    (CtxCheck hash0 [cjGood "r1"] [cjBad "t1"] w0).checked = ["r1".toList, "t1".toList] ∧
    (CtxCheck hash0 [cjGood "r1"] [cjBad "t1"] w0).bad = true ∧
    (CtxCheck hash0 [cjUnreadable "r1", cjBad "r2"] [cjBad "t1"] w0).checked =
      ["r1".toList, "t1".toList] := by
  decide

/-- C26 (failing input): for the queue of a packet whose digest differs followed by a
packet that cannot be read to the end, `checkXx` returns `false`, while for the first
packet alone it returns `true`. -/
theorem checkXx_forgets_bad_on_read_error :
    (Check hash0 (cjBad "r1").content (cjBad "r1").readErr (cjBad "r1").hshValue).1 = false ∧
    (checkXx hash0 [cjBad "r1"] [] w0).bad = true ∧
    (checkXx hash0 [cjBad "r1", cjUnreadable "r2"] [] w0).checked =
      ["r1".toList, "r2".toList] ∧
    (checkXx hash0 [cjBad "r1", cjUnreadable "r2"] [] w0).bad = false := by
  decide

/-! ## C24: sizes given in KiB -/

theorem kibToBytes_exact (v : Nat) (h : v < 2 ^ 53) : kibToBytes v = 1024 * (v : Int) := by
  unfold kibToBytes wrapInt64
  have h1 : ((v % 2 ^ 64 : Nat) : Int) = (v : Int) := by
    rw [Nat.mod_eq_of_lt (by omega)]
  push_cast at h1 ⊢
  omega

/-- C24 (failing input): for the configured value `freqchunked` = 2^54, which is not
zero, `NewNode` returns no error and sets `FreqChunked` to 0; for 2^53 it sets
`FreqChunked` to -2^63; `freqminsize` = 2^54 gives `FreqMinSize` = 0; and nncp-file
with `-chunked` 2^54 calls `TxFileChunked` with the chunk size 0. -/
theorem newNode_freqChunked_wraps :
    NewNodeFreq (some (2 ^ 54)) (some (2 ^ 54)) = .ok (0, 0) ∧
    NewNodeFreq (some (2 ^ 53)) none = .ok (-(2 ^ 63), 0) ∧
    NewNodeFreq (some 0) none = .error "freqchunked value must be greater than zero" ∧
    NewNodeFreq (some 4) (some 1) = .ok (4096, 1024) ∧
    fileTx nodeA 196 "s".toList "d".toList 1 (2 ^ 54) =
      .fileChunked nodeA 196 "s".toList "d".toList 1024 0 := by
  refine ⟨rfl, rfl, rfl, rfl, rfl⟩

/-! ## C27: the panics of `process` -/

/-- C27 (failing input): for a meta with the chunk size 0 and one checksum, which passes
the checks of the magic and of the suffix, and whose chunk exists, `process` ends with a
panic (the remainder by zero); and for a meta whose second chunk `os.Stat` cannot
examine for another reason than its absence, `process` ends with a panic (`fi` is
nil). -/
theorem process_panics :
    reEnvZeroChunk.decodeMeta "meta60".toList = some meta60 ∧
    meta60.magic = reEnvZeroChunk.magicNNCPMv1 ∧ meta60.chunkSize = 0 ∧
    (process reEnvZeroChunk "/in/f.nncp.meta".toList false false false false wChunks60).ctl =
      .panic ∧
    stat reEnvStatFails.toEnv wChunks64Good "/in/f.nncp.chunk1".toList = .failed ∧
    (process reEnvStatFails "/in/f.nncp.meta".toList false false false false wChunks64Good).ctl =
      .panic := by
  decide

/-! ## C28: the panics of `Humanize` -/

theorem humanize_unparsed (he : HumanizeEnv) (line : Str)
    (h : (splitN ' ' 4 (trimRightNL line)).length ≠ 4 ∨
      ∀ f0 f1 f2 f3, splitN ' ' 4 (trimRightNL line) = [f0, f1, f2, f3] →
        he.parseTime f1 = none) :
    Humanize he line = some (trimRightNL line) := by
  unfold Humanize
  dsimp only
  split
  · rename_i f0 f1 f2 f3 heq
    rcases h with h | h
    · rw [heq] at h; exact absurd rfl h
    · rw [h f0 f1 f2 f3 heq]
  · rfl

/-- C28 (failing input): `Humanize` panics on the line `I 2020-01-01T00:00:00Z  x`, whose
third field between the two spaces is empty (`splitted[2][1:]` is out of range), and on
an `llp-file` record with `fullsize="0"` (the division `100*sizeParsed/fullsize`); the
same record with `fullsize="10"` is humanized. -/
theorem humanize_panics :
    splitN ' ' 4 "I 2020-01-01T00:00:00Z  x".toList =
      ["I".toList, "2020-01-01T00:00:00Z".toList, [], "x".toList] ∧
    Humanize hEnv0 "I 2020-01-01T00:00:00Z  x".toList = none ∧
    Humanize hEnv0
      "I 2020-01-01T00:00:00Z [llp-file xx=\"rx\" fullsize=\"0\" size=\"5\" hash=\"H\"] \n".toList
      = none ∧
    Humanize hEnv0
      "I 2020-01-01T00:00:00Z [llp-file xx=\"rx\" fullsize=\"10\" size=\"5\" hash=\"H\"] \n".toList
      = some "2020-01-01T00:00:00Z Got file H 50% (5 B / 10 B)".toList := by
  decide

/-! ## Lemmas: a successful run of `process` -/

theorem reassDstPath_chosen (e : Env) (w : World) (orig : Str)
    (hs : ∀ p, e.statErr p = false) :
    ∃ q, reassDstPath e w orig = .chosen q ∧ w.pathExists q = false := by
  have heq : reassDstPath e w orig = (tossDstPath e w orig).toReass :=
    reassDstLoop_eq e w orig _ _ _
  rw [heq]
  cases h : tossDstPath e w orig with
  | chosen q =>
    refine ⟨q, rfl, ?_⟩
    exact ((stat_notExist_iff e w q).1 (tossDstLoop_chosen e w orig _ _ _ q h).1).2
  | statFailed =>
    obtain ⟨q, hq⟩ := tossDstLoop_statFailed e w orig _ _ _ h
    rw [hs q] at hq
    exact Bool.noConfusion hq
  | outOfFuel => exact absurd h (tossDstPath_ne_outOfFuel e w orig)

theorem checkSizes_pass (re : ReassEnv) (m : ChunkedMeta) (n : Nat) (hcs : m.chunkSize ≠ 0)
    (w : World) :
    ∀ (l : List (Nat × Str)) (b : Bool),
      (∀ ip ∈ l, re.statErr ip.2 = false ∧ w.pathExists ip.2 = true ∧
        badSize m n ip.1 (statSize re w ip.2) = false) →
      checkSizes re m n l w b = (.ok, b, w) := by
  intro l
  induction l with
  | nil => intro b _; rfl
  | cons ip rest ih =>
    intro b h
    obtain ⟨i, p⟩ := ip
    obtain ⟨h1, h2, h3⟩ := h (i, p) (List.mem_cons_self _ _)
    unfold checkSizes
    rw [stat_of_statErr _ _ _ h1, h2, if_pos rfl]
    dsimp only
    rw [if_neg (fun h => hcs h.2), h3]
    exact ih b (fun ip hip => h ip (List.mem_cons_of_mem _ hip))

theorem checkSums_pass (re : ReassEnv) (m : ChunkedMeta) (w : World)
    (hop : ∀ p, re.openErr p = false) (hrd : ∀ p, re.readErr p = false) :
    ∀ (l : List (Nat × Str)) (b : Bool),
      (∀ ip ∈ l, ∃ c, w.readFile ip.2 = some c ∧
        re.blake2b256 c = m.checksums.getD ip.1 []) →
      checkSums re m l w b = (.ok, b, w) := by
  intro l
  induction l with
  | nil => intro b _; rfl
  | cons ip rest ih =>
    intro b h
    obtain ⟨i, p⟩ := ip
    obtain ⟨c, h1, h2⟩ := h (i, p) (List.mem_cons_self _ _)
    unfold checkSums
    rw [h1]
    dsimp only
    rw [hop p, hrd p, h2]
    simp only [Bool.or_self, Bool.false_eq_true, if_false, bne_self_eq_false]
    exact ih b (fun ip hip => h ip (List.mem_cons_of_mem _ hip))

theorem filter_ne_of_forall (fs : List (Str × Str)) (t : Str) (h : ∀ e ∈ fs, e.1 ≠ t) :
    fs.filter (fun e => e.1 != t) = fs := by
  rw [List.filter_eq_self]
  intro e he
  simpa using h e he

theorem fileContent_filter_ne (fs : List (Str × Str)) (p x : Str) (h : x ≠ p) :
    fileContent (fs.filter (fun e => e.1 != p)) x = fileContent fs x := by
  unfold fileContent
  rw [find_filter_ne fs p x h]

theorem copyChunks_spec (re : ReassEnv) (keep : Bool) (t : Str)
    (hop : ∀ p, re.openErr p = false) (hrd : ∀ p, re.readErr p = false)
    (hcp : ∀ a c, re.copyErr a c = false) (hrm : ∀ p, re.removeErr p = false) :
    ∀ (l : List (Nat × Str)) (w : World) (fs : List (Str × Str)) (acc : Str) (b : Bool),
      w.files = (t, acc) :: fs →
      (∀ e ∈ fs, e.1 ≠ t) →
      (∀ ip ∈ l, ip.2 ≠ t ∧ fs.any (fun e => e.1 == ip.2) = true) →
      (l.map Prod.snd).Nodup →
      (copyChunks re keep (some t) l w acc b).1 = .ok ∧
      (copyChunks re keep (some t) l w acc b).2.1 = b ∧
      (copyChunks re keep (some t) l w acc b).2.2.2 = acc ++ chunkData fs l ∧
      (copyChunks re keep (some t) l w acc b).2.2.1.files =
        (t, acc ++ chunkData fs l) ::
          (if keep then fs else fs.filter (fun e => !(l.map Prod.snd).contains e.1)) ∧
      (copyChunks re keep (some t) l w acc b).2.2.1.dirs = w.dirs := by
  intro l
  induction l with
  | nil =>
    intro w fs acc b hw _ _ _
    unfold copyChunks chunkData
    refine ⟨rfl, rfl, by simp, ?_, rfl⟩
    cases keep <;> simp [hw]
  | cons ip rest ih =>
    intro w fs acc b hw hfs hl hnd
    obtain ⟨i, p⟩ := ip
    obtain ⟨hpt, hpin⟩ := hl (i, p) (List.mem_cons_self _ _)
    have hrest : ∀ ip ∈ rest, ip.2 ≠ t ∧ fs.any (fun e => e.1 == ip.2) = true :=
      fun ip hip => hl ip (List.mem_cons_of_mem _ hip)
    rw [List.map_cons, List.nodup_cons] at hnd
    have hfind : ∃ c, fs.find? (fun e => e.1 == p) = some c := by
      cases hf : fs.find? (fun e => e.1 == p) with
      | some c => exact ⟨c, rfl⟩
      | none =>
        rw [List.find?_eq_none] at hf
        rw [List.any_eq_true] at hpin
        obtain ⟨x, hx, hxp⟩ := hpin
        exact absurd hxp (hf x hx)
    obtain ⟨c, hc⟩ := hfind
    have hread : w.readFile p = some c.2 := by
      unfold World.readFile
      rw [hw, List.find?_cons_of_neg _ (by simpa using fun h => hpt h.symm), hc]
      rfl
    have hcont : fileContent fs p = c.2 := by
      unfold fileContent; rw [hc]; rfl
    have hdata : chunkData fs ((i, p) :: rest) = c.2 ++ chunkData fs rest := by
      unfold chunkData
      rw [List.map_cons, List.flatten_cons, hcont]
    have hw1 : (w.writeFile t (acc ++ c.2)).files = (t, acc ++ c.2) :: fs := by
      show (t, acc ++ c.2) :: w.files.filter (fun e => e.1 != t) = _
      rw [hw, List.filter_cons_of_neg (by simp), filter_ne_of_forall fs t hfs]
    unfold copyChunks
    rw [hread]
    dsimp only
    rw [hop p, hrd p, hcp t c.2]
    simp only [Bool.or_self, Bool.false_eq_true, if_false]
    cases keep with
    | true =>
      simp only [if_true]
      obtain ⟨h1, h2, h3, h4, h5⟩ :=
        ih (w.writeFile t (acc ++ c.2)) fs (acc ++ c.2) b hw1 hfs hrest hnd.2
      rw [hdata, ← List.append_assoc]
      exact ⟨h1, h2, h3, h4, h5⟩
    | false =>
      have hisf : (w.writeFile t (acc ++ c.2)).isFile p = true := by
        unfold World.isFile
        rw [hw1, List.any_cons, hpin, Bool.or_true]
      rw [hrm p, hisf]
      simp only [Bool.not_true, Bool.or_self, Bool.false_eq_true, if_false]
      have hw2 : ((w.writeFile t (acc ++ c.2)).unlink p).files =
          (t, acc ++ c.2) :: fs.filter (fun e => e.1 != p) := by
        show (w.writeFile t (acc ++ c.2)).files.filter (fun e => e.1 != p) = _
        rw [hw1, List.filter_cons_of_pos (by simpa using fun h => hpt h.symm)]
      have hfs2 : ∀ e ∈ fs.filter (fun e => e.1 != p), e.1 ≠ t :=
        fun e he => hfs e (List.mem_filter.1 he).1
      have hne : ∀ ip ∈ rest, ip.2 ≠ p := by
        intro ip hip h
        apply hnd.1
        show p ∈ List.map Prod.snd rest
        rw [← h]
        exact List.mem_map_of_mem Prod.snd hip
      have hrest2 : ∀ ip ∈ rest, ip.2 ≠ t ∧
          (fs.filter (fun e => e.1 != p)).any (fun e => e.1 == ip.2) = true := by
        intro ip hip
        refine ⟨(hrest ip hip).1, ?_⟩
        rw [any_filter_ne fs p ip.2 (hne ip hip)]
        exact (hrest ip hip).2
      obtain ⟨h1, h2, h3, h4, h5⟩ :=
        ih ((w.writeFile t (acc ++ c.2)).unlink p) (fs.filter (fun e => e.1 != p))
          (acc ++ c.2) b hw2 hfs2 hrest2 hnd.2
      have hd2 : chunkData (fs.filter (fun e => e.1 != p)) rest = chunkData fs rest := by
        unfold chunkData
        congr 1
        apply List.map_congr_left
        intro ip hip
        exact fileContent_filter_ne fs p ip.2 (hne ip hip)
      rw [hd2] at h3 h4
      rw [hdata, ← List.append_assoc]
      refine ⟨h1, h2, h3, ?_, h5⟩
      rw [h4]
      simp only [Bool.false_eq_true, if_false, List.map_cons, List.filter_filter]
      congr 1
      apply List.filter_congr
      intro e _
      simp only [List.contains_cons, Bool.not_or, Bool.and_comm]
      rfl

theorem not_mem_files_of_not_pathExists (w : World) (t : Str) (h : w.pathExists t = false) :
    ∀ e ∈ w.files, e.1 ≠ t := by
  unfold World.pathExists at h
  rw [Bool.or_eq_false_iff, List.any_eq_false] at h
  intro e he
  simpa using h.1 e he

theorem rename_files (w : World) (t dst c : Str) (fs : List (Str × Str))
    (hw : w.files = (t, c) :: fs) (hfs : ∀ e ∈ fs, e.1 ≠ t) (hd : w.pathExists dst = false) :
    (w.rename t dst).files = (dst, c) :: fs := by
  have hnd := not_mem_files_of_not_pathExists w dst hd
  rw [hw] at hnd
  have hr : w.readFile t = some c := by
    unfold World.readFile
    rw [hw, List.find?_cons_of_pos _ (by simp)]
    rfl
  unfold World.rename
  rw [hr]
  show (dst, c) :: (w.files.filter (fun e => e.1 != t)).filter (fun e => e.1 != dst) = _
  rw [hw, List.filter_cons_of_neg (by simp), filter_ne_of_forall fs t hfs,
    filter_ne_of_forall fs dst (fun e he => hnd e (List.mem_cons_of_mem _ he))]

theorem rename_dirs (w : World) (a b : Str) : (w.rename a b).dirs = w.dirs := by
  unfold World.rename
  cases w.readFile a <;> rfl

theorem assemble_tail (re : ReassEnv) (mainDir mainName t : Str) (wr : World)
    (data : Str) (fs : List (Str × Str)) (b : Bool)
    (hrn : ∀ a b, re.renameErr a b = false) (hst : ∀ p, re.statErr p = false)
    (hw : wr.files = (t, data) :: fs) (hfs : ∀ e ∈ fs, e.1 ≠ t) :
    ∃ dst, (match reassDstPath re.toEnv wr (join mainDir mainName) with
        | .outOfFuel => (⟨.diverge, false, wr, []⟩ : ProcStep)
        | .fatal => ⟨.fatal, false, wr, []⟩
        | .chosen dstPath =>
          if re.renameErr t dstPath then ⟨.fatal, false, wr, []⟩
          else ⟨.ok, !b, (wr.rename t dstPath).logMsg .info "done", []⟩) =
        ⟨.ok, !b, (wr.rename t dst).logMsg .info "done", []⟩ ∧
      (wr.rename t dst).files = (dst, data) :: fs ∧
      fs.any (fun e => e.1 == dst) = false ∧ wr.dirs.contains dst = false := by
  obtain ⟨dst, hd, hpe⟩ := reassDstPath_chosen re.toEnv wr (join mainDir mainName) hst
  refine ⟨dst, ?_, rename_files wr t dst data fs hw hfs hpe, ?_, ?_⟩
  · rw [hd]
    simp only [hrn, Bool.false_eq_true, if_false]
  · have := not_mem_files_of_not_pathExists wr dst hpe
    rw [hw] at this
    rw [List.any_eq_false]
    intro e he
    simpa using this e (List.mem_cons_of_mem _ he)
  · unfold World.pathExists at hpe
    rw [Bool.or_eq_false_iff] at hpe
    exact hpe.2

theorem assemble_spec (re : ReassEnv) (path mainDir mainName : Str) (keep : Bool)
    (chunks : List (Nat × Str)) (w : World) (t : Str)
    (hop : ∀ p, re.openErr p = false) (hrd : ∀ p, re.readErr p = false)
    (hcp : ∀ a c, re.copyErr a c = false) (hfl : ∀ a c, re.flushErr a c = false)
    (hrm : ∀ p, re.removeErr p = false) (hrn : ∀ a b, re.renameErr a b = false)
    (hst : ∀ p, re.statErr p = false)
    (htmp : re.reassTemp w mainDir = some t) (hfresh : w.pathExists t = false)
    (hmeta : w.isFile path = true)
    (hnd : (chunks.map Prod.snd).Nodup) (hpath : path ∉ chunks.map Prod.snd)
    (hex : ∀ ip ∈ chunks, w.isFile ip.2 = true) :
    (assemble re path mainDir mainName keep false chunks w).ctl = .ok ∧
    (assemble re path mainDir mainName keep false chunks w).ret = true ∧
    ∃ dst,
      (assemble re path mainDir mainName keep false chunks w).world.files =
        (dst, chunkData w.files chunks) :: keptFiles keep w.files chunks path ∧
      (assemble re path mainDir mainName keep false chunks w).world.dirs = w.dirs ∧
      (keptFiles keep w.files chunks path).any (fun e => e.1 == dst) = false ∧
      w.dirs.contains dst = false := by
  have hnt := not_mem_files_of_not_pathExists w t hfresh
  have hw1 : ((w.writeFile t []).logMsg .debug "created").files = (t, []) :: w.files := by
    show (t, []) :: w.files.filter (fun e => e.1 != t) = _
    rw [filter_ne_of_forall w.files t hnt]
  have hl : ∀ ip ∈ chunks, ip.2 ≠ t ∧ w.files.any (fun e => e.1 == ip.2) = true := by
    intro ip hip
    refine ⟨?_, hex ip hip⟩
    intro h
    have h1 := hex ip hip
    unfold World.isFile at h1
    rw [List.any_eq_true] at h1
    obtain ⟨e, he, hep⟩ := h1
    exact hnt e he ((beq_iff_eq.1 hep).trans h)
  obtain ⟨h1, h2, h3, h4, h5⟩ := copyChunks_spec re keep t hop hrd hcp hrm chunks
    ((w.writeFile t []).logMsg .debug "created") w.files [] false hw1 hnt hl hnd
  rw [List.nil_append] at h3 h4
  unfold assemble
  simp only [Bool.false_eq_true, if_false, htmp, Option.map_some']
  generalize copyChunks re keep (some t) chunks ((w.writeFile t []).logMsg .debug "created")
    [] false = r at h1 h2 h3 h4 h5
  obtain ⟨c1, b1, w2, acc⟩ := r
  dsimp only at h1 h2 h3 h4 h5
  subst h1 h2 h3
  simp only [hfl, Bool.false_eq_true, if_false]
  cases keep with
  | true =>
    simp only [if_true] at h4 ⊢
    obtain ⟨dst, he, hf, hany, hdir⟩ := assemble_tail re mainDir mainName t
      (w2.logMsg .debug "written") (chunkData w.files chunks) w.files false hrn hst h4 hnt
    rw [he]
    have h5b : w2.dirs = w.dirs := h5
    refine ⟨rfl, rfl, dst, hf, ?_, hany, ?_⟩
    · exact (rename_dirs _ t dst).trans h5b
    · rw [← h5b]; exact hdir
  | false =>
    simp only [Bool.false_eq_true, if_false] at h4 ⊢
    have hfs : ∀ e ∈ w.files.filter (fun e => !(chunks.map Prod.snd).contains e.1), e.1 ≠ t :=
      fun e he => hnt e (List.mem_filter.1 he).1
    have hisf : (w2.logMsg .debug "written").isFile path = true := by
      show w2.files.any (fun e => e.1 == path) = true
      rw [h4, List.any_cons, List.any_eq_true.2, Bool.or_true]
      unfold World.isFile at hmeta
      rw [List.any_eq_true] at hmeta
      obtain ⟨e, he, hep⟩ := hmeta
      refine ⟨e, List.mem_filter.2 ⟨he, ?_⟩, hep⟩
      rw [beq_iff_eq.1 hep]
      simpa using hpath
    rw [hrm path, hisf]
    simp only [Bool.not_true, Bool.or_self, Bool.false_eq_true, if_false]
    have hpt : path ≠ t := by
      intro h
      unfold World.isFile at hmeta
      rw [List.any_eq_true] at hmeta
      obtain ⟨e, he, hep⟩ := hmeta
      exact hnt e he ((beq_iff_eq.1 hep).trans h)
    have hwr : ((w2.logMsg .debug "written").unlink path).files =
        (t, chunkData w.files chunks) :: keptFiles false w.files chunks path := by
      show w2.files.filter (fun e => e.1 != path) = _
      rw [h4, List.filter_cons_of_pos (by simpa using fun h => hpt h.symm)]
      rfl
    have hfs2 : ∀ e ∈ keptFiles false w.files chunks path, e.1 ≠ t :=
      fun e he => hfs e (List.mem_filter.1 he).1
    obtain ⟨dst, he, hf, hany, hdir⟩ := assemble_tail re mainDir mainName t
      ((w2.logMsg .debug "written").unlink path) (chunkData w.files chunks)
      (keptFiles false w.files chunks path) false hrn hst hwr hfs2
    rw [he]
    have h5b : w2.dirs = w.dirs := h5
    refine ⟨rfl, rfl, dst, hf, ?_, hany, ?_⟩
    · exact (rename_dirs _ t dst).trans h5b
    · rw [← h5b]; exact hdir

/-! ## C21: the reassembly -/

/-- C21 (counterexample): for the meta of `f` whose two chunks are there with the
expected sizes and digests, `process` with `dumpMeta` returns true and leaves every file
as it was, without a destination file although `keep` is off; and when `os.Remove`
fails, `process` writes the destination file `/in/f` and returns false. -/
theorem process_complete_not_reassembled :
    process reEnv0 "/in/f.nncp.meta".toList false false false true wChunks64Good =
      ⟨.ok, true, wChunks64Good, []⟩ ∧
    (process reEnvRemoveFails "/in/f.nncp.meta".toList false false false false
      wChunks64Good).ctl = .ok ∧
    (process reEnvRemoveFails "/in/f.nncp.meta".toList false false false false
      wChunks64Good).ret = false ∧
    (process reEnvRemoveFails "/in/f.nncp.meta".toList false false false false
      wChunks64Good).world.readFile "/in/f".toList = some "abcdef".toList := by
  decide

/-- C21 (amended): `process`, called with `dryRun`, `stdout` and `dumpMeta` off for a
readable meta file that decodes to a meta with the right magic, a nonzero chunk size
and a name with the meta suffix, when the expected chunk paths differ from each other
and from the meta path, every expected chunk is a file that passes the size test of the
code and has the recorded digest, the temporary file gets a name not in use, and no call
of the operating system fails: `process` returns true, and the files afterwards are the
destination file, under a name that was free, whose content is the concatenation of
the chunks in index order, and the files of before, all of them when `keep` is set and
all but the chunk files and the meta file when it is not; the directories are those of
before. -/
theorem process_reassembles (re : ReassEnv) (path : Str) (keep : Bool) (w : World)
    (content : Str) (m : ChunkedMeta) (t : Str)
    (hmeta : w.readFile path = some content)
    (hdec : re.decodeMeta content = some m)
    (hmagic : m.magic = re.magicNNCPMv1)
    (hsuf : re.suffixMeta.isSuffixOf (base path) = true)
    (hcs : m.chunkSize ≠ 0)
    (hop : ∀ p, re.openErr p = false) (hrd : ∀ p, re.readErr p = false)
    (hcp : ∀ a c, re.copyErr a c = false) (hfl : ∀ a c, re.flushErr a c = false)
    (hrm : ∀ p, re.removeErr p = false) (hrn : ∀ a b, re.renameErr a b = false)
    (hst : ∀ p, re.statErr p = false)
    (htmp : re.reassTemp w (dir path) = some t) (hfresh : w.pathExists t = false)
    (hnd : ((expectedChunks re path m).map Prod.snd).Nodup)
    (hpath : path ∉ (expectedChunks re path m).map Prod.snd)
    (hchunks : ∀ ip ∈ expectedChunks re path m, ∃ c, w.readFile ip.2 = some c ∧
      badSize m m.checksums.length ip.1 c.length = false ∧
      re.blake2b256 c = m.checksums.getD ip.1 []) :
    (process re path keep false false false w).ctl = .ok ∧
    (process re path keep false false false w).ret = true ∧
    ∃ dst,
      (process re path keep false false false w).world.files =
        (dst, chunkData w.files (expectedChunks re path m)) ::
          keptFiles keep w.files (expectedChunks re path m) path ∧
      (process re path keep false false false w).world.dirs = w.dirs ∧
      (keptFiles keep w.files (expectedChunks re path m) path).any (fun e => e.1 == dst) =
        false ∧
      w.dirs.contains dst = false := by
  rw [process_checked re path keep false false w content m hmeta (hop path) (hrd path) hdec
    hmagic hsuf]
  have hsz : ∀ ip ∈ expectedChunks re path m, re.statErr ip.2 = false ∧
      w.pathExists ip.2 = true ∧
      badSize m m.checksums.length ip.1 (statSize re w ip.2) = false := by
    intro ip hip
    obtain ⟨c, hc, hb, _⟩ := hchunks ip hip
    refine ⟨hst ip.2, pathExists_of_isFile w ip.2 (isFile_of_readFile w ip.2 c hc), ?_⟩
    unfold statSize
    rw [hc]
    exact hb
  have hsm : ∀ ip ∈ expectedChunks re path m, ∃ c, w.readFile ip.2 = some c ∧
      re.blake2b256 c = m.checksums.getD ip.1 [] := by
    intro ip hip
    obtain ⟨c, hc, _, hd⟩ := hchunks ip hip
    exact ⟨c, hc, hd⟩
  rw [checkSizes_pass re m m.checksums.length hcs w (expectedChunks re path m) true hsz]
  simp only [Bool.not_true, Bool.false_eq_true, if_false]
  rw [checkSums_pass re m w hop hrd (expectedChunks re path m) true hsm]
  simp only [Bool.not_true, Bool.false_eq_true, if_false]
  exact assemble_spec re path (dir path) _ keep (expectedChunks re path m) w t hop hrd hcp hfl
    hrm hrn hst htmp hfresh (isFile_of_readFile w path content hmeta) hnd hpath
    (fun ip hip => by
      obtain ⟨c, hc, _, _⟩ := hchunks ip hip
      exact isFile_of_readFile w ip.2 c hc)

theorem process_reassembles_witness :
    (process reEnv0 "/in/f.nncp.meta".toList false false false false wChunks64Good).ctl = .ok ∧
    (process reEnv0 "/in/f.nncp.meta".toList false false false false wChunks64Good).ret = true ∧
    ∃ dst,
      (process reEnv0 "/in/f.nncp.meta".toList false false false false
        wChunks64Good).world.files =
        (dst, chunkData wChunks64Good.files
          (expectedChunks reEnv0 "/in/f.nncp.meta".toList meta64)) ::
          keptFiles false wChunks64Good.files
            (expectedChunks reEnv0 "/in/f.nncp.meta".toList meta64) "/in/f.nncp.meta".toList ∧
      (process reEnv0 "/in/f.nncp.meta".toList false false false false
        wChunks64Good).world.dirs = wChunks64Good.dirs ∧
      (keptFiles false wChunks64Good.files
        (expectedChunks reEnv0 "/in/f.nncp.meta".toList meta64)
        "/in/f.nncp.meta".toList).any (fun e => e.1 == dst) = false ∧
      wChunks64Good.dirs.contains dst = false :=
  process_reassembles reEnv0 "/in/f.nncp.meta".toList false wChunks64Good "meta64".toList
    meta64 "/in/nncp-reass1".toList (by decide) (by decide) (by decide) (by decide)
    (by decide) (fun _ => rfl) (fun _ => rfl) (fun _ _ => rfl) (fun _ _ => rfl)
    (fun _ => rfl) (fun _ _ => rfl) (fun _ => rfl) (by decide) (by decide) (by decide)
    (by decide)
    (by
      have he : expectedChunks reEnv0 "/in/f.nncp.meta".toList meta64 =
          [(0, "/in/f.nncp.chunk0".toList), (1, "/in/f.nncp.chunk1".toList)] := by decide
      rw [he]
      intro ip hip
      rcases List.mem_cons.1 hip with h | h
      · subst h; exact ⟨"abcd".toList, by decide, by decide, by decide⟩
      · rcases List.mem_cons.1 h with h | h
        · subst h; exact ⟨"ef".toList, by decide, by decide, by decide⟩
        · cases h)

end Nncp
